import Mathlib

/-!
The todo model layer (`model/model.go`).

A shallow embedding of the storage-and-query engine of the todo service:
the global `lists` map with the five operations `AddList`, `AddTask`,
`SetCompleted`, `GetList` and `GetLists`, together with the parts of the Go
libraries they call (`uuid.Parse`, `UUID.String`, `regexp.QuoteMeta`,
`regexp.Compile`, `Regexp.MatchString`, `sort.Slice`, `bytes.Compare`).

Conventions of the embedding.

* A Go `string` is a sequence of bytes (`GoString`); `<` on strings is the
  byte-wise lexicographic comparison `bytesLess`.
* The global variable `lists` is passed explicitly; an operation that writes
  returns the new value of `lists` next to its status.  The lock is not
  modelled: every operation is one atomic step.
* A Go map is a `GoMap`: a finite set of bindings with pairwise different
  keys.  The bindings are kept in ascending key order, so two maps are equal
  exactly when they hold the same bindings.  The order in which a `range`
  loop visits a map is not fixed by Go; each reading operation therefore
  takes a `MapIter`, which supplies that order.
* `int` is the 64-bit signed integer; the one addition that can overflow is
  wrapped with `wrapInt64`.  A run-time panic is the result `none`.
-/

/-! # Part I: the program -/

/-! ## Bytes and strings -/

/-- One byte. -/
abbrev Byte := Fin 256

/-- A Go string: an immutable sequence of bytes, not necessarily UTF-8. -/
abbrev GoString := List Byte

/-- The bytes (UTF-8) of a string literal, used to write concrete inputs. -/
def str (s : String) : GoString :=
  s.toList.flatMap (fun c => (String.utf8EncodeChar c).map (fun b => b.val))

/-- Byte-wise lexicographic "less than": Go's `<` on strings, and
`bytes.Compare(a, b) < 0` on byte slices. -/
def bytesLess : List Byte → List Byte → Bool
  | [], [] => false
  | [], _ :: _ => true
  | _ :: _, [] => false
  | a :: as, b :: bs => if a < b then true else if b < a then false else bytesLess as bs

/-! ## Package `net/http`: the status codes used -/

namespace http

def StatusOK : Int := 200

def StatusCreated : Int := 201

def StatusBadRequest : Int := 400

def StatusNotFound : Int := 404

def StatusConflict : Int := 409

end http

/-! ## Package `github.com/google/uuid` -/

namespace uuid

/-- A UUID is an array of 16 bytes (`type UUID [16]byte`). -/
structure UUID where
  bytes : List Byte
  size : bytes.length = 16
  deriving DecidableEq

/-- The table `xvalues`: the value of a hexadecimal digit (either case), or
nothing for any other byte (255 in the Go table). -/
def xvalue (x : Byte) : Option (Fin 16) :=
  if h : 48 ≤ x.val ∧ x.val ≤ 57 then some ⟨x.val - 48, by omega⟩
  else if h : 65 ≤ x.val ∧ x.val ≤ 70 then some ⟨x.val - 55, by omega⟩
  else if h : 97 ≤ x.val ∧ x.val ≤ 102 then some ⟨x.val - 87, by omega⟩
  else none

/-- Function `xtob`: two hexadecimal digits to one byte. -/
def xtob (x1 x2 : Byte) : Option Byte :=
  match xvalue x1, xvalue x2 with
  | some b1, some b2 => some ⟨b1.val * 16 + b2.val, by omega⟩
  | _, _ => none

/-- Decoding of `s[x], s[x+1]` for each offset `x` of a list of offsets. -/
def decodeAt (s : GoString) : List Nat → Option (List Byte)
  | [] => some []
  | x :: xs =>
    match s.get? x, s.get? (x + 1) with
    | some c1, some c2 =>
      match xtob c1 c2 with
      | some v => (decodeAt s xs).map (fun vs => v :: vs)
      | none => none
    | _, _ => none

/-- The offsets of the 16 digit pairs in the hyphenated form. -/
def hyphenatedOffsets : List Nat :=
  [0, 2, 4, 6, 9, 11, 14, 16, 19, 21, 24, 26, 28, 30, 32, 34]

/-- The offsets of the 16 digit pairs in the form without hyphens. -/
def plainOffsets : List Nat :=
  [0, 2, 4, 6, 8, 10, 12, 14, 16, 18, 20, 22, 24, 26, 28, 30]

/-- A UUID from sixteen decoded digit pairs (the length test always succeeds
for a list of sixteen offsets; it carries the array bound). -/
def ofDecoded (s : GoString) (xs : List Nat) : Option UUID :=
  match decodeAt s xs with
  | some vs => if h : vs.length = 16 then some ⟨vs, h⟩ else none
  | none => none

/-- ASCII lower-casing of one byte. -/
def asciiLower (b : Byte) : Byte :=
  if h : 65 ≤ b.val ∧ b.val ≤ 90 then ⟨b.val + 32, by omega⟩ else b

/-- The tail of `Parse`: `s` must have the form
`xxxxxxxx-xxxx-xxxx-xxxx-xxxxxxxxxxxx`. -/
def parseHyphenated (s : GoString) : Option UUID :=
  if s.get? 8 = some 45 ∧ s.get? 13 = some 45 ∧ s.get? 18 = some 45 ∧ s.get? 23 = some 45 then
    ofDecoded s hyphenatedOffsets
  else none

/-- Function `uuid.Parse` (as of version 1.1 of the library).  It accepts the
36-byte hyphenated form, the same after `urn:uuid:` (in any case), the same
between two arbitrary bytes (meant for braces), and 32 hexadecimal digits;
digits may be of either case. -/
def Parse (s : GoString) : Option UUID :=
  if s.length = 36 then parseHyphenated s
  else if s.length = 36 + 9 then
    if (s.take 9).map asciiLower = str "urn:uuid:" then parseHyphenated (s.drop 9) else none
  else if s.length = 36 + 2 then parseHyphenated (s.drop 1)
  else if s.length = 32 then ofDecoded s plainOffsets
  else none

/-- The table `hextable` of `encoding/hex`: the lower-case digit of a value
below 16. -/
def hextable (n : Nat) : Byte :=
  if n < 10 then Fin.ofNat (48 + n) else Fin.ofNat (87 + n)

/-- Function `hex.Encode`: two lower-case digits per byte. -/
def hexEncode : List Byte → GoString
  | [] => []
  | v :: vs => hextable (v.val / 16) :: hextable (v.val % 16) :: hexEncode vs

/-- Method `UUID.String` (through `encodeHex`): the canonical form
`xxxxxxxx-xxxx-xxxx-xxxx-xxxxxxxxxxxx` in lower case. -/
def UUID.String (u : UUID) : GoString :=
  hexEncode (u.bytes.take 4) ++ 45 :: (hexEncode ((u.bytes.drop 4).take 2) ++ 45 ::
    (hexEncode ((u.bytes.drop 6).take 2) ++ 45 :: (hexEncode ((u.bytes.drop 8).take 2) ++ 45 ::
      hexEncode (u.bytes.drop 10))))

end uuid

/-! ## Go maps keyed by UUID -/

/-- Order of two UUIDs: `bytes.Compare(a[:], b[:]) < 0`. -/
def keyLess (a b : uuid.UUID) : Bool := bytesLess a.bytes b.bytes

/-- The value bound to `k` in a list of bindings. -/
def lookupEntry {V : Type} (k : uuid.UUID) : List (uuid.UUID × V) → Option V
  | [] => none
  | (k1, v1) :: t => if k1 = k then some v1 else lookupEntry k t

/-- Binding `k` to `v` in a list of bindings with ascending keys: the binding
of `k` is replaced when there is one, and put at its place otherwise. -/
def insertEntry {V : Type} (k : uuid.UUID) (v : V) : List (uuid.UUID × V) → List (uuid.UUID × V)
  | [] => [(k, v)]
  | (k1, v1) :: t =>
    if k = k1 then (k, v) :: t
    else if keyLess k k1 then (k, v) :: (k1, v1) :: t
    else (k1, v1) :: insertEntry k v t

/-- Keys strictly ascending: in particular no key occurs twice. -/
def Ascending {V : Type} (l : List (uuid.UUID × V)) : Prop :=
  l.Pairwise (fun a b => keyLess a.1 b.1 = true)

/-! The next lemmas are those by which `GoMap.set` keeps the keys ascending. -/

theorem bytesLess_trans : ∀ a b c : List Byte,
    bytesLess a b = true → bytesLess b c = true → bytesLess a c = true
  | [], [], _, h, _ => by simp [bytesLess] at h
  | [], _ :: _, [], _, h => by simp [bytesLess] at h
  | [], _ :: _, _ :: _, _, _ => by simp [bytesLess]
  | _ :: _, [], _, h, _ => by simp [bytesLess] at h
  | _ :: _, _ :: _, [], _, h => by simp [bytesLess] at h
  | a :: as, b :: bs, c :: cs, h1, h2 => by
    simp only [bytesLess] at h1 h2 ⊢
    by_cases hab : a < b
    · by_cases hbc : b < c
      · simp [lt_trans hab hbc]
      · by_cases hcb : c < b
        · simp [hbc, hcb] at h2
        · have : b = c := le_antisymm (not_lt.mp hcb) (not_lt.mp hbc)
          subst this; simp [hab]
    · by_cases hba : b < a
      · simp [hab, hba] at h1
      · have hEq : a = b := le_antisymm (not_lt.mp hba) (not_lt.mp hab)
        subst hEq
        simp only [hab, if_false] at h1
        by_cases hbc : a < c
        · simp [hbc]
        · by_cases hcb : c < a
          · simp [hbc, hcb] at h2
          · simp only [hbc, hcb, if_false] at h2 ⊢
            exact bytesLess_trans as bs cs h1 h2

theorem bytesLess_total : ∀ a b : List Byte,
    bytesLess a b = true ∨ a = b ∨ bytesLess b a = true
  | [], [] => by simp
  | [], _ :: _ => by simp [bytesLess]
  | _ :: _, [] => by simp [bytesLess]
  | a :: as, b :: bs => by
    simp only [bytesLess]
    by_cases hab : a < b
    · simp [hab]
    · by_cases hba : b < a
      · simp [hba]
      · have hEq : a = b := le_antisymm (not_lt.mp hba) (not_lt.mp hab)
        subst hEq
        simp only [hab, if_false, List.cons.injEq, true_and]
        exact bytesLess_total as bs

theorem keyLess_total (a b : uuid.UUID) : keyLess a b = true ∨ a = b ∨ keyLess b a = true := by
  rcases bytesLess_total a.bytes b.bytes with h | h | h
  · exact Or.inl h
  · refine Or.inr (Or.inl ?_)
    cases a; cases b; simp_all
  · exact Or.inr (Or.inr h)

theorem mem_insertEntry {V : Type} (k : uuid.UUID) (v : V) :
    ∀ (l : List (uuid.UUID × V)) (e : uuid.UUID × V), e ∈ insertEntry k v l → e = (k, v) ∨ e ∈ l
  | [], e, h => by simpa [insertEntry] using h
  | (k1, v1) :: t, e, h => by
    simp only [insertEntry] at h
    split at h
    · simp only [List.mem_cons] at h ⊢
      tauto
    · split at h
      · simp only [List.mem_cons] at h ⊢
        tauto
      · simp only [List.mem_cons] at h ⊢
        rcases h with h | h
        · tauto
        · have := mem_insertEntry k v t e h
          tauto

theorem ascending_insertEntry {V : Type} (k : uuid.UUID) (v : V) :
    ∀ l : List (uuid.UUID × V), Ascending l → Ascending (insertEntry k v l)
  | [], _ => by simp [insertEntry, Ascending]
  | (k1, v1) :: t, h => by
    unfold Ascending at h ⊢
    rw [List.pairwise_cons] at h
    simp only [insertEntry]
    split
    · next hk =>
      subst hk
      exact List.pairwise_cons.mpr ⟨h.1, h.2⟩
    · split
      · next _ hlt =>
        refine List.pairwise_cons.mpr ⟨?_, List.pairwise_cons.mpr h⟩
        intro e he
        rcases List.mem_cons.mp he with he | he
        · subst he; exact hlt
        · exact bytesLess_trans _ _ _ hlt (h.1 e he)
      · next hne hnlt =>
        have hgt : keyLess k1 k = true := by
          rcases keyLess_total k k1 with h1 | h1 | h1
          · exact absurd h1 hnlt
          · exact absurd h1 hne
          · exact h1
        refine List.pairwise_cons.mpr ⟨?_, ascending_insertEntry k v t h.2⟩
        intro e he
        rcases mem_insertEntry k v t e he with he | he
        · subst he; exact hgt
        · exact h.1 e he

/-- A Go map from UUIDs to values: bindings with pairwise different keys,
held in ascending key order. -/
structure GoMap (V : Type) where
  entries : List (uuid.UUID × V)
  ascending : Ascending entries

namespace GoMap

instance {V : Type} [DecidableEq V] : DecidableEq (GoMap V) := fun a b =>
  decidable_of_iff (a.entries = b.entries) (by cases a; cases b; simp)

/-- The empty map, `make(map[uuid.UUID]V)`. -/
def empty {V : Type} : GoMap V := ⟨[], List.Pairwise.nil⟩

/-- The lookup `v, ok := m[k]`. -/
def get? {V : Type} (m : GoMap V) (k : uuid.UUID) : Option V := lookupEntry k m.entries

/-- The assignment `m[k] = v`. -/
def set {V : Type} (m : GoMap V) (k : uuid.UUID) (v : V) : GoMap V :=
  ⟨insertEntry k v m.entries, ascending_insertEntry k v m.entries m.ascending⟩

end GoMap

/-- The order in which one `range` loop visits the bindings of a map: some
rearrangement of them, which Go does not fix and which may differ from one
loop to the next. -/
structure MapIter where
  order : {V : Type} → List (uuid.UUID × V) → List (uuid.UUID × V)
  perm : ∀ {V : Type} (l : List (uuid.UUID × V)), (order l).Perm l

/-- The bindings of `m` in the order `ρ` visits them. -/
def GoMap.range {V : Type} (ρ : MapIter) (m : GoMap V) : List (uuid.UUID × V) :=
  ρ.order m.entries

/-- Iteration in ascending key order. -/
def MapIter.ascending : MapIter := ⟨fun l => l, fun l => List.Perm.refl l⟩

/-- Iteration in descending key order. -/
def MapIter.descending : MapIter := ⟨fun l => l.reverse, fun l => List.reverse_perm l⟩

/-! ## Package `sort` -/

namespace sort

/-- Insertion of `a` before the first element it is less than. -/
def insert {α : Type} (less : α → α → Bool) (a : α) : List α → List α
  | [] => [a]
  | b :: l => if less a b then a :: b :: l else b :: insert less a l

/-- Function `sort.Slice`: the slice sorted by `less`.  Go promises a sorted
rearrangement and no stability; the model is insertion sort.  Where `less` is
a strict order that decides every two different elements, as for both calls
in this program, the sorted rearrangement is unique (`sorted_perm_unique`). -/
def Slice {α : Type} (less : α → α → Bool) : List α → List α
  | [] => []
  | a :: l => insert less a (Slice less l)

end sort

/-! ## Package `model` -/

namespace model

/-- The API type `Task` (its declaration is generated code outside
`model.go`; the fields are those `model.go` and its tests use). -/
structure Task where
  ID : GoString
  Name : GoString
  Completed : Bool
  deriving DecidableEq

/-- The API type `TodoList`. -/
structure TodoList where
  ID : GoString
  Name : GoString
  Description : GoString
  Tasks : List Task
  deriving DecidableEq

/-- The API type `CompletedTask`. -/
structure CompletedTask where
  Completed : Bool
  deriving DecidableEq

/-- The internal record `task`. -/
structure task where
  name : GoString
  completed : Bool
  deriving DecidableEq

/-- The internal type `taskmap`. -/
abbrev taskmap := GoMap task

/-- The internal record `list`. -/
structure list where
  name : GoString
  description : GoString
  tasks : taskmap
  deriving DecidableEq

/-- The internal type `listmap`, the type of the global `lists`. -/
abbrev listmap := GoMap list

/-- Function `addTaskHelper`: the task map after the call, and the status. -/
def addTaskHelper (tasks : taskmap) (model : Task) : taskmap × Int :=
  match uuid.Parse model.ID with
  | none => (tasks, http.StatusBadRequest)
  | some taskid =>
    match tasks.get? taskid with
    | some _ => (tasks, http.StatusConflict)
    | none => (tasks.set taskid ⟨model.Name, model.Completed⟩, http.StatusCreated)

/-- The loop of `AddList` over `model.Tasks`: it stops at the first task that
is not added and returns that task's status. -/
def addTasks (tasks : taskmap) : List Task → taskmap × Int
  | [] => (tasks, http.StatusCreated)
  | newtask :: rest =>
    match addTaskHelper tasks newtask with
    | (tasks1, status) =>
      if status ≠ http.StatusCreated then (tasks1, status) else addTasks tasks1 rest

/-- Function `AddList`: the value of `lists` after the call, and the status. -/
def AddList (lists : listmap) (model : TodoList) : listmap × Int :=
  match uuid.Parse model.ID with
  | none => (lists, http.StatusBadRequest)
  | some listid =>
    match addTasks GoMap.empty model.Tasks with
    | (newtasks, status) =>
      if status ≠ http.StatusCreated then (lists, status)
      else
        match lists.get? listid with
        | some _ => (lists, http.StatusConflict)
        | none => (lists.set listid ⟨model.Name, model.Description, newtasks⟩, http.StatusCreated)

/-- Function `AddTask`.  The Go value `list.tasks` is a reference to the map
held in `lists`, so whatever `addTaskHelper` does to it is done to the stored
list: the stored list carries the task map the helper leaves. -/
def AddTask (lists : listmap) (id : GoString) (model : Task) : listmap × Int :=
  match uuid.Parse id with
  | none => (lists, http.StatusBadRequest)
  | some listid =>
    match lists.get? listid with
    | none => (lists, http.StatusBadRequest)
    | some l =>
      match addTaskHelper l.tasks model with
      | (tasks1, status) => (lists.set listid ⟨l.name, l.description, tasks1⟩, status)

/-- Function `SetCompleted`. -/
def SetCompleted (lists : listmap) (id : GoString) (taskID : GoString) (model : CompletedTask) :
    listmap × Int :=
  match uuid.Parse id with
  | none => (lists, http.StatusBadRequest)
  | some listid =>
    match uuid.Parse taskID with
    | none => (lists, http.StatusBadRequest)
    | some taskid =>
      match lists.get? listid with
      | none => (lists, http.StatusBadRequest)
      | some l =>
        match l.tasks.get? taskid with
        | none => (lists, http.StatusBadRequest)
        | some t =>
          (lists.set listid ⟨l.name, l.description, l.tasks.set taskid ⟨t.name, model.Completed⟩⟩,
            http.StatusCreated)

/-- The comparison `GetList` passes to `sort.Slice`: by name, then by the
text of the id. -/
def lessTask (a b : Task) : Bool :=
  if bytesLess a.Name b.Name then true
  else if a.Name = b.Name ∧ bytesLess a.ID b.ID then true
  else false

/-- Function `GetList`; `ρ` is the order of the loop over `list.tasks`. -/
def GetList (ρ : MapIter) (lists : listmap) (id : GoString) : TodoList × Int :=
  match uuid.Parse id with
  | none => (⟨[], [], [], []⟩, http.StatusBadRequest)
  | some listid =>
    match lists.get? listid with
    | none => (⟨listid.String, [], [], []⟩, http.StatusNotFound)
    | some l =>
      (⟨listid.String, l.name, l.description,
          sort.Slice lessTask
            ((l.tasks.range ρ).map (fun kv => ⟨kv.1.String, kv.2.name, kv.2.completed⟩))⟩,
        http.StatusOK)

end model

/-! ## Package `unicode/utf8` -/

namespace utf8

/-- The constant `RuneError`, U+FFFD. -/
def RuneError : Nat := 0xFFFD

/-- The tables `first` and `acceptRanges` for a leading byte of a multi-byte
sequence: the length of the sequence and the range of its second byte.
Nothing for the bytes that begin no such sequence. -/
def first (s0 : Byte) : Option (Nat × Nat × Nat) :=
  if 0xC2 ≤ s0.val ∧ s0.val ≤ 0xDF then some (2, 0x80, 0xBF)
  else if s0.val = 0xE0 then some (3, 0xA0, 0xBF)
  else if 0xE1 ≤ s0.val ∧ s0.val ≤ 0xEC then some (3, 0x80, 0xBF)
  else if s0.val = 0xED then some (3, 0x80, 0x9F)
  else if 0xEE ≤ s0.val ∧ s0.val ≤ 0xEF then some (3, 0x80, 0xBF)
  else if s0.val = 0xF0 then some (4, 0x90, 0xBF)
  else if 0xF1 ≤ s0.val ∧ s0.val ≤ 0xF3 then some (4, 0x80, 0xBF)
  else if s0.val = 0xF4 then some (4, 0x80, 0x8F)
  else none

/-- A continuation byte, `locb <= b && b <= hicb`. -/
def isCont (b : Byte) : Bool := 0x80 ≤ b.val ∧ b.val ≤ 0xBF

/-- Function `utf8.DecodeRuneInString`: the first rune of `s` and its width in
bytes; `(RuneError, 1)` where `s` does not begin with a well-formed encoding,
`(RuneError, 0)` for the empty string.  The test `n < sz` of the Go code, for
a string shorter than the sequence its first byte announces, is the cases of
a missing byte here: both give `(RuneError, 1)`. -/
def DecodeRuneInString : GoString → Nat × Nat
  | [] => (RuneError, 0)
  | s0 :: t =>
    if s0.val < 0x80 then (s0.val, 1)
    else
      match first s0 with
      | none => (RuneError, 1)
      | some (sz, lo, hi) =>
        match t with
        | [] => (RuneError, 1)
        | s1 :: t1 =>
          if s1.val < lo ∨ hi < s1.val then (RuneError, 1)
          else if sz ≤ 2 then ((s0.val % 32) * 64 + s1.val % 64, 2)
          else
            match t1 with
            | [] => (RuneError, 1)
            | s2 :: t2 =>
              if ¬ isCont s2 then (RuneError, 1)
              else if sz ≤ 3 then
                ((s0.val % 16) * 4096 + (s1.val % 64) * 64 + s2.val % 64, 3)
              else
                match t2 with
                | [] => (RuneError, 1)
                | s3 :: _ =>
                  if ¬ isCont s3 then (RuneError, 1)
                  else
                    ((s0.val % 8) * 262144 + (s1.val % 64) * 4096 + (s2.val % 64) * 64
                      + s3.val % 64, 4)

/-- The runes a reader meets when it steps through `s` with
`DecodeRuneInString`, one ill-formed byte giving one `RuneError`.  The first
argument bounds the number of steps; the length of `s` is enough. -/
def decodeAll : Nat → GoString → List Nat
  | 0, _ => []
  | _ + 1, [] => []
  | n + 1, b :: t =>
    (DecodeRuneInString (b :: t)).1 :: decodeAll n ((b :: t).drop (DecodeRuneInString (b :: t)).2)

/-- The runes of `s`. -/
def runes (s : GoString) : List Nat := decodeAll s.length s

/-- Whether `s` is well-formed UTF-8 throughout (`utf8.ValidString`): no step
of the reader meets an ill-formed byte. -/
def validAux : Nat → GoString → Bool
  | 0, s => s.isEmpty
  | _ + 1, [] => true
  | n + 1, b :: t =>
    if DecodeRuneInString (b :: t) = (RuneError, 1) then false
    else validAux n ((b :: t).drop (DecodeRuneInString (b :: t)).2)

/-- Function `utf8.ValidString`. -/
def ValidString (s : GoString) : Bool := validAux s.length s

end utf8

/-! ## Package `unicode` -/

namespace unicode

/-- The case-folding data of package `unicode`, which is a table of the Go
library and not part of the program: `sameOrbit r0 r` says that `r` is reached
from `r0` by repeated `unicode.SimpleFold`. -/
structure FoldTable where
  sameOrbit : Nat → Nat → Bool

/-- A folding table good for the ASCII letters outside the orbits of K and S,
used for concrete inputs. -/
def asciiFold : FoldTable :=
  ⟨fun r0 r => (65 ≤ r0 ∧ r0 ≤ 90 ∧ r = r0 + 32) || (97 ≤ r0 ∧ r0 ≤ 122 ∧ r + 32 = r0)⟩

end unicode

/-! ## Package `regexp` -/

namespace regexp

/-- Function `special`: the bytes that are regular-expression metacharacters,
those of the string with backslash, dot, plus, star, question mark, the
brackets of the three kinds, bar, caret and dollar. -/
def special (b : Byte) : Bool := b ∈ str "\\.+*?()|[]\x7b\x7d^$"

/-- Function `regexp.QuoteMeta`: a backslash before every metacharacter. -/
def QuoteMeta (s : GoString) : GoString :=
  s.flatMap (fun b => if special b then [92, b] else [b])

/-- Errors of `regexp.Compile`; `Large` is `ErrLarge`, "expression too large".
`Unsupported` is not an error of Go: it marks a pattern outside the part of
the pattern language modelled here (literals, escaped punctuation and the
flag group `(?i)`). -/
inductive Error where
  | InvalidUTF8
  | TrailingBackslash
  | InvalidEscape
  | Large
  | Unsupported
  deriving DecidableEq

/-- The constant `maxRunes` of `regexp/syntax`, `128 << 20 / runeSize` with
`runeSize = 4`: the most runes the nodes the parser pushes may hold, counted
together. -/
def maxRunes : Nat := 128 * 2 ^ 20 / 4

/-- A compiled expression of the modelled part of the language: a sequence of
literal runes, each with the case-folding flag in force where it stands. -/
structure Regexp where
  literals : List (Nat × Bool)
  deriving DecidableEq

/-- Function `isalnum` of `regexp/syntax`. -/
def isalnum (c : Nat) : Bool :=
  (48 ≤ c ∧ c ≤ 57) || (65 ≤ c ∧ c ≤ 90) || (97 ≤ c ∧ c ≤ 122)

/-- The loop of the parser of `regexp/syntax` (function `parse`) over the rest
`t` of the pattern, with the flag `fold` in force and the literals `acc` read
so far (last first).  A byte that is no operator is read as a rune by
`nextRune`, which fails with `ErrInvalidUTF8` ("invalid UTF-8") when
`utf8.DecodeRuneInString` answers `RuneError` with width 1; a backslash is
followed by a rune read the same way (`parseEscape`), which stands for itself
when it is ASCII and not a letter or digit.  Each literal is pushed as a node
of one rune: `push` adds the runes of the node to the counter `numRunes`,
which is then the number of literals read, and `checkLimits` fails with
`ErrLarge` when the counter exceeds `maxRunes`.  The first argument bounds
the number of steps; the length of `t` is enough. -/
def parseLoop : Nat → Bool → GoString → List (Nat × Bool) → Except Error Regexp
  | _, _, [], acc => .ok ⟨acc.reverse⟩
  | 0, _, _ :: _, _ => .error .Unsupported
  | n + 1, fold, c :: t, acc =>
    if c = 40 then
      match t with
      | 63 :: 105 :: 41 :: t1 => parseLoop n true t1 acc
      | _ => .error .Unsupported
    else if c = 92 then
      match t with
      | [] => .error .TrailingBackslash
      | e :: t1 =>
        if utf8.DecodeRuneInString (e :: t1) = (utf8.RuneError, 1) then .error .InvalidUTF8
        else if e.val < 0x80 then
          if isalnum e.val then .error .Unsupported
          else if maxRunes < acc.length + 1 then .error .Large
          else parseLoop n fold t1 ((e.val, fold) :: acc)
        else .error .InvalidEscape
    else if c ∈ str "|)^$.[*+?\x7b" then .error .Unsupported
    else if utf8.DecodeRuneInString (c :: t) = (utf8.RuneError, 1) then .error .InvalidUTF8
    else if maxRunes < acc.length + 1 then .error .Large
    else
      parseLoop n fold ((c :: t).drop (utf8.DecodeRuneInString (c :: t)).2)
        (((utf8.DecodeRuneInString (c :: t)).1, fold) :: acc)

/-- The counter `numRunes` of the parser when it is done with a pattern whose
literals are `lits`.  At the end of the pattern `concat` and then `alternate`
push what is left on the stack, and `push` counts the runes of a node each
time it is pushed.  Adjacent literals with the same folding flag have been
joined into one node (`maybeConcat`): when all have the same flag that one
node holds them all and is pushed twice more, so that every rune is counted
three times; otherwise the literals are under a concatenation node, which
holds no runes itself. -/
def numRunesAtEnd (lits : List (Nat × Bool)) : Nat :=
  if lits.all (fun l => l.2) || lits.all (fun l => !l.2) then 3 * lits.length else lits.length

/-- Function `regexp.Compile`, for the modelled part of the language.  Of the
limits of `regexp/syntax` on the size of a pattern the one on the number of
runes bears on this part: the pushes at the end of the pattern fail with
`ErrLarge` when `numRunes` exceeds `maxRunes`.  The limits on the number and
on the height of the nodes are not reached, the parser holding at most four
nodes for a pattern of this part. -/
def Compile (expr : GoString) : Except Error Regexp :=
  match parseLoop expr.length false expr [] with
  | .error e => .error e
  | .ok re => if maxRunes < numRunesAtEnd re.literals then .error .Large else .ok re

/-- One literal against one rune of the text (`Inst.MatchRunePos` for a single
rune): the rune itself, or with the folding flag any rune of its orbit. -/
def matchRune (tbl : unicode.FoldTable) (lit : Nat × Bool) (r : Nat) : Bool :=
  r = lit.1 || (lit.2 && tbl.sameOrbit lit.1 r)

/-- The literals against the beginning of the runes of the text. -/
def matchHere (tbl : unicode.FoldTable) : List (Nat × Bool) → List Nat → Bool
  | [], _ => true
  | _ :: _, [] => false
  | lit :: lits, r :: text => matchRune tbl lit r && matchHere tbl lits text

/-- The unanchored search: a match beginning at some rune of the text, or at
its end. -/
def search (tbl : unicode.FoldTable) (lits : List (Nat × Bool)) : List Nat → Bool
  | [] => matchHere tbl lits []
  | r :: text => matchHere tbl lits (r :: text) || search tbl lits text

/-- Method `Regexp.MatchString`: whether the text contains a match.  The text
is read rune by rune with `utf8.DecodeRuneInString`, an ill-formed byte
counting as `RuneError`. -/
def Regexp.MatchString (tbl : unicode.FoldTable) (re : Regexp) (s : GoString) : Bool :=
  search tbl re.literals (utf8.runes s)

end regexp

/-! ## Package `model`: the search -/

/-- The value of a 64-bit signed integer operation whose exact result is
`x`: `x` reduced modulo `2^64` into the range from `-2^63` to `2^63 - 1`. -/
def wrapInt64 (x : Int) : Int := (x + 2 ^ 63) % 2 ^ 64 - 2 ^ 63

namespace model

/-- The local type `searchresult` of `GetLists`. -/
structure searchresult where
  name : GoString
  id : uuid.UUID
  deriving DecidableEq

/-- The comparison `GetLists` passes to `sort.Slice`: by name, then by the
bytes of the id. -/
def lessResult (a b : searchresult) : Bool :=
  if bytesLess a.name b.name then true
  else if a.name = b.name ∧ keyLess a.id b.id then true
  else false

/-- The first loop of `GetLists`: the name and id of each list whose name
matches, in the order the lists are visited. -/
def collect (tbl : unicode.FoldTable) (re : regexp.Regexp) :
    List (uuid.UUID × list) → List searchresult
  | [] => []
  | (listid, l) :: rest =>
    if re.MatchString tbl l.name then ⟨l.name, listid⟩ :: collect tbl re rest
    else collect tbl re rest

/-- The page bounds of `GetLists`: the values of `skip` and `limit` at the
slice expression `results[skip:limit]`, for `n = len(results)`. -/
def pageBounds (n skip limit : Int) : Int × Int :=
  let limit1 := if limit = 0 then n else limit
  let skip1 := if skip > n then n else skip
  let limit2 := wrapInt64 (limit1 + skip1)
  let limit3 := if limit2 > n then n else limit2
  (skip1, limit3)

/-- The body of the second loop of `GetLists`: the snapshot of one result;
`lists[result.id]` is the zero value when the id is absent. -/
def snapshot (ρ : MapIter) (lists : listmap) (result : searchresult) : TodoList :=
  match lists.get? result.id with
  | some l =>
    ⟨result.id.String, l.name, l.description,
      (l.tasks.range ρ).map (fun kv => ⟨kv.1.String, kv.2.name, kv.2.completed⟩)⟩
  | none => ⟨result.id.String, [], [], []⟩

/-- Function `GetLists`.  The result is `none` when the slice expression
`results[skip:limit]` panics, which it does unless
`0 <= skip <= limit <= cap(results)`; here `limit <= len(results)` at that
point.  `tbl` is the folding table of the matcher, `ρ` the order of the loops
over `lists` and over the task maps. -/
def GetLists (tbl : unicode.FoldTable) (ρ : MapIter) (lists : listmap) (searchString : GoString)
    (skip limit : Int) : Option (List TodoList × Int) :=
  if skip < 0 ∨ limit < 0 then some ([], http.StatusBadRequest)
  else
    match regexp.Compile (str "(?i)" ++ regexp.QuoteMeta searchString) with
    | .error _ => some ([], http.StatusBadRequest)
    | .ok re =>
      let results := sort.Slice lessResult (collect tbl re (lists.range ρ))
      let bounds := pageBounds results.length skip limit
      if 0 ≤ bounds.1 ∧ bounds.1 ≤ bounds.2 ∧ bounds.2 ≤ results.length then
        some (((results.drop bounds.1.toNat).take (bounds.2 - bounds.1).toNat).map
          (snapshot ρ lists), http.StatusOK)
      else none

end model

/-- The property of `less` that makes the sorted result strictly ascending:
transitive, and deciding every two different elements of `l`. -/
def sort.Decides {α : Type} (less : α → α → Bool) (l : List α) : Prop :=
  l.Pairwise (fun a b => less a b = true ∨ less b a = true)

/-! ## Definitions used in the statements -/

namespace model

/-- The API record of a stored task, as `GetList` and `GetLists` build it. -/
def render (kv : uuid.UUID × task) : Task := ⟨kv.1.String, kv.2.name, kv.2.completed⟩

/-- The binding `addTaskHelper` stores for a task, when its id parses. -/
def entryOf (t : Task) : Option (uuid.UUID × task) :=
  (uuid.Parse t.ID).map (fun u => (u, ⟨t.Name, t.Completed⟩))

end model

namespace uuid

/-- Canonical text: the text `Parse` accepts and `String` gives back
unchanged, that is the lower-case hyphenated form. -/
def isCanonical (s : GoString) : Bool :=
  match Parse s with
  | some u => decide (u.String = s)
  | none => false

end uuid

/-! ## Sample data -/

namespace sample

/-- The list of `TestAddList`, with a second task. -/
def home : model.TodoList :=
  ⟨str "d290f1ee-6c54-4b01-90e6-d701748f0851", str "Home",
    str "The list of things that need to be done at home\n",
    [⟨str "0e2ac84f-f723-4f24-878b-44e63e7ae581", str "wash dishes", false⟩,
     ⟨str "0e2ac84f-f723-4f24-878b-44e63e7ae580", str "mow the yard", true⟩]⟩

/-- The id of `home`. -/
def homeId : uuid.UUID :=
  ⟨[0xd2, 0x90, 0xf1, 0xee, 0x6c, 0x54, 0x4b, 0x01, 0x90, 0xe6, 0xd7, 0x01, 0x74, 0x8f, 0x08, 0x51],
    rfl⟩

/-- The store after creating `home` in the empty store. -/
def homeStore : model.listmap := (model.AddList GoMap.empty home).1

/-- A candidate with the id of `home` and a task whose id is no UUID. -/
def homeAgainBadTask : model.TodoList :=
  ⟨home.ID, str "Home again", str "", [⟨str "This is not a valid UUID", str "sweep", false⟩]⟩

/-- A candidate with the id of `home` and well-formed tasks. -/
def homeAgain : model.TodoList :=
  ⟨home.ID, str "Home again", str "",
    [⟨str "0e2ac84f-f723-4f24-878b-44e63e7ae580", str "sweep", false⟩]⟩

/-- A text that is no UUID. -/
def notAnId : GoString := str "This is not a valid UUID"

/-- The id of no list of `homeStore`. -/
def otherId : GoString := str "d290f1ee-6c54-4b01-90e6-d701748f0852"

/-- The second task of `home`, which `homeStore` holds already. -/
def mow : model.Task := ⟨str "0e2ac84f-f723-4f24-878b-44e63e7ae580", str "mow the yard", true⟩

/-- A candidate list that fails on its third embedded task, a repetition of
its first. -/
def repeated : model.TodoList :=
  ⟨otherId, str "Work", str "",
    [mow, ⟨str "0e2ac84f-f723-4f24-878b-44e63e7ae581", str "file report", false⟩, mow]⟩

/-- The id of `home` written with upper-case digits. -/
def upperId : GoString := str "D290F1EE-6C54-4B01-90E6-D701748F0851"

/-- A candidate whose third embedded task has a malformed id and whose second
repeats the first. -/
def repeatedThenBad : model.TodoList :=
  ⟨otherId, str "Work", str "", [mow, mow, ⟨notAnId, str "sweep", false⟩]⟩

/-- The first task of `home`. -/
def wash : model.Task := ⟨str "0e2ac84f-f723-4f24-878b-44e63e7ae581", str "wash dishes", false⟩

/-- The record `homeStore` holds for `home`. -/
def homeStored : model.list :=
  ⟨home.Name, home.Description, (model.addTasks GoMap.empty home.Tasks).1⟩

end sample

/-! ## The search, as the specification words it -/

namespace spec

/-- Two runes equal up to case: the same rune, or runes of one case-folding
orbit. -/
def foldEq (tbl : unicode.FoldTable) (s r : Nat) : Prop := r = s ∨ tbl.sameOrbit s r = true

instance (tbl : unicode.FoldTable) (s r : Nat) : Decidable (foldEq tbl s r) :=
  inferInstanceAs (Decidable (r = s ∨ tbl.sameOrbit s r = true))

/-- A character of a text: a code point, where bytes of the text are its
well-formed UTF-8 encoding, or a byte that is part of no well-formed encoding
and stands for itself. -/
inductive Chr where
  | rune (r : Nat)
  | byte (b : Byte)
  deriving DecidableEq

/-- The rune that a reader stepping through the text with
`utf8.DecodeRuneInString` meets at a character: `RuneError` at a byte that
is part of no well-formed encoding. -/
def Chr.read : Chr → Nat
  | .rune r => r
  | .byte _ => utf8.RuneError

/-- The characters of a text, from left to right.  The first argument bounds
the number of characters; the length of the text is enough. -/
def charsAux : Nat → GoString → List Chr
  | 0, _ => []
  | _ + 1, [] => []
  | n + 1, b :: t =>
    if utf8.DecodeRuneInString (b :: t) = (utf8.RuneError, 1) then .byte b :: charsAux n t
    else
      .rune (utf8.DecodeRuneInString (b :: t)).1
        :: charsAux n ((b :: t).drop (utf8.DecodeRuneInString (b :: t)).2)

/-- The characters of a text. -/
def chars (s : GoString) : List Chr := charsAux s.length s

/-- Two characters equal up to case: two code points equal up to case, or the
same byte.  A byte that is part of no encoding is no code point, U+FFFD
included. -/
def chrFoldEq (tbl : unicode.FoldTable) : Chr → Chr → Prop
  | .rune s, .rune r => foldEq tbl s r
  | .byte a, .byte b => b = a
  | _, _ => False

instance (tbl : unicode.FoldTable) : (a b : Chr) → Decidable (chrFoldEq tbl a b)
  | .rune s, .rune r => inferInstanceAs (Decidable (foldEq tbl s r))
  | .byte a, .byte b => inferInstanceAs (Decidable (b = a))
  | .rune _, .byte _ => isFalse (fun h => h)
  | .byte _, .rune _ => isFalse (fun h => h)

/-- Section 4.5, step 4: the name contains `searchText` as a case-insensitive
substring.  Some run of consecutive characters of the name equals the
characters of `searchText` up to case, character by character. -/
def containsFold (tbl : unicode.FoldTable) (name searchText : GoString) : Prop :=
  ∃ pre mid post : List Chr, chars name = pre ++ mid ++ post ∧
    List.Forall₂ (chrFoldEq tbl) (chars searchText) mid

/-- Whether the characters `pat` stand at the beginning of `text`, up to
case. -/
def beginsFold (tbl : unicode.FoldTable) : List Chr → List Chr → Bool
  | [], _ => true
  | _ :: _, [] => false
  | p :: pat, c :: text => decide (chrFoldEq tbl p c) && beginsFold tbl pat text

/-- Whether the characters `pat` stand somewhere in `text`, up to case. -/
def occursFold (tbl : unicode.FoldTable) (pat : List Chr) : List Chr → Bool
  | [] => beginsFold tbl pat []
  | c :: text => beginsFold tbl pat (c :: text) || occursFold tbl pat text

end spec

/-! The next lemmas are those by which the containment is decidable. -/

namespace spec

theorem beginsFold_iff (tbl : unicode.FoldTable) : ∀ (pat text : List Chr),
    beginsFold tbl pat text = true ↔
      ∃ mid post, text = mid ++ post ∧ List.Forall₂ (chrFoldEq tbl) pat mid
  | [], text => by
    simp only [beginsFold, true_iff]
    exact ⟨[], text, rfl, List.Forall₂.nil⟩
  | p :: pat, [] => by
    simp only [beginsFold, Bool.false_eq_true, false_iff]
    rintro ⟨mid, post, h, hf⟩
    cases hf with
    | cons _ _ => simp at h
  | p :: pat, c :: text => by
    simp only [beginsFold, Bool.and_eq_true, decide_eq_true_eq, beginsFold_iff tbl pat text]
    constructor
    · rintro ⟨h1, mid, post, h2, h3⟩
      exact ⟨c :: mid, post, by rw [h2]; rfl, List.Forall₂.cons h1 h3⟩
    · rintro ⟨mid, post, h2, h3⟩
      cases h3 with
      | cons h1 h3 =>
        simp only [List.cons_append, List.cons.injEq] at h2
        obtain ⟨rfl, h2⟩ := h2
        exact ⟨h1, _, post, h2, h3⟩

theorem occursFold_iff (tbl : unicode.FoldTable) (pat : List Chr) : ∀ text : List Chr,
    occursFold tbl pat text = true ↔
      ∃ pre mid post, text = pre ++ mid ++ post ∧ List.Forall₂ (chrFoldEq tbl) pat mid
  | [] => by
    simp only [occursFold, beginsFold_iff]
    constructor
    · rintro ⟨mid, post, h, hf⟩
      exact ⟨[], mid, post, by simpa using h, hf⟩
    · rintro ⟨pre, mid, post, h, hf⟩
      have h1 : pre = [] ∧ mid = [] ∧ post = [] := by
        have := congrArg List.length h
        simp only [List.length_nil, List.length_append] at this
        refine ⟨List.length_eq_zero.mp (by omega), List.length_eq_zero.mp (by omega),
          List.length_eq_zero.mp (by omega)⟩
      obtain ⟨rfl, rfl, rfl⟩ := h1
      exact ⟨[], [], rfl, hf⟩
  | c :: text => by
    simp only [occursFold, Bool.or_eq_true, beginsFold_iff, occursFold_iff tbl pat text]
    constructor
    · rintro (⟨mid, post, h, hf⟩ | ⟨pre, mid, post, h, hf⟩)
      · exact ⟨[], mid, post, by simpa using h, hf⟩
      · exact ⟨c :: pre, mid, post, by rw [h]; rfl, hf⟩
    · rintro ⟨pre, mid, post, h, hf⟩
      cases pre with
      | nil => exact Or.inl ⟨mid, post, by simpa using h, hf⟩
      | cons p pre =>
        simp only [List.cons_append, List.cons.injEq] at h
        exact Or.inr ⟨pre, mid, post, h.2, hf⟩

instance (tbl : unicode.FoldTable) (name searchText : GoString) :
    Decidable (containsFold tbl name searchText) :=
  decidable_of_iff _ (occursFold_iff tbl (chars searchText) (chars name))

/-- Section 4.5, steps 4 and 5: the matches, sorted by name and then by the
bytes of the identifier. -/
def sortedMatches (tbl : unicode.FoldTable) (lists : model.listmap) (searchText : GoString) :
    List model.searchresult :=
  sort.Slice model.lessResult
    ((lists.entries.filter (fun e => containsFold tbl e.2.name searchText)).map
      (fun e => ⟨e.2.name, e.1⟩))

/-- Section 4.5, step 6: the page of a sorted match sequence `M` of length
`n`: the run that starts at index `min(skip, n)` and has
`min(limit, n - min(skip, n))` elements, or all the remaining ones for the
limit 0. -/
def window {α : Type} (M : List α) (skip limit : Int) : List α :=
  (M.drop (min skip M.length).toNat).take
    (if limit = 0 then (M.length : Int) - min skip M.length
      else min limit (M.length - min skip M.length)).toNat

/-- Two snapshots that differ at most in the order of their tasks. -/
def sameSnapshot (a b : model.TodoList) : Prop :=
  a.ID = b.ID ∧ a.Name = b.Name ∧ a.Description = b.Description ∧ a.Tasks.Perm b.Tasks

end spec

/-! ## The search, as the matcher decides it -/

namespace regexp

/-- What the matcher `GetLists` compiles from a search text decides of a name
(`MatchString_iff`): the runes of the name, as `utf8.DecodeRuneInString`
reads them, a byte that is part of no well-formed encoding being read as
U+FFFD, have a run of consecutive runes equal up to case, rune by rune, to
the runes of the search text. -/
def matchesFold (tbl : unicode.FoldTable) (name searchText : GoString) : Prop :=
  ∃ pre mid post : List Nat, utf8.runes name = pre ++ mid ++ post ∧
    List.Forall₂ (spec.foldEq tbl) (utf8.runes searchText) mid

theorem matchRune_iff (tbl : unicode.FoldTable) (s r : Nat) :
    matchRune tbl (s, true) r = true ↔ spec.foldEq tbl s r := by
  simp [matchRune, spec.foldEq]

theorem matchHere_iff (tbl : unicode.FoldTable) : ∀ (lits text : List Nat),
    matchHere tbl (lits.map (fun r => (r, true))) text = true ↔
      ∃ mid post, text = mid ++ post ∧ List.Forall₂ (spec.foldEq tbl) lits mid
  | [], text => by
    simp only [List.map_nil, matchHere, true_iff]
    exact ⟨[], text, rfl, List.Forall₂.nil⟩
  | s :: lits, [] => by
    simp only [List.map_cons, matchHere, Bool.false_eq_true, false_iff]
    rintro ⟨mid, post, h, hf⟩
    cases hf with
    | cons _ _ => simp at h
  | s :: lits, r :: text => by
    simp only [List.map_cons, matchHere, Bool.and_eq_true, matchRune_iff,
      matchHere_iff tbl lits text]
    constructor
    · rintro ⟨h1, mid, post, h2, h3⟩
      exact ⟨r :: mid, post, by rw [h2]; rfl, List.Forall₂.cons h1 h3⟩
    · rintro ⟨mid, post, h2, h3⟩
      cases h3 with
      | cons h1 h3 =>
        simp only [List.cons_append, List.cons.injEq] at h2
        obtain ⟨rfl, h2⟩ := h2
        exact ⟨h1, _, post, h2, h3⟩

theorem search_iff (tbl : unicode.FoldTable) (lits : List Nat) : ∀ text : List Nat,
    search tbl (lits.map (fun r => (r, true))) text = true ↔
      ∃ pre mid post, text = pre ++ mid ++ post ∧ List.Forall₂ (spec.foldEq tbl) lits mid
  | [] => by
    simp only [search, matchHere_iff]
    constructor
    · rintro ⟨mid, post, h, hf⟩
      exact ⟨[], mid, post, by simpa using h, hf⟩
    · rintro ⟨pre, mid, post, h, hf⟩
      have h1 : pre = [] ∧ mid = [] ∧ post = [] := by
        have := congrArg List.length h
        simp only [List.length_nil, List.length_append] at this
        refine ⟨List.length_eq_zero.mp (by omega), List.length_eq_zero.mp (by omega),
          List.length_eq_zero.mp (by omega)⟩
      obtain ⟨rfl, rfl, rfl⟩ := h1
      exact ⟨[], [], rfl, hf⟩
  | r :: text => by
    simp only [search, Bool.or_eq_true, matchHere_iff, search_iff tbl lits text]
    constructor
    · rintro (⟨mid, post, h, hf⟩ | ⟨pre, mid, post, h, hf⟩)
      · exact ⟨[], mid, post, by simpa using h, hf⟩
      · exact ⟨r :: pre, mid, post, by rw [h]; rfl, hf⟩
    · rintro ⟨pre, mid, post, h, hf⟩
      cases pre with
      | nil => exact Or.inl ⟨mid, post, by simpa using h, hf⟩
      | cons p pre =>
        simp only [List.cons_append, List.cons.injEq] at h
        exact Or.inr ⟨pre, mid, post, h.2, hf⟩

/-- What the matcher compiled from the runes of a search text decides of a
name. -/
theorem MatchString_iff (tbl : unicode.FoldTable) (name searchText : GoString) :
    Regexp.MatchString tbl ⟨(utf8.runes searchText).map (fun r => (r, true))⟩ name = true ↔
      matchesFold tbl name searchText :=
  search_iff tbl _ _

instance (tbl : unicode.FoldTable) (name searchText : GoString) :
    Decidable (matchesFold tbl name searchText) :=
  decidable_of_iff _ (MatchString_iff tbl name searchText)

end regexp

namespace model

/-- The results of `GetLists` for a search text that compiles, before the
page is cut: the name and id of every list whose name the matcher accepts, in
the order of `sort.Slice` by `lessResult`. -/
def sortedResults (tbl : unicode.FoldTable) (lists : listmap) (searchText : GoString) :
    List searchresult :=
  sort.Slice lessResult
    ((lists.entries.filter (fun e => regexp.matchesFold tbl e.2.name searchText)).map
      (fun e => ⟨e.2.name, e.1⟩))

end model

namespace sample

/-- The second list of `TestGetLists`. -/
def work : model.TodoList :=
  ⟨otherId, str "Work", str "The list of things that need to be done at work\n", []⟩

/-- The store with the lists `home` and `work`. -/
def twoStore : model.listmap := (model.AddList homeStore work).1

/-- The text `caf` followed by the byte 0xE9, an e with acute accent in
Latin-1; it is not well-formed UTF-8. -/
def latin1 : GoString := [99, 97, 102, 233]

/-- A store with one list, named `latin1`. -/
def latin1Store : model.listmap :=
  (model.AddList GoMap.empty ⟨home.ID, latin1, str "", []⟩).1

/-- The three bytes of U+FFFD, the replacement character, in UTF-8. -/
def replacement : GoString := [0xEF, 0xBF, 0xBD]

/-- A search text of 11184811 letters `a`. -/
def longText : GoString := List.replicate 11184811 97

/-- The snapshot of `home` a search returns when it visits the tasks in
descending order of their ids. -/
def homeSnapshot : model.TodoList := ⟨home.ID, home.Name, home.Description, [wash, mow]⟩

end sample

/-! ## Calls, and more sample data -/

namespace model

/-- One call of the model layer, with its arguments. -/
inductive Call where
  | addList (model : TodoList)
  | addTask (id : GoString) (model : Task)
  | setCompleted (id taskID : GoString) (model : CompletedTask)
  | getList (id : GoString)
  | getLists (searchString : GoString) (skip limit : Int)

/-- The value of `lists` after a call.  `GetList` and `GetLists` assign to
nothing but their own results, so `lists` is after them what it was. -/
def Call.after (lists : listmap) : Call → listmap
  | .addList model => (AddList lists model).1
  | .addTask id model => (AddTask lists id model).1
  | .setCompleted id taskID model => (SetCompleted lists id taskID model).1
  | .getList _ => lists
  | .getLists _ _ _ => lists

/-- The task with id `tid` of the list with id `u`, when there is one. -/
def storedTask (lists : listmap) (u tid : uuid.UUID) : Option task :=
  (lists.get? u).bind (fun l => l.tasks.get? tid)

end model

namespace sample

/-- The identifier `otherId` spells. -/
def otherUUID : uuid.UUID :=
  ⟨[0xd2, 0x90, 0xf1, 0xee, 0x6c, 0x54, 0x4b, 0x01, 0x90, 0xe6, 0xd7, 0x01, 0x74, 0x8f, 0x08, 0x52],
    rfl⟩

end sample

namespace sample

/-- The identifier of the task `mow`. -/
def mowId : uuid.UUID :=
  ⟨[0x0e, 0x2a, 0xc8, 0x4f, 0xf7, 0x23, 0x4f, 0x24, 0x87, 0x8b, 0x44, 0xe6, 0x3e, 0x7a, 0xe5, 0x80],
    rfl⟩

/-- The identifier of the task `wash`. -/
def washId : uuid.UUID :=
  ⟨[0x0e, 0x2a, 0xc8, 0x4f, 0xf7, 0x23, 0x4f, 0x24, 0x87, 0x8b, 0x44, 0xe6, 0x3e, 0x7a, 0xe5, 0x81],
    rfl⟩

/-- An identifier of no task of `home`. -/
def sweepId : uuid.UUID :=
  ⟨[0x0e, 0x2a, 0xc8, 0x4f, 0xf7, 0x23, 0x4f, 0x24, 0x87, 0x8b, 0x44, 0xe6, 0x3e, 0x7a, 0xe5, 0x82],
    rfl⟩

/-- A task that `home` does not hold. -/
def sweep : model.Task := ⟨str "0e2ac84f-f723-4f24-878b-44e63e7ae582", str "sweep", false⟩

/-- A task whose id is no UUID. -/
def badTask : model.Task := ⟨notAnId, str "sweep", false⟩

/-- A task with the id of `mow` and another name. -/
def mowAgain : model.Task := ⟨str "0e2ac84f-f723-4f24-878b-44e63e7ae580", str "mow again", false⟩

end sample

/-! ## The two orders, and more sample data -/

namespace model

/-- The task that carries the name and the canonical id of a search result,
with a given completed flag. -/
def asTask (done : Bool) (r : searchresult) : Task := ⟨r.id.String, r.name, done⟩

end model

namespace sample

/-- Three results, two of them with the same name. -/
def chores : List model.searchresult :=
  [⟨str "chores", washId⟩, ⟨str "chores", mowId⟩, ⟨str "Chores", sweepId⟩]

/-- An identifier of no task of `home`, other than `sweepId`. -/
def dustId : uuid.UUID :=
  ⟨[0x0e, 0x2a, 0xc8, 0x4f, 0xf7, 0x23, 0x4f, 0x24, 0x87, 0x8b, 0x44, 0xe6, 0x3e, 0x7a, 0xe5, 0x83],
    rfl⟩

/-- A second task that `home` does not hold. -/
def dust : model.Task := ⟨str "0e2ac84f-f723-4f24-878b-44e63e7ae583", str "dust", true⟩

/-- The identifier of the list `garden`. -/
def gardenId : uuid.UUID :=
  ⟨[0xd2, 0x90, 0xf1, 0xee, 0x6c, 0x54, 0x4b, 0x01, 0x90, 0xe6, 0xd7, 0x01, 0x74, 0x8f, 0x08, 0x53],
    rfl⟩

/-- A third list, with one task. -/
def garden : model.TodoList :=
  ⟨str "d290f1ee-6c54-4b01-90e6-d701748f0853", str "Garden", str "", [mow]⟩

end sample

/-! # Part II: lemmas and claims -/

theorem bytesLess_irrefl : ∀ a : List Byte, bytesLess a a = false
  | [] => rfl
  | a :: as => by simp [bytesLess, bytesLess_irrefl as]

theorem bytesLess_asymm (a b : List Byte) (h : bytesLess a b = true) : bytesLess b a = false := by
  cases hba : bytesLess b a with
  | false => rfl
  | true =>
    have := bytesLess_trans a b a h hba
    rw [bytesLess_irrefl] at this
    exact absurd this (by simp)

/-! ## Lemmas on maps -/

theorem keyLess_irrefl (a : uuid.UUID) : keyLess a a = false := bytesLess_irrefl a.bytes

theorem lookupEntry_insertEntry_same {V : Type} (k : uuid.UUID) (v : V) :
    ∀ l : List (uuid.UUID × V), lookupEntry k (insertEntry k v l) = some v
  | [] => by simp [insertEntry, lookupEntry]
  | (k1, v1) :: t => by
    simp only [insertEntry]
    split
    · simp [lookupEntry]
    · split
      · simp [lookupEntry]
      · next hne _ =>
        simp only [lookupEntry]
        rw [if_neg (fun h => hne h.symm)]
        exact lookupEntry_insertEntry_same k v t

theorem lookupEntry_insertEntry_ne {V : Type} (k k2 : uuid.UUID) (v : V) (hne : k2 ≠ k) :
    ∀ l : List (uuid.UUID × V), lookupEntry k2 (insertEntry k v l) = lookupEntry k2 l
  | [] => by simp [insertEntry, lookupEntry, Ne.symm hne]
  | (k1, v1) :: t => by
    simp only [insertEntry]
    split
    · next h =>
      subst h
      simp [lookupEntry, Ne.symm hne]
    · split
      · simp [lookupEntry, Ne.symm hne]
      · simp only [lookupEntry]
        rw [lookupEntry_insertEntry_ne k k2 v hne t]

theorem lookupEntry_eq_none_of_less {V : Type} (k : uuid.UUID) :
    ∀ l : List (uuid.UUID × V), (∀ e ∈ l, keyLess k e.1 = true) → lookupEntry k l = none
  | [], _ => rfl
  | (k1, v1) :: t, h => by
    simp only [lookupEntry]
    have h1 : keyLess k k1 = true := h (k1, v1) (List.mem_cons_self _ _)
    have hne : k1 ≠ k := by
      intro hEq
      subst hEq
      rw [keyLess_irrefl] at h1
      exact absurd h1 (by simp)
    rw [if_neg hne]
    exact lookupEntry_eq_none_of_less k t (fun e he => h e (List.mem_cons_of_mem _ he))

theorem lookupEntry_eq_some_iff {V : Type} (k : uuid.UUID) (v : V) :
    ∀ l : List (uuid.UUID × V), Ascending l → (lookupEntry k l = some v ↔ (k, v) ∈ l)
  | [], _ => by simp [lookupEntry]
  | (k1, v1) :: t, h => by
    unfold Ascending at h
    rw [List.pairwise_cons] at h
    simp only [lookupEntry, List.mem_cons, Prod.mk.injEq]
    by_cases hk : k1 = k
    · subst hk
      simp only [if_true, Option.some.injEq, true_and]
      constructor
      · intro hv; exact Or.inl hv.symm
      · rintro (hv | hmem)
        · exact hv.symm
        · have := h.1 (k1, v) hmem
          rw [keyLess_irrefl] at this
          exact absurd this (by simp)
    · rw [if_neg hk, lookupEntry_eq_some_iff k v t h.2]
      constructor
      · intro hmem; exact Or.inr hmem
      · rintro (⟨hk1, _⟩ | hmem)
        · exact absurd hk1.symm hk
        · exact hmem

theorem lookupEntry_eq_none_iff {V : Type} (k : uuid.UUID) :
    ∀ l : List (uuid.UUID × V), lookupEntry k l = none ↔ ∀ e ∈ l, e.1 ≠ k
  | [] => by simp [lookupEntry]
  | (k1, v1) :: t => by
    simp only [lookupEntry, List.mem_cons, forall_eq_or_imp]
    by_cases hk : k1 = k
    · simp [hk]
    · rw [if_neg hk, lookupEntry_eq_none_iff k t]
      simp [hk]

theorem insertEntry_of_lookup {V : Type} (k : uuid.UUID) (v : V) :
    ∀ l : List (uuid.UUID × V), Ascending l → lookupEntry k l = some v → insertEntry k v l = l
  | [], _, h => by simp [lookupEntry] at h
  | (k1, v1) :: t, ha, h => by
    have ha0 := ha
    unfold Ascending at ha
    rw [List.pairwise_cons] at ha
    simp only [lookupEntry] at h
    simp only [insertEntry]
    by_cases hk : k1 = k
    · subst hk
      simp only [if_true, Option.some.injEq] at h
      simp [h]
    · rw [if_neg hk] at h
      rw [if_neg (fun hh => hk hh.symm)]
      have hmem : (k, v) ∈ t := (lookupEntry_eq_some_iff k v t ha.2).mp h
      have hlt : keyLess k1 k = true := ha.1 (k, v) hmem
      have hnlt : ¬ keyLess k k1 = true := by
        have := bytesLess_asymm _ _ hlt
        unfold keyLess
        rw [this]; simp
      rw [if_neg hnlt, insertEntry_of_lookup k v t ha.2 h]

theorem insertEntry_perm {V : Type} (k : uuid.UUID) (v : V) :
    ∀ l : List (uuid.UUID × V), lookupEntry k l = none → (insertEntry k v l).Perm ((k, v) :: l)
  | [], _ => by simp [insertEntry]
  | (k1, v1) :: t, h => by
    simp only [lookupEntry] at h
    by_cases hk : k1 = k
    · simp [hk] at h
    · rw [if_neg hk] at h
      simp only [insertEntry]
      rw [if_neg (fun hh => hk hh.symm)]
      split
      · exact List.Perm.refl _
      · exact ((insertEntry_perm k v t h).cons (k1, v1)).trans (List.Perm.swap _ _ _)

theorem GoMap.ext {V : Type} {a b : GoMap V} (h : a.entries = b.entries) : a = b := by
  cases a; cases b; simp_all

theorem GoMap.get?_set_same {V : Type} (m : GoMap V) (k : uuid.UUID) (v : V) :
    (m.set k v).get? k = some v := lookupEntry_insertEntry_same k v m.entries

theorem GoMap.get?_set_ne {V : Type} (m : GoMap V) (k k2 : uuid.UUID) (v : V) (hne : k2 ≠ k) :
    (m.set k v).get? k2 = m.get? k2 := lookupEntry_insertEntry_ne k k2 v hne m.entries

theorem GoMap.set_of_get? {V : Type} (m : GoMap V) (k : uuid.UUID) (v : V)
    (h : m.get? k = some v) : m.set k v = m :=
  GoMap.ext (insertEntry_of_lookup k v m.entries m.ascending h)

theorem GoMap.set_entries_perm {V : Type} (m : GoMap V) (k : uuid.UUID) (v : V)
    (h : m.get? k = none) : (m.set k v).entries.Perm ((k, v) :: m.entries) :=
  insertEntry_perm k v m.entries h

theorem GoMap.get?_eq_some_iff {V : Type} (m : GoMap V) (k : uuid.UUID) (v : V) :
    m.get? k = some v ↔ (k, v) ∈ m.entries :=
  lookupEntry_eq_some_iff k v m.entries m.ascending

theorem GoMap.mem_range {V : Type} (ρ : MapIter) (m : GoMap V) (e : uuid.UUID × V) :
    e ∈ m.range ρ ↔ e ∈ m.entries := (ρ.perm m.entries).mem_iff

theorem GoMap.nodup_keys {V : Type} (m : GoMap V) : (m.entries.map Prod.fst).Nodup := by
  have h := m.ascending
  unfold Ascending at h
  rw [List.Nodup, List.pairwise_map]
  refine h.imp ?_
  intro a b hab hEq
  rw [hEq, keyLess_irrefl] at hab
  exact absurd hab (by simp)

/-! ## Lemmas on sorting -/

theorem sort.perm_insert {α : Type} (less : α → α → Bool) (a : α) :
    ∀ l : List α, (sort.insert less a l).Perm (a :: l)
  | [] => List.Perm.refl _
  | b :: l => by
    simp only [sort.insert]
    split
    · exact List.Perm.refl _
    · exact ((sort.perm_insert less a l).cons b).trans (List.Perm.swap _ _ _)

theorem sort.perm_Slice {α : Type} (less : α → α → Bool) :
    ∀ l : List α, (sort.Slice less l).Perm l
  | [] => List.Perm.refl _
  | a :: l => (sort.perm_insert less a _).trans ((sort.perm_Slice less l).cons a)

theorem sort.sorted_insert {α : Type} (less : α → α → Bool)
    (htrans : ∀ a b c, less a b = true → less b c = true → less a c = true) (a : α) :
    ∀ l : List α, (∀ b ∈ l, less a b = true ∨ less b a = true) →
      l.Pairwise (fun x y => less x y = true) →
      (sort.insert less a l).Pairwise (fun x y => less x y = true)
  | [], _, _ => by simp [sort.insert]
  | b :: l, hdec, hs => by
    simp only [sort.insert]
    rw [List.pairwise_cons] at hs
    split
    · next hab =>
      refine List.pairwise_cons.mpr ⟨?_, List.pairwise_cons.mpr hs⟩
      intro c hc
      rcases List.mem_cons.mp hc with hc | hc
      · subst hc; exact hab
      · exact htrans _ _ _ hab (hs.1 c hc)
    · next hab =>
      have hba : less b a = true := by
        rcases hdec b (List.mem_cons_self _ _) with h | h
        · exact absurd h hab
        · exact h
      refine List.pairwise_cons.mpr ⟨?_, sort.sorted_insert less htrans a l
        (fun c hc => hdec c (List.mem_cons_of_mem _ hc)) hs.2⟩
      intro c hc
      rcases List.mem_cons.mp ((sort.perm_insert less a l).mem_iff.mp hc) with hc | hc
      · subst hc; exact hba
      · exact hs.1 c hc

theorem sort.sorted_Slice {α : Type} (less : α → α → Bool)
    (htrans : ∀ a b c, less a b = true → less b c = true → less a c = true) :
    ∀ l : List α, sort.Decides less l → (sort.Slice less l).Pairwise (fun x y => less x y = true)
  | [], _ => List.Pairwise.nil
  | a :: l, hdec => by
    unfold sort.Decides at hdec
    rw [List.pairwise_cons] at hdec
    simp only [sort.Slice]
    refine sort.sorted_insert less htrans a _ ?_ (sort.sorted_Slice less htrans l hdec.2)
    intro b hb
    exact hdec.1 b ((sort.perm_Slice less l).mem_iff.mp hb)

theorem sort.sorted_perm_unique {α : Type} (less : α → α → Bool)
    (hirrefl : ∀ a, less a a = false)
    (htrans : ∀ a b c, less a b = true → less b c = true → less a c = true)
    (l1 l2 : List α) (hp : l1.Perm l2)
    (h1 : l1.Pairwise (fun x y => less x y = true))
    (h2 : l2.Pairwise (fun x y => less x y = true)) : l1 = l2 := by
  have hanti : IsAntisymm α (fun x y => less x y = true) := ⟨by
    intro a b hab hba
    have := htrans a b a hab hba
    rw [hirrefl] at this
    exact absurd this (by simp)⟩
  exact List.eq_of_perm_of_sorted hp h1 h2

theorem sort.Decides_perm {α : Type} (less : α → α → Bool) {l1 l2 : List α} (hp : l1.Perm l2)
    (h : sort.Decides less l1) : sort.Decides less l2 := by
  unfold sort.Decides at h ⊢
  exact hp.pairwise h (fun hab => hab.symm)

/-! ## Lemmas on UUIDs -/

namespace uuid

theorem hextable_val (n : Nat) (h : n < 16) :
    (hextable n).val = if n < 10 then 48 + n else 87 + n := by
  unfold hextable
  split <;> simp [Fin.ofNat] <;> omega

theorem xvalue_hextable (n : Nat) (h : n < 16) : xvalue (hextable n) = some ⟨n, h⟩ := by
  have hv := hextable_val n h
  unfold xvalue
  by_cases h10 : n < 10
  · rw [if_pos h10] at hv
    rw [dif_pos (by omega)]
    simp [hv]
  · rw [if_neg h10] at hv
    rw [dif_neg (by omega), dif_neg (by omega), dif_pos (by omega)]
    simp [hv]

theorem xtob_hextable (b : Byte) : xtob (hextable (b.val / 16)) (hextable (b.val % 16)) = some b := by
  have h1 : b.val / 16 < 16 := by omega
  have h2 : b.val % 16 < 16 := by omega
  unfold xtob
  rw [xvalue_hextable _ h1, xvalue_hextable _ h2]
  simp only [Option.some.injEq]
  apply Fin.ext
  simp only
  omega

theorem UUID.exists_bytes (u : UUID) :
    ∃ b0 b1 b2 b3 b4 b5 b6 b7 b8 b9 b10 b11 b12 b13 b14 b15 : Byte,
      u.bytes = [b0, b1, b2, b3, b4, b5, b6, b7, b8, b9, b10, b11, b12, b13, b14, b15] := by
  obtain ⟨l, hl⟩ := u
  match l, hl with
  | [b0, b1, b2, b3, b4, b5, b6, b7, b8, b9, b10, b11, b12, b13, b14, b15], _ =>
    exact ⟨b0, b1, b2, b3, b4, b5, b6, b7, b8, b9, b10, b11, b12, b13, b14, b15, rfl⟩

theorem Parse_String (u : UUID) : Parse u.String = some u := by
  obtain ⟨b0, b1, b2, b3, b4, b5, b6, b7, b8, b9, b10, b11, b12, b13, b14, b15, hb⟩ :=
    UUID.exists_bytes u
  obtain ⟨l, hl⟩ := u
  simp only at hb
  subst hb
  simp [UUID.String, hexEncode, Parse, parseHyphenated, ofDecoded, decodeAt, hyphenatedOffsets,
    xtob_hextable]

theorem String_injective (u v : UUID) (h : u.String = v.String) : u = v := by
  have hu := Parse_String u
  rw [h, Parse_String v] at hu
  exact (Option.some.inj hu).symm

theorem bytesLess_cons_same (c : Byte) (x y : List Byte) :
    bytesLess (c :: x) (c :: y) = bytesLess x y := by
  simp [bytesLess]

theorem bytesLess_hex_cons (a b : Byte) (x y : List Byte) :
    bytesLess (hextable (a.val / 16) :: hextable (a.val % 16) :: x)
        (hextable (b.val / 16) :: hextable (b.val % 16) :: y)
      = bytesLess (a :: x) (b :: y) := by
  have ha1 := hextable_val (a.val / 16) (by omega)
  have ha2 := hextable_val (a.val % 16) (by omega)
  have hb1 := hextable_val (b.val / 16) (by omega)
  have hb2 := hextable_val (b.val % 16) (by omega)
  simp only [bytesLess, Fin.lt_def]
  by_cases hab : a.val < b.val
  · rw [if_pos hab]
    by_cases h1 : (hextable (a.val / 16)).val < (hextable (b.val / 16)).val
    · rw [if_pos h1]
    · rw [if_neg h1]
      have h2 : ¬ (hextable (b.val / 16)).val < (hextable (a.val / 16)).val := by
        rw [ha1, hb1]; split <;> split <;> omega
      rw [if_neg h2]
      have h3 : (hextable (a.val % 16)).val < (hextable (b.val % 16)).val := by
        rw [ha1, hb1] at h1 h2
        rw [ha2, hb2]
        split at h1 <;> split at h1 <;> split <;> split <;> omega
      rw [if_pos h3]
  · rw [if_neg hab]
    by_cases hba : b.val < a.val
    · rw [if_pos hba]
      by_cases h1 : (hextable (b.val / 16)).val < (hextable (a.val / 16)).val
      · have h2 : ¬ (hextable (a.val / 16)).val < (hextable (b.val / 16)).val := by omega
        rw [if_neg h2, if_pos h1]
      · have h2 : ¬ (hextable (a.val / 16)).val < (hextable (b.val / 16)).val := by
          rw [ha1, hb1]; split <;> split <;> omega
        rw [if_neg h2, if_neg h1]
        have h3 : (hextable (b.val % 16)).val < (hextable (a.val % 16)).val := by
          rw [ha1, hb1] at h1 h2
          rw [ha2, hb2]
          split at h1 <;> split at h1 <;> split <;> split <;> omega
        have h4 : ¬ (hextable (a.val % 16)).val < (hextable (b.val % 16)).val := by omega
        rw [if_neg h4, if_pos h3]
    · rw [if_neg hba]
      have hEq : a.val = b.val := by omega
      rw [hEq]
      simp

theorem bytesLess_hexEncode_append : ∀ (a b : List Byte) (x y : List Byte),
    a.length = b.length →
    bytesLess (hexEncode a ++ x) (hexEncode b ++ y) = bytesLess (a ++ x) (b ++ y)
  | [], [], x, y, _ => rfl
  | [], _ :: _, _, _, h => by simp at h
  | _ :: _, [], _, _, h => by simp at h
  | a0 :: a, b0 :: b, x, y, h => by
    simp only [hexEncode, List.cons_append]
    rw [bytesLess_hex_cons]
    simp only [bytesLess]
    rw [bytesLess_hexEncode_append a b x y (by simpa using h)]

theorem bytesLess_append_congr : ∀ (p q x y x1 y1 : List Byte),
    p.length = q.length → bytesLess x y = bytesLess x1 y1 →
    bytesLess (p ++ x) (q ++ y) = bytesLess (p ++ x1) (q ++ y1)
  | [], [], _, _, _, _, _, h => h
  | [], _ :: _, _, _, _, _, h, _ => by simp at h
  | _ :: _, [], _, _, _, _, h, _ => by simp at h
  | p0 :: p, q0 :: q, x, y, x1, y1, hl, h => by
    have ih := bytesLess_append_congr p q x y x1 y1 (by simpa using hl) h
    show bytesLess (p0 :: (p ++ x)) (q0 :: (q ++ y)) = bytesLess (p0 :: (p ++ x1)) (q0 :: (q ++ y1))
    rw [bytesLess, bytesLess, ih]

theorem bytesLess_hexEncode_hyphen (a b x y x1 y1 : List Byte) (hl : a.length = b.length)
    (h : bytesLess x y = bytesLess x1 y1) :
    bytesLess (hexEncode a ++ 45 :: x) (hexEncode b ++ 45 :: y) = bytesLess (a ++ x1) (b ++ y1) := by
  rw [bytesLess_hexEncode_append a b _ _ hl]
  exact bytesLess_append_congr a b _ _ _ _ hl ((bytesLess_cons_same 45 x y).trans h)

/-- The canonical text orders UUIDs as their bytes do. -/
theorem bytesLess_String (u v : UUID) : bytesLess u.String v.String = keyLess u v := by
  obtain ⟨a0, a1, a2, a3, a4, a5, a6, a7, a8, a9, a10, a11, a12, a13, a14, a15, ha⟩ :=
    UUID.exists_bytes u
  obtain ⟨b0, b1, b2, b3, b4, b5, b6, b7, b8, b9, b10, b11, b12, b13, b14, b15, hb⟩ :=
    UUID.exists_bytes v
  unfold keyLess UUID.String
  rw [ha, hb]
  simp only [List.take, List.drop]
  have e5 : bytesLess (hexEncode [a10, a11, a12, a13, a14, a15])
      (hexEncode [b10, b11, b12, b13, b14, b15])
      = bytesLess [a10, a11, a12, a13, a14, a15] [b10, b11, b12, b13, b14, b15] := by
    simpa using bytesLess_hexEncode_append [a10, a11, a12, a13, a14, a15]
      [b10, b11, b12, b13, b14, b15] [] [] rfl
  have e4 := bytesLess_hexEncode_hyphen [a8, a9] [b8, b9] _ _ _ _ rfl e5
  have e3 := bytesLess_hexEncode_hyphen [a6, a7] [b6, b7] _ _ _ _ rfl e4
  have e2 := bytesLess_hexEncode_hyphen [a4, a5] [b4, b5] _ _ _ _ rfl e3
  have e1 := bytesLess_hexEncode_hyphen [a0, a1, a2, a3] [b0, b1, b2, b3] _ _ _ _ rfl e2
  exact e1

end uuid

namespace model

theorem lessTask_iff (a b : Task) :
    lessTask a b = true ↔
      bytesLess a.Name b.Name = true ∨ (a.Name = b.Name ∧ bytesLess a.ID b.ID = true) := by
  unfold lessTask
  by_cases h1 : bytesLess a.Name b.Name = true
  · simp [h1]
  · by_cases h2 : a.Name = b.Name ∧ bytesLess a.ID b.ID = true
    · simp [h2]
    · simp [h1, h2]

theorem lessTask_irrefl (a : Task) : lessTask a a = false := by
  cases h : lessTask a a with
  | false => rfl
  | true =>
    rw [lessTask_iff] at h
    rcases h with h | ⟨_, h⟩ <;> rw [bytesLess_irrefl] at h <;> exact absurd h (by simp)

theorem lessTask_trans (a b c : Task) (h1 : lessTask a b = true) (h2 : lessTask b c = true) :
    lessTask a c = true := by
  rw [lessTask_iff] at h1 h2 ⊢
  rcases h1 with h1 | ⟨e1, h1⟩
  · rcases h2 with h2 | ⟨e2, _⟩
    · exact Or.inl (bytesLess_trans _ _ _ h1 h2)
    · exact Or.inl (e2 ▸ h1)
  · rcases h2 with h2 | ⟨e2, h2⟩
    · exact Or.inl (e1 ▸ h2)
    · exact Or.inr ⟨e1.trans e2, bytesLess_trans _ _ _ h1 h2⟩

theorem lessTask_decides (a b : Task) (h : a.ID ≠ b.ID) :
    lessTask a b = true ∨ lessTask b a = true := by
  rw [lessTask_iff, lessTask_iff]
  rcases bytesLess_total a.Name b.Name with hn | hn | hn
  · exact Or.inl (Or.inl hn)
  · rcases bytesLess_total a.ID b.ID with hi | hi | hi
    · exact Or.inl (Or.inr ⟨hn, hi⟩)
    · exact absurd hi h
    · exact Or.inr (Or.inr ⟨hn.symm, hi⟩)
  · exact Or.inr (Or.inl hn)

theorem render_injective_key (a b : uuid.UUID × task) (h : (render a).ID = (render b).ID) :
    a.1 = b.1 := uuid.String_injective _ _ h

/-- The rendered tasks of a task map are decided by `lessTask`, in whatever
order they are listed. -/
theorem decides_rendered (m : taskmap) (l : List (uuid.UUID × task)) (hp : l.Perm m.entries) :
    sort.Decides lessTask (l.map render) := by
  have hnd : (m.entries.map Prod.fst).Nodup := m.nodup_keys
  have hnd2 : (l.map Prod.fst).Nodup := (hp.map Prod.fst).nodup_iff.mpr hnd
  unfold sort.Decides
  rw [List.pairwise_map]
  rw [List.Nodup, List.pairwise_map] at hnd2
  refine hnd2.imp ?_
  intro a b hab
  exact lessTask_decides _ _ (fun h => hab (render_injective_key a b h))

theorem addTaskHelper_malformed (tasks : taskmap) (t : Task) (h : uuid.Parse t.ID = none) :
    addTaskHelper tasks t = (tasks, http.StatusBadRequest) := by
  simp [addTaskHelper, h]

theorem addTaskHelper_present (tasks : taskmap) (t : Task) (u : uuid.UUID) (v : task)
    (h : uuid.Parse t.ID = some u) (hv : tasks.get? u = some v) :
    addTaskHelper tasks t = (tasks, http.StatusConflict) := by
  simp [addTaskHelper, h, hv]

theorem addTaskHelper_absent (tasks : taskmap) (t : Task) (u : uuid.UUID)
    (h : uuid.Parse t.ID = some u) (hv : tasks.get? u = none) :
    addTaskHelper tasks t = (tasks.set u ⟨t.Name, t.Completed⟩, http.StatusCreated) := by
  simp [addTaskHelper, h, hv]

/-- A failing `addTaskHelper` leaves the task map as it was. -/
theorem addTaskHelper_failure (tasks : taskmap) (t : Task)
    (h : (addTaskHelper tasks t).2 ≠ http.StatusCreated) : (addTaskHelper tasks t).1 = tasks := by
  cases hp : uuid.Parse t.ID with
  | none => rw [addTaskHelper_malformed tasks t hp]
  | some u =>
    cases hg : tasks.get? u with
    | some v => rw [addTaskHelper_present tasks t u v hp hg]
    | none =>
      rw [addTaskHelper_absent tasks t u hp hg] at h
      exact absurd rfl h

theorem addTaskHelper_status (tasks : taskmap) (t : Task) :
    (addTaskHelper tasks t).2 = http.StatusCreated ∨
    (addTaskHelper tasks t).2 = http.StatusBadRequest ∨
    (addTaskHelper tasks t).2 = http.StatusConflict := by
  cases hp : uuid.Parse t.ID with
  | none => rw [addTaskHelper_malformed tasks t hp]; exact Or.inr (Or.inl rfl)
  | some u =>
    cases hg : tasks.get? u with
    | some v => rw [addTaskHelper_present tasks t u v hp hg]; exact Or.inr (Or.inr rfl)
    | none => rw [addTaskHelper_absent tasks t u hp hg]; exact Or.inl rfl

theorem addTasks_cons_created (m m1 : taskmap) (t : Task) (rest : List Task)
    (h : addTaskHelper m t = (m1, http.StatusCreated)) :
    addTasks m (t :: rest) = addTasks m1 rest := by
  simp [addTasks, h]

theorem addTasks_cons_failed (m : taskmap) (t : Task) (rest : List Task) (m1 : taskmap) (st : Int)
    (h : addTaskHelper m t = (m1, st)) (hst : st ≠ http.StatusCreated) :
    addTasks m (t :: rest) = (m1, st) := by
  simp [addTasks, h, hst]

/-- Tasks whose ids parse to pairwise different UUIDs, none of them in the
map yet, are all added. -/
theorem addTasks_created : ∀ (ts : List Task) (m : taskmap),
    (∀ t ∈ ts, ∃ u, uuid.Parse t.ID = some u ∧ m.get? u = none) →
    ts.Pairwise (fun a b => uuid.Parse a.ID ≠ uuid.Parse b.ID) →
    ∃ m1, addTasks m ts = (m1, http.StatusCreated) ∧
      m1.entries.Perm (ts.filterMap entryOf ++ m.entries)
  | [], m, _, _ => ⟨m, rfl, by simp⟩
  | t :: rest, m, hall, hpw => by
    obtain ⟨u, hu, hnone⟩ := hall t (List.mem_cons_self _ _)
    rw [List.pairwise_cons] at hpw
    have hrest : ∀ t1 ∈ rest, ∃ u1, uuid.Parse t1.ID = some u1 ∧
        (m.set u ⟨t.Name, t.Completed⟩).get? u1 = none := by
      intro t1 ht1
      obtain ⟨u1, hu1, hn1⟩ := hall t1 (List.mem_cons_of_mem _ ht1)
      refine ⟨u1, hu1, ?_⟩
      have hne : u1 ≠ u := by
        intro hEq
        apply hpw.1 t1 ht1
        rw [hu, hu1, hEq]
      rw [GoMap.get?_set_ne _ _ _ _ hne]
      exact hn1
    obtain ⟨m1, hm1, hperm⟩ := addTasks_created rest (m.set u ⟨t.Name, t.Completed⟩) hrest hpw.2
    refine ⟨m1, ?_, ?_⟩
    · rw [addTasks_cons_created m _ t rest (addTaskHelper_absent m t u hu hnone)]
      exact hm1
    · have he : entryOf t = some (u, ⟨t.Name, t.Completed⟩) := by simp [entryOf, hu]
      rw [List.filterMap_cons, he]
      refine hperm.trans ?_
      refine ((GoMap.set_entries_perm m u _ hnone).append_left _).trans ?_
      simp only [List.cons_append]
      exact List.perm_middle

theorem addTasks_append (pre rest : List Task) : ∀ (m : taskmap),
    addTasks m (pre ++ rest) =
      if (addTasks m pre).2 = http.StatusCreated then addTasks (addTasks m pre).1 rest
      else addTasks m pre := by
  induction pre with
  | nil => intro m; simp [addTasks]
  | cons t pre ih =>
    intro m
    simp only [List.cons_append, addTasks]
    by_cases hst : (addTaskHelper m t).2 = http.StatusCreated
    · simp only [hst, ne_eq, not_true_eq_false, if_false]
      exact ih _
    · simp [hst]

theorem addTasks_status : ∀ (ts : List Task) (m : taskmap),
    (addTasks m ts).2 = http.StatusCreated ∨ (addTasks m ts).2 = http.StatusBadRequest ∨
      (addTasks m ts).2 = http.StatusConflict
  | [], _ => Or.inl rfl
  | t :: rest, m => by
    simp only [addTasks]
    by_cases hst : (addTaskHelper m t).2 = http.StatusCreated
    · simp only [hst, ne_eq, not_true_eq_false, if_false]
      exact addTasks_status rest _
    · simp only [ne_eq, hst, not_false_eq_true, if_true]
      rcases addTaskHelper_status m t with h | h
      · exact absurd h hst
      · exact Or.inr h

/-- When every id parses, the loop of `AddList` ends with `Created` or
`Conflict`. -/
theorem addTasks_wellformed : ∀ (ts : List Task) (m : taskmap),
    (∀ t ∈ ts, uuid.Parse t.ID ≠ none) →
    (addTasks m ts).2 = http.StatusCreated ∨ (addTasks m ts).2 = http.StatusConflict
  | [], _, _ => Or.inl rfl
  | t :: rest, m, hall => by
    simp only [addTasks]
    by_cases hst : (addTaskHelper m t).2 = http.StatusCreated
    · simp only [hst, ne_eq, not_true_eq_false, if_false]
      exact addTasks_wellformed rest _ (fun t1 h1 => hall t1 (List.mem_cons_of_mem _ h1))
    · simp only [ne_eq, hst, not_false_eq_true, if_true]
      right
      have hp := hall t (List.mem_cons_self _ _)
      cases hpu : uuid.Parse t.ID with
      | none => exact absurd hpu hp
      | some u =>
        cases hg : m.get? u with
        | some v => rw [addTaskHelper_present m t u v hpu hg]
        | none =>
          rw [addTaskHelper_absent m t u hpu hg] at hst
          exact absurd rfl hst

end model

namespace uuid

theorem isCanonical_iff (s : GoString) :
    isCanonical s = true ↔ ∃ u, Parse s = some u ∧ u.String = s := by
  unfold isCanonical
  cases h : Parse s with
  | none => simp
  | some u => simp

end uuid

namespace model

theorem render_entryOf_canonical (t : Task) (h : uuid.isCanonical t.ID = true) :
    (entryOf t).map render = some t := by
  obtain ⟨u, hu, hs⟩ := (uuid.isCanonical_iff t.ID).mp h
  simp [entryOf, hu, render, hs]

theorem map_render_filterMap_entryOf : ∀ ts : List Task,
    (∀ t ∈ ts, uuid.isCanonical t.ID = true) → (ts.filterMap entryOf).map render = ts
  | [], _ => rfl
  | t :: rest, h => by
    have ht := render_entryOf_canonical t (h t (List.mem_cons_self _ _))
    cases he : entryOf t with
    | none => simp [he] at ht
    | some e =>
      simp only [he, Option.map_some', Option.some.injEq] at ht
      rw [List.filterMap_cons, he]
      simp only [List.map_cons, ht]
      rw [map_render_filterMap_entryOf rest (fun t1 h1 => h t1 (List.mem_cons_of_mem _ h1))]

theorem GetList_found (ρ : MapIter) (lists : listmap) (id : GoString) (u : uuid.UUID) (l : list)
    (hu : uuid.Parse id = some u) (hl : lists.get? u = some l) :
    GetList ρ lists id =
      (⟨u.String, l.name, l.description, sort.Slice lessTask ((l.tasks.range ρ).map render)⟩,
        http.StatusOK) := by
  simp only [GetList, hu, hl]
  rfl

/-- The tasks `GetList` returns for a stored list: a rearrangement of the
stored tasks, strictly ascending under `lessTask`. -/
theorem sorted_tasks (ρ : MapIter) (m : taskmap) :
    (sort.Slice lessTask ((m.range ρ).map render)).Perm (m.entries.map render) ∧
    (sort.Slice lessTask ((m.range ρ).map render)).Pairwise (fun a b => lessTask a b = true) :=
  ⟨(sort.perm_Slice _ _).trans ((ρ.perm m.entries).map render),
    sort.sorted_Slice lessTask lessTask_trans _ (decides_rendered m _ (ρ.perm m.entries))⟩

/-- C1. Round trip of `AddList` then `GetList`: a list whose id is canonical
text not yet in the store, and whose embedded task ids are canonical and
pairwise distinct, is created, and `GetList` on its id then returns OK with
the same id, name and description and with the input tasks rearranged into
ascending order of name, then id. -/
theorem addList_getList_round_trip (ρ : MapIter) (lists : listmap) (model : TodoList)
    (hid : uuid.isCanonical model.ID = true)
    (hnew : ∀ u, uuid.Parse model.ID = some u → lists.get? u = none)
    (htasks : ∀ t ∈ model.Tasks, uuid.isCanonical t.ID = true)
    (hdistinct : (model.Tasks.map Task.ID).Nodup) :
    (AddList lists model).2 = http.StatusCreated ∧
    (GetList ρ (AddList lists model).1 model.ID).2 = http.StatusOK ∧
    (GetList ρ (AddList lists model).1 model.ID).1.ID = model.ID ∧
    (GetList ρ (AddList lists model).1 model.ID).1.Name = model.Name ∧
    (GetList ρ (AddList lists model).1 model.ID).1.Description = model.Description ∧
    (GetList ρ (AddList lists model).1 model.ID).1.Tasks.Perm model.Tasks ∧
    (GetList ρ (AddList lists model).1 model.ID).1.Tasks.Pairwise (fun a b =>
      bytesLess a.Name b.Name = true ∨ (a.Name = b.Name ∧ bytesLess a.ID b.ID = true)) := by
  obtain ⟨u, hu, hs⟩ := (uuid.isCanonical_iff model.ID).mp hid
  have hall : ∀ t ∈ model.Tasks, ∃ u1, uuid.Parse t.ID = some u1 ∧
      (GoMap.empty : taskmap).get? u1 = none := by
    intro t ht
    obtain ⟨u1, hu1, _⟩ := (uuid.isCanonical_iff t.ID).mp (htasks t ht)
    exact ⟨u1, hu1, rfl⟩
  have hpw : model.Tasks.Pairwise (fun a b => uuid.Parse a.ID ≠ uuid.Parse b.ID) := by
    rw [List.Nodup, List.pairwise_map] at hdistinct
    refine hdistinct.imp_of_mem ?_
    intro a b ha hb hab hEq
    obtain ⟨ua, hua, hsa⟩ := (uuid.isCanonical_iff a.ID).mp (htasks a ha)
    obtain ⟨ub, hub, hsb⟩ := (uuid.isCanonical_iff b.ID).mp (htasks b hb)
    rw [hua, hub, Option.some.injEq] at hEq
    apply hab
    rw [← hsa, ← hsb, hEq]
  obtain ⟨m1, hm1, hperm⟩ := addTasks_created model.Tasks GoMap.empty hall hpw
  have hadd : AddList lists model =
      (lists.set u ⟨model.Name, model.Description, m1⟩, http.StatusCreated) := by
    simp [AddList, hu, hm1, hnew u hu]
  have hget := GetList_found ρ (lists.set u ⟨model.Name, model.Description, m1⟩) model.ID u
    ⟨model.Name, model.Description, m1⟩ hu (GoMap.get?_set_same _ _ _)
  rw [hadd]
  show _ ∧ (GetList ρ (lists.set u ⟨model.Name, model.Description, m1⟩) model.ID).2 = _ ∧
    (GetList ρ (lists.set u ⟨model.Name, model.Description, m1⟩) model.ID).1.ID = _ ∧
    (GetList ρ (lists.set u ⟨model.Name, model.Description, m1⟩) model.ID).1.Name = _ ∧
    (GetList ρ (lists.set u ⟨model.Name, model.Description, m1⟩) model.ID).1.Description = _ ∧
    (GetList ρ (lists.set u ⟨model.Name, model.Description, m1⟩) model.ID).1.Tasks.Perm _ ∧
    (GetList ρ (lists.set u ⟨model.Name, model.Description, m1⟩) model.ID).1.Tasks.Pairwise _
  rw [hget]
  refine ⟨rfl, rfl, hs, rfl, rfl, ?_, ?_⟩
  · refine (sorted_tasks ρ m1).1.trans ?_
    have := hperm.map render
    rw [show (GoMap.empty : taskmap).entries = [] from rfl, List.append_nil,
      map_render_filterMap_entryOf model.Tasks htasks] at this
    exact this
  · exact (sorted_tasks ρ m1).2.imp (fun h => (lessTask_iff _ _).mp h)

theorem addList_getList_round_trip_witness :
    (AddList GoMap.empty sample.home).2 = http.StatusCreated ∧
    (GetList MapIter.descending (AddList GoMap.empty sample.home).1 sample.home.ID).2
      = http.StatusOK ∧
    (GetList MapIter.descending (AddList GoMap.empty sample.home).1 sample.home.ID).1.ID
      = sample.home.ID ∧
    (GetList MapIter.descending (AddList GoMap.empty sample.home).1 sample.home.ID).1.Name
      = sample.home.Name ∧
    (GetList MapIter.descending (AddList GoMap.empty sample.home).1 sample.home.ID).1.Description
      = sample.home.Description ∧
    (GetList MapIter.descending (AddList GoMap.empty sample.home).1 sample.home.ID).1.Tasks.Perm
      sample.home.Tasks ∧
    (GetList MapIter.descending (AddList GoMap.empty sample.home).1
      sample.home.ID).1.Tasks.Pairwise (fun a b =>
      bytesLess a.Name b.Name = true ∨ (a.Name = b.Name ∧ bytesLess a.ID b.ID = true)) :=
  addList_getList_round_trip MapIter.descending GoMap.empty sample.home (by decide)
    (by intro u _; rfl) (by decide) (by decide)

theorem AddList_parsed (lists : listmap) (model : TodoList) (u : uuid.UUID)
    (hu : uuid.Parse model.ID = some u) :
    AddList lists model =
      if (addTasks GoMap.empty model.Tasks).2 ≠ http.StatusCreated then
        (lists, (addTasks GoMap.empty model.Tasks).2)
      else
        match lists.get? u with
        | some _ => (lists, http.StatusConflict)
        | none =>
          (lists.set u ⟨model.Name, model.Description, (addTasks GoMap.empty model.Tasks).1⟩,
            http.StatusCreated) := by
  simp only [AddList, hu]

/-- C2, counterexample. The store holds a list with the id of the candidate,
the candidate has an embedded task with a malformed id, and `AddList` returns
BadRequest, not Conflict. -/
theorem addList_existing_id_bad_request :
    ((uuid.Parse sample.homeAgainBadTask.ID).bind sample.homeStore.get?).isSome = true ∧
    (AddList sample.homeStore sample.homeAgainBadTask).2 = http.StatusBadRequest ∧
    http.StatusBadRequest ≠ http.StatusConflict := by decide

/-- C2, amended. For a candidate whose id is already in the store, `AddList`
leaves the store unchanged and returns Conflict or BadRequest; it returns
Conflict whenever every embedded task id is well-formed, whatever the name,
the description and the tasks are. -/
theorem addList_existing_id (lists : listmap) (model : TodoList) (u : uuid.UUID)
    (hu : uuid.Parse model.ID = some u) (hl : lists.get? u ≠ none) :
    (AddList lists model).1 = lists ∧
    ((AddList lists model).2 = http.StatusConflict ∨
      (AddList lists model).2 = http.StatusBadRequest) ∧
    ((∀ t ∈ model.Tasks, uuid.Parse t.ID ≠ none) →
      (AddList lists model).2 = http.StatusConflict) := by
  rw [AddList_parsed lists model u hu]
  obtain ⟨l, hl⟩ := Option.ne_none_iff_exists'.mp hl
  by_cases hst : (addTasks GoMap.empty model.Tasks).2 = http.StatusCreated
  · simp [hst, hl]
  · simp only [ne_eq, hst, not_false_eq_true, if_true, true_and]
    refine ⟨?_, ?_⟩
    · rcases addTasks_status model.Tasks GoMap.empty with h | h | h
      · exact absurd h hst
      · exact Or.inr h
      · exact Or.inl h
    · intro hall
      rcases addTasks_wellformed model.Tasks GoMap.empty hall with h | h
      · exact absurd h hst
      · exact h

theorem addList_existing_id_witness :
    (AddList sample.homeStore sample.homeAgain).1 = sample.homeStore ∧
    ((AddList sample.homeStore sample.homeAgain).2 = http.StatusConflict ∨
      (AddList sample.homeStore sample.homeAgain).2 = http.StatusBadRequest) ∧
    (AddList sample.homeStore sample.homeAgain).2 = http.StatusConflict :=
  have w := addList_existing_id sample.homeStore sample.homeAgain sample.homeId (by decide)
    (by decide)
  ⟨w.1, w.2.1, w.2.2 (by decide)⟩

theorem AddList_failure (lists : listmap) (model : TodoList)
    (h : (AddList lists model).2 ≠ http.StatusCreated) : (AddList lists model).1 = lists := by
  cases hu : uuid.Parse model.ID with
  | none => simp [AddList, hu]
  | some u =>
    rw [AddList_parsed lists model u hu] at h ⊢
    by_cases hst : (addTasks GoMap.empty model.Tasks).2 = http.StatusCreated
    · simp only [hst, ne_eq, not_true_eq_false, if_false] at h ⊢
      cases hg : lists.get? u with
      | some l => rfl
      | none => simp [hg] at h
    · simp [hst]

theorem AddList_status (lists : listmap) (model : TodoList) :
    (AddList lists model).2 = http.StatusCreated ∨ (AddList lists model).2 = http.StatusBadRequest ∨
      (AddList lists model).2 = http.StatusConflict := by
  cases hu : uuid.Parse model.ID with
  | none => simp [AddList, hu]
  | some u =>
    rw [AddList_parsed lists model u hu]
    by_cases hst : (addTasks GoMap.empty model.Tasks).2 = http.StatusCreated
    · simp only [hst, ne_eq, not_true_eq_false, if_false]
      cases hg : lists.get? u with
      | some l => exact Or.inr (Or.inr rfl)
      | none => exact Or.inl rfl
    · simp only [ne_eq, hst, not_false_eq_true, if_true]
      rcases addTasks_status model.Tasks GoMap.empty with h1 | h1
      · exact absurd h1 hst
      · exact Or.inr h1

theorem AddTask_found (lists : listmap) (id : GoString) (t : Task) (u : uuid.UUID) (l : list)
    (hu : uuid.Parse id = some u) (hl : lists.get? u = some l) :
    AddTask lists id t =
      (lists.set u ⟨l.name, l.description, (addTaskHelper l.tasks t).1⟩,
        (addTaskHelper l.tasks t).2) := by
  simp only [AddTask, hu, hl]

theorem AddTask_failure (lists : listmap) (id : GoString) (t : Task)
    (h : (AddTask lists id t).2 ≠ http.StatusCreated) : (AddTask lists id t).1 = lists := by
  cases hu : uuid.Parse id with
  | none => simp [AddTask, hu]
  | some u =>
    cases hl : lists.get? u with
    | none => simp [AddTask, hu, hl]
    | some l =>
      rw [AddTask_found lists id t u l hu hl] at h ⊢
      simp only at h ⊢
      rw [addTaskHelper_failure l.tasks t h]
      exact GoMap.set_of_get? lists u _ hl

theorem AddTask_status (lists : listmap) (id : GoString) (t : Task) :
    (AddTask lists id t).2 = http.StatusCreated ∨ (AddTask lists id t).2 = http.StatusBadRequest ∨
      (AddTask lists id t).2 = http.StatusConflict := by
  cases hu : uuid.Parse id with
  | none => simp [AddTask, hu]
  | some u =>
    cases hl : lists.get? u with
    | none => simp [AddTask, hu, hl]
    | some l =>
      rw [AddTask_found lists id t u l hu hl]
      exact addTaskHelper_status _ _

theorem SetCompleted_failure (lists : listmap) (id taskID : GoString) (c : CompletedTask)
    (h : (SetCompleted lists id taskID c).2 ≠ http.StatusCreated) :
    (SetCompleted lists id taskID c).1 = lists ∧
      (SetCompleted lists id taskID c).2 = http.StatusBadRequest := by
  cases hu : uuid.Parse id with
  | none => simp [SetCompleted, hu]
  | some u =>
    cases ht : uuid.Parse taskID with
    | none => simp [SetCompleted, hu, ht]
    | some tid =>
      cases hl : lists.get? u with
      | none => simp [SetCompleted, hu, ht, hl]
      | some l =>
        cases hk : l.tasks.get? tid with
        | none => simp [SetCompleted, hu, ht, hl, hk]
        | some tk => simp [SetCompleted, hu, ht, hl, hk] at h

/-- C3. Failure atomicity: whenever `AddList`, `AddTask` or `SetCompleted`
returns a status other than Created, that status is BadRequest or Conflict and
the store after the call equals the store before it; so an `AddList` that
fails on a later embedded task has inserted none of the earlier ones. -/
theorem failure_leaves_store_unchanged (lists : listmap) (model : TodoList) (id taskID : GoString)
    (t : Task) (c : CompletedTask) :
    ((AddList lists model).2 ≠ http.StatusCreated →
      (AddList lists model).1 = lists ∧
      ((AddList lists model).2 = http.StatusBadRequest ∨
        (AddList lists model).2 = http.StatusConflict)) ∧
    ((AddTask lists id t).2 ≠ http.StatusCreated →
      (AddTask lists id t).1 = lists ∧
      ((AddTask lists id t).2 = http.StatusBadRequest ∨
        (AddTask lists id t).2 = http.StatusConflict)) ∧
    ((SetCompleted lists id taskID c).2 ≠ http.StatusCreated →
      (SetCompleted lists id taskID c).1 = lists ∧
      (SetCompleted lists id taskID c).2 = http.StatusBadRequest) := by
  refine ⟨fun h => ⟨AddList_failure lists model h, ?_⟩,
    fun h => ⟨AddTask_failure lists id t h, ?_⟩, SetCompleted_failure lists id taskID c⟩
  · rcases AddList_status lists model with h1 | h1
    · exact absurd h1 h
    · exact h1
  · rcases AddTask_status lists id t with h1 | h1
    · exact absurd h1 h
    · exact h1

theorem failure_leaves_store_unchanged_witness :
    ((AddList sample.homeStore sample.repeated).1 = sample.homeStore ∧
      ((AddList sample.homeStore sample.repeated).2 = http.StatusBadRequest ∨
        (AddList sample.homeStore sample.repeated).2 = http.StatusConflict)) ∧
    ((AddTask sample.homeStore sample.home.ID sample.mow).1 = sample.homeStore ∧
      ((AddTask sample.homeStore sample.home.ID sample.mow).2 = http.StatusBadRequest ∨
        (AddTask sample.homeStore sample.home.ID sample.mow).2 = http.StatusConflict)) ∧
    ((SetCompleted sample.homeStore sample.home.ID sample.otherId ⟨true⟩).1 = sample.homeStore ∧
      (SetCompleted sample.homeStore sample.home.ID sample.otherId ⟨true⟩).2
        = http.StatusBadRequest) :=
  ⟨(failure_leaves_store_unchanged sample.homeStore sample.repeated sample.home.ID sample.otherId
      sample.mow ⟨true⟩).1 (by decide),
    (failure_leaves_store_unchanged sample.homeStore sample.repeated sample.home.ID sample.otherId
      sample.mow ⟨true⟩).2.1 (by decide),
    (failure_leaves_store_unchanged sample.homeStore sample.repeated sample.home.ID sample.otherId
      sample.mow ⟨true⟩).2.2 (by decide)⟩

/-- C4, counterexample. The upper-case variant of an identifier is not the
canonical text, yet `AddList` accepts it (Created) and `GetList` finds the
list under it, answering with the canonical text; and a candidate whose
malformed task id comes after a repeated one gets Conflict, not BadRequest. -/
theorem addList_accepts_upper_case :
    uuid.isCanonical sample.upperId = false ∧
    (AddList GoMap.empty ⟨sample.upperId, str "Home", str "", []⟩).2 = http.StatusCreated ∧
    GetList MapIter.ascending (AddList GoMap.empty ⟨sample.upperId, str "Home", str "", []⟩).1
        sample.upperId
      = (⟨sample.home.ID, str "Home", str "", []⟩, http.StatusOK) ∧
    uuid.Parse sample.notAnId = none ∧
    (AddList GoMap.empty sample.repeatedThenBad).2 = http.StatusConflict := by decide

/-- C4, amended. A text that `uuid.Parse` rejects gives BadRequest: as the
list id of `AddList`, as the id of an embedded task of `AddList` when the list
id and the embedded ids before it are well-formed and these are pairwise
different, as the list id or the task id of `AddTask`, as either id of
`SetCompleted`, and as the id of `GetList`.  A text `v` that `uuid.Parse`
accepts (besides the canonical form: its variants in upper case, with the
`urn:uuid:` prefix, between braces and without hyphens) is not rejected but
normalized: every operation treats it as the canonical text of the same
identifier, and `GetList` answers with the canonical text. -/
theorem malformed_id_bad_request (ρ : MapIter) (lists : listmap) (s id name desc v : GoString)
    (u : uuid.UUID) (ts pre post : List Task) (t : Task) (c : CompletedTask)
    (h : uuid.Parse s = none) :
    (AddList lists ⟨s, name, desc, ts⟩).2 = http.StatusBadRequest ∧
    (uuid.Parse id ≠ none → (∀ p ∈ pre, uuid.Parse p.ID ≠ none) →
      pre.Pairwise (fun a b => uuid.Parse a.ID ≠ uuid.Parse b.ID) →
      (AddList lists ⟨id, name, desc, pre ++ ⟨s, t.Name, t.Completed⟩ :: post⟩).2
        = http.StatusBadRequest) ∧
    (AddTask lists s t).2 = http.StatusBadRequest ∧
    (AddTask lists id ⟨s, t.Name, t.Completed⟩).2 = http.StatusBadRequest ∧
    (SetCompleted lists s id c).2 = http.StatusBadRequest ∧
    (SetCompleted lists id s c).2 = http.StatusBadRequest ∧
    (GetList ρ lists s).2 = http.StatusBadRequest ∧
    (uuid.Parse v = some u →
      AddList lists ⟨v, name, desc, ts⟩ = AddList lists ⟨u.String, name, desc, ts⟩ ∧
      AddTask lists v t = AddTask lists u.String t ∧
      SetCompleted lists v id c = SetCompleted lists u.String id c ∧
      SetCompleted lists id v c = SetCompleted lists id u.String c ∧
      GetList ρ lists v = GetList ρ lists u.String ∧
      (GetList ρ lists v).2 ≠ http.StatusBadRequest ∧
      (GetList ρ lists v).1.ID = u.String) := by
  refine ⟨by simp [AddList, h], ?_, by simp [AddTask, h], ?_, by simp [SetCompleted, h], ?_,
    by simp [GetList, h], ?_⟩
  rotate_right
  · intro hv
    have hc := uuid.Parse_String u
    refine ⟨?_, ?_, ?_, ?_, ?_, ?_, ?_⟩
    · simp only [AddList, hv, hc]
    · simp only [AddTask, hv, hc]
    · simp only [SetCompleted, hv, hc]
    · simp only [SetCompleted, hv, hc]
    · simp only [GetList, hv, hc]
    · cases hg : lists.get? u with
      | none => simp only [GetList, hv, hg]; decide
      | some l => simp only [GetList, hv, hg]; decide
    · cases hg : lists.get? u with
      | none => simp only [GetList, hv, hg]
      | some l => simp only [GetList, hv, hg]
  · intro hid hpre hpw
    obtain ⟨u, hu⟩ := Option.ne_none_iff_exists'.mp hid
    have hall : ∀ p ∈ pre, ∃ u1, uuid.Parse p.ID = some u1 ∧
        (GoMap.empty : taskmap).get? u1 = none := by
      intro p hp
      obtain ⟨u1, hu1⟩ := Option.ne_none_iff_exists'.mp (hpre p hp)
      exact ⟨u1, hu1, rfl⟩
    obtain ⟨m1, hm1, _⟩ := addTasks_created pre GoMap.empty hall hpw
    have hloop : addTasks GoMap.empty (pre ++ ⟨s, t.Name, t.Completed⟩ :: post)
        = (m1, http.StatusBadRequest) := by
      rw [addTasks_append, hm1]
      simp only [if_true]
      exact addTasks_cons_failed m1 _ post m1 _ (addTaskHelper_malformed m1 _ h) (by decide)
    rw [AddList_parsed lists _ u hu]
    simp only [hloop]
    rfl
  · cases hu : uuid.Parse id with
    | none => simp [AddTask, hu]
    | some u =>
      cases hl : lists.get? u with
      | none => simp [AddTask, hu, hl]
      | some l =>
        rw [AddTask_found lists id _ u l hu hl, addTaskHelper_malformed l.tasks _ h]
  · cases hu : uuid.Parse id with
    | none => simp [SetCompleted, hu]
    | some u => simp [SetCompleted, hu, h]

theorem malformed_id_bad_request_witness :
    (AddList sample.homeStore ⟨sample.notAnId, str "Work", str "", [sample.mow]⟩).2
      = http.StatusBadRequest ∧
    (AddList sample.homeStore ⟨sample.otherId, str "Work", str "",
        [sample.mow] ++ ⟨sample.notAnId, sample.mow.Name, sample.mow.Completed⟩ :: []⟩).2
      = http.StatusBadRequest ∧
    (AddTask sample.homeStore sample.notAnId sample.mow).2 = http.StatusBadRequest ∧
    (AddTask sample.homeStore sample.otherId
        ⟨sample.notAnId, sample.mow.Name, sample.mow.Completed⟩).2 = http.StatusBadRequest ∧
    (SetCompleted sample.homeStore sample.notAnId sample.otherId ⟨true⟩).2
      = http.StatusBadRequest ∧
    (SetCompleted sample.homeStore sample.otherId sample.notAnId ⟨true⟩).2
      = http.StatusBadRequest ∧
    (GetList MapIter.ascending sample.homeStore sample.notAnId).2 = http.StatusBadRequest ∧
    (AddList sample.homeStore ⟨sample.upperId, str "Work", str "", [sample.mow]⟩
        = AddList sample.homeStore ⟨sample.homeId.String, str "Work", str "", [sample.mow]⟩ ∧
      AddTask sample.homeStore sample.upperId sample.mow
        = AddTask sample.homeStore sample.homeId.String sample.mow ∧
      SetCompleted sample.homeStore sample.upperId sample.otherId ⟨true⟩
        = SetCompleted sample.homeStore sample.homeId.String sample.otherId ⟨true⟩ ∧
      SetCompleted sample.homeStore sample.otherId sample.upperId ⟨true⟩
        = SetCompleted sample.homeStore sample.otherId sample.homeId.String ⟨true⟩ ∧
      GetList MapIter.ascending sample.homeStore sample.upperId
        = GetList MapIter.ascending sample.homeStore sample.homeId.String ∧
      (GetList MapIter.ascending sample.homeStore sample.upperId).2 ≠ http.StatusBadRequest ∧
      (GetList MapIter.ascending sample.homeStore sample.upperId).1.ID
        = sample.homeId.String) :=
  have w := malformed_id_bad_request MapIter.ascending sample.homeStore sample.notAnId
    sample.otherId (str "Work") (str "") sample.upperId sample.homeId [sample.mow] [sample.mow] []
    sample.mow ⟨true⟩ (by decide)
  ⟨w.1, w.2.1 (by decide) (by decide) (by decide), w.2.2.1, w.2.2.2.1, w.2.2.2.2.1,
    w.2.2.2.2.2.1, w.2.2.2.2.2.2.1, w.2.2.2.2.2.2.2 (by decide)⟩

/-- C5. Ordering of `GetList`: for a list of the store, the tasks returned are
a rearrangement of the stored tasks, strictly ascending by name (byte-wise)
and then by identifier (byte-wise on the 16 bytes); they are the only such
rearrangement, and so they are the same for every iteration order and every
call. -/
theorem getList_tasks_ordered (ρ ρ1 : MapIter) (lists : listmap) (id : GoString) (u : uuid.UUID)
    (l : list) (r : List Task) (hu : uuid.Parse id = some u) (hl : lists.get? u = some l) :
    (GetList ρ lists id).2 = http.StatusOK ∧
    (GetList ρ lists id).1.Tasks.Perm (l.tasks.entries.map render) ∧
    (GetList ρ lists id).1.Tasks.Pairwise (fun a b =>
      bytesLess a.Name b.Name = true ∨
        (a.Name = b.Name ∧ ∃ x y : uuid.UUID, a.ID = x.String ∧ b.ID = y.String ∧
          bytesLess x.bytes y.bytes = true)) ∧
    (r.Perm (l.tasks.entries.map render) →
      r.Pairwise (fun a b => bytesLess a.Name b.Name = true ∨
        (a.Name = b.Name ∧ bytesLess a.ID b.ID = true)) →
      r = (GetList ρ lists id).1.Tasks) ∧
    GetList ρ1 lists id = GetList ρ lists id := by
  have huniq : ∀ (ρ0 : MapIter) (r : List Task), r.Perm (l.tasks.entries.map render) →
      r.Pairwise (fun a b => lessTask a b = true) →
      r = sort.Slice lessTask ((l.tasks.range ρ0).map render) := by
    intro ρ0 r hp hs
    exact sort.sorted_perm_unique lessTask lessTask_irrefl lessTask_trans _ _
      (hp.trans (sorted_tasks ρ0 l.tasks).1.symm) hs (sorted_tasks ρ0 l.tasks).2
  rw [GetList_found ρ lists id u l hu hl]
  refine ⟨rfl, (sorted_tasks ρ l.tasks).1, ?_, ?_, ?_⟩
  · have hmem : ∀ a ∈ sort.Slice lessTask ((l.tasks.range ρ).map render),
        ∃ x : uuid.UUID, a.ID = x.String := by
      intro a ha
      have := (sorted_tasks ρ l.tasks).1.mem_iff.mp ha
      obtain ⟨kv, _, hkv⟩ := List.mem_map.mp this
      exact ⟨kv.1, by rw [← hkv]; rfl⟩
    refine (sorted_tasks ρ l.tasks).2.imp_of_mem ?_
    intro a b ha hb hab
    rcases (lessTask_iff a b).mp hab with h | ⟨hn, hi⟩
    · exact Or.inl h
    · obtain ⟨x, hx⟩ := hmem a ha
      obtain ⟨y, hy⟩ := hmem b hb
      refine Or.inr ⟨hn, x, y, hx, hy, ?_⟩
      rw [hx, hy, uuid.bytesLess_String] at hi
      exact hi
  · intro hp hs
    exact huniq ρ r hp (hs.imp (fun h => (lessTask_iff _ _).mpr h))
  · rw [GetList_found ρ1 lists id u l hu hl]
    have := huniq ρ _ (sorted_tasks ρ1 l.tasks).1 (sorted_tasks ρ1 l.tasks).2
    rw [this]

theorem getList_tasks_ordered_witness :
    (GetList MapIter.descending sample.homeStore sample.home.ID).2 = http.StatusOK ∧
    (GetList MapIter.descending sample.homeStore sample.home.ID).1.Tasks.Perm
      (sample.homeStored.tasks.entries.map render) ∧
    (GetList MapIter.descending sample.homeStore sample.home.ID).1.Tasks.Pairwise (fun a b =>
      bytesLess a.Name b.Name = true ∨
        (a.Name = b.Name ∧ ∃ x y : uuid.UUID, a.ID = x.String ∧ b.ID = y.String ∧
          bytesLess x.bytes y.bytes = true)) ∧
    [sample.mow, sample.wash] = (GetList MapIter.descending sample.homeStore sample.home.ID).1.Tasks ∧
    GetList MapIter.ascending sample.homeStore sample.home.ID
      = GetList MapIter.descending sample.homeStore sample.home.ID :=
  have w := getList_tasks_ordered MapIter.descending MapIter.ascending sample.homeStore
    sample.home.ID sample.homeId sample.homeStored [sample.mow, sample.wash] (by decide)
    (by decide)
  ⟨w.1, w.2.1, w.2.2.1, w.2.2.2.1 (by decide) (by decide), w.2.2.2.2⟩

end model

namespace regexp

theorem special_iff (c : Byte) : special c = true ↔
    c = 92 ∨ c = 46 ∨ c = 43 ∨ c = 42 ∨ c = 63 ∨ c = 40 ∨ c = 41 ∨ c = 124 ∨ c = 91 ∨ c = 93 ∨
      c = 123 ∨ c = 125 ∨ c = 94 ∨ c = 36 := by
  have h : str "\\.+*?()|[]\x7b\x7d^$"
      = [92, 46, 43, 42, 63, 40, 41, 124, 91, 93, 123, 125, 94, 36] := by decide
  unfold special
  rw [h]
  simp

theorem special_ascii (c : Byte) (h : special c = true) :
    c.val < 0x80 ∧ isalnum c.val = false := by
  rw [special_iff] at h
  rcases h with h | h | h | h | h | h | h | h | h | h | h | h | h | h <;> subst h <;> decide

theorem not_special_ne (c : Byte) (h : special c = false) :
    c ≠ 40 ∧ c ≠ 92 ∧ ¬ c ∈ str "|)^$.[*+?\x7b" := by
  have hs : str "|)^$.[*+?\x7b" = [124, 41, 94, 36, 46, 91, 42, 43, 63, 123] := by decide
  have hn : ¬ special c = true := by rw [h]; simp
  rw [special_iff] at hn
  rw [hs]
  simp only [List.mem_cons, List.mem_singleton, List.not_mem_nil, or_false]
  refine ⟨?_, ?_, ?_⟩
  · intro hc; exact hn (by simp [hc])
  · intro hc; exact hn (by simp [hc])
  · intro hc
    apply hn
    rcases hc with hc | hc | hc | hc | hc | hc | hc | hc | hc | hc <;> simp [hc]

theorem QuoteMeta_cons (c : Byte) (t : GoString) :
    QuoteMeta (c :: t) = if special c then 92 :: c :: QuoteMeta t else c :: QuoteMeta t := by
  unfold QuoteMeta
  by_cases h : special c = true <;> simp [h]

theorem QuoteMeta_nil : QuoteMeta [] = [] := rfl

end regexp

namespace utf8

theorem first_spec (b : Byte) (sz lo hi : Nat) (h : first b = some (sz, lo, hi)) :
    0x80 ≤ lo ∧ (sz = 2 ∨ sz = 3 ∨ sz = 4) := by
  unfold first at h
  split_ifs at h <;> simp only [Option.some.injEq, Prod.mk.injEq] at h <;>
    obtain ⟨h1, h2, _⟩ := h <;> subst h1 <;> subst h2 <;> simp

theorem decode_ascii (b : Byte) (t : GoString) (h : b.val < 0x80) :
    DecodeRuneInString (b :: t) = (b.val, 1) := by
  simp [DecodeRuneInString, h]

/-- Decoding the first rune commutes with `QuoteMeta` on the bytes after the
first: what `QuoteMeta` puts for a metacharacter begins with a byte below 0x80,
as the metacharacter does. -/
theorem decode_quoted (b : Byte) (t : GoString) :
    DecodeRuneInString (b :: regexp.QuoteMeta t) = DecodeRuneInString (b :: t) ∧
    (DecodeRuneInString (b :: t) ≠ (RuneError, 1) →
      (b :: regexp.QuoteMeta t).drop (DecodeRuneInString (b :: t)).2
        = regexp.QuoteMeta ((b :: t).drop (DecodeRuneInString (b :: t)).2)) := by
  by_cases hlt : b.val < 0x80
  · rw [decode_ascii b _ hlt, decode_ascii b _ hlt]
    simp
  · cases hf : first b with
    | none => simp [DecodeRuneInString, hlt, hf]
    | some x =>
      obtain ⟨sz, lo, hi⟩ := x
      obtain ⟨hlo, hsz⟩ := first_spec b sz lo hi hf
      cases t with
      | nil => simp [DecodeRuneInString, hlt, hf, regexp.QuoteMeta_nil]
      | cons c1 t1 =>
        by_cases h1 : regexp.special c1 = true
        · have hc1 := (regexp.special_ascii c1 h1).1
          have h92 : (92 : Byte).val < lo := by
            show 92 < lo
            omega
          have hc1lo : c1.val < lo := by omega
          simp [DecodeRuneInString, hlt, hf, regexp.QuoteMeta_cons, h1, h92, hc1lo]
        · rw [regexp.QuoteMeta_cons, if_neg h1]
          by_cases hr1 : c1.val < lo ∨ hi < c1.val
          · simp [DecodeRuneInString, hlt, hf, hr1]
          · by_cases hs2 : sz ≤ 2
            · simp [DecodeRuneInString, hlt, hf, hr1, hs2]
            · cases t1 with
              | nil => simp [DecodeRuneInString, hlt, hf, hr1, hs2, regexp.QuoteMeta_nil]
              | cons c2 t2 =>
                by_cases h2 : regexp.special c2 = true
                · have hc2 := (regexp.special_ascii c2 h2).1
                  have hn2 : isCont c2 = false := by
                    simp [isCont]; omega
                  have hn92 : isCont 92 = false := by decide
                  simp [DecodeRuneInString, hlt, hf, hr1, hs2, regexp.QuoteMeta_cons, h2, hn2,
                    hn92]
                · rw [regexp.QuoteMeta_cons, if_neg h2]
                  by_cases hr2 : isCont c2 = true
                  · by_cases hs3 : sz ≤ 3
                    · simp [DecodeRuneInString, hlt, hf, hr1, hs2, hr2, hs3]
                    · cases t2 with
                      | nil =>
                        simp [DecodeRuneInString, hlt, hf, hr1, hs2, hr2, hs3,
                          regexp.QuoteMeta_nil]
                      | cons c3 t3 =>
                        by_cases h3 : regexp.special c3 = true
                        · have hc3 := (regexp.special_ascii c3 h3).1
                          have hn3 : isCont c3 = false := by
                            simp [isCont]; omega
                          have hn92 : isCont 92 = false := by decide
                          simp [DecodeRuneInString, hlt, hf, hr1, hs2, hr2, hs3,
                            regexp.QuoteMeta_cons, h3, hn3, hn92]
                        · rw [regexp.QuoteMeta_cons, if_neg h3]
                          by_cases hr3 : isCont c3 = true
                          · simp [DecodeRuneInString, hlt, hf, hr1, hs2, hr2, hs3, hr3]
                          · simp [DecodeRuneInString, hlt, hf, hr1, hs2, hr2, hs3, hr3]
                  · simp [DecodeRuneInString, hlt, hf, hr1, hs2, hr2]

theorem decode_width_pos (b : Byte) (t : GoString) : 1 ≤ (DecodeRuneInString (b :: t)).2 := by
  by_cases hlt : b.val < 0x80
  · rw [decode_ascii b t hlt]
  · simp only [DecodeRuneInString, hlt, if_false]
    repeat' split
    all_goals simp

end utf8

namespace regexp

theorem parseLoop_nil (n : Nat) (fold : Bool) (acc : List (Nat × Bool)) :
    parseLoop n fold [] acc = .ok ⟨acc.reverse⟩ := by
  cases n <;> rfl

theorem parseLoop_escaped (n : Nat) (fold : Bool) (b : Byte) (t : GoString)
    (acc : List (Nat × Bool)) (hb : special b = true) :
    parseLoop (n + 1) fold (92 :: b :: t) acc =
      if maxRunes < acc.length + 1 then .error .Large
      else parseLoop n fold t ((b.val, fold) :: acc) := by
  obtain ⟨hlt, hal⟩ := special_ascii b hb
  have hd : utf8.DecodeRuneInString (b :: t) ≠ (utf8.RuneError, 1) := by
    rw [utf8.decode_ascii b t hlt]
    intro h
    have := congrArg Prod.fst h
    simp [utf8.RuneError] at this
    omega
  simp [parseLoop, hd, hlt, hal]

theorem parseLoop_plain (n : Nat) (fold : Bool) (b : Byte) (t : GoString)
    (acc : List (Nat × Bool)) (hb : special b = false) :
    parseLoop (n + 1) fold (b :: t) acc =
      if utf8.DecodeRuneInString (b :: t) = (utf8.RuneError, 1) then .error .InvalidUTF8
      else if maxRunes < acc.length + 1 then .error .Large
      else parseLoop n fold ((b :: t).drop (utf8.DecodeRuneInString (b :: t)).2)
        (((utf8.DecodeRuneInString (b :: t)).1, fold) :: acc) := by
  obtain ⟨h40, h92, hop⟩ := not_special_ne b hb
  simp only [parseLoop, h40, h92, hop, if_false]

/-- One step of the parser on a quoted text: the first rune of the text is
read, or the parser fails. -/
theorem parseLoop_quoted_step (b : Byte) (t : GoString) (n : Nat) (acc : List (Nat × Bool))
    (hn : (QuoteMeta (b :: t)).length ≤ n) :
    ∃ n1, (QuoteMeta ((b :: t).drop (utf8.DecodeRuneInString (b :: t)).2)).length ≤ n1 ∧
      parseLoop n true (QuoteMeta (b :: t)) acc =
        if utf8.DecodeRuneInString (b :: t) = (utf8.RuneError, 1) then .error .InvalidUTF8
        else if maxRunes < acc.length + 1 then .error .Large
        else parseLoop n1 true (QuoteMeta ((b :: t).drop (utf8.DecodeRuneInString (b :: t)).2))
          (((utf8.DecodeRuneInString (b :: t)).1, true) :: acc) := by
  by_cases hb : special b = true
  · rw [QuoteMeta_cons, if_pos hb] at hn ⊢
    obtain ⟨n1, rfl⟩ : ∃ n1, n = n1 + 1 := ⟨n - 1, by simp at hn; omega⟩
    have hlt := (special_ascii b hb).1
    have hd := utf8.decode_ascii b t hlt
    have hne : ¬ ((b.val, 1) : Nat × Nat) = (utf8.RuneError, 1) := by
      intro h
      have := congrArg Prod.fst h
      simp [utf8.RuneError] at this
      omega
    refine ⟨n1, ?_, ?_⟩
    · rw [hd]
      simp only [List.drop_succ_cons, List.drop_zero]
      simp at hn
      omega
    · rw [parseLoop_escaped n1 true b _ acc hb, hd, if_neg hne]
      simp only [List.drop_succ_cons, List.drop_zero]
  · have hb1 : special b = false := by simpa using hb
    rw [QuoteMeta_cons, if_neg hb] at hn ⊢
    obtain ⟨n1, rfl⟩ : ∃ n1, n = n1 + 1 := ⟨n - 1, by simp at hn; omega⟩
    obtain ⟨hd1, hd2⟩ := utf8.decode_quoted b t
    by_cases herr : utf8.DecodeRuneInString (b :: t) = (utf8.RuneError, 1)
    · refine ⟨(QuoteMeta ((b :: t).drop (utf8.DecodeRuneInString (b :: t)).2)).length,
        le_refl _, ?_⟩
      rw [parseLoop_plain n1 true b _ acc hb1, hd1, if_pos herr, if_pos herr]
    · have hw := utf8.decode_width_pos b t
      refine ⟨n1, ?_, ?_⟩
      · rw [← hd2 herr]
        simp only [List.length_drop, List.length_cons] at hn ⊢
        omega
      · rw [parseLoop_plain n1 true b _ acc hb1, hd1, if_neg herr, if_neg herr, hd2 herr]

theorem parseLoop_quoted_ok : ∀ (k : Nat) (s : GoString) (n : Nat) (acc : List (Nat × Bool)),
    s.length ≤ k → (QuoteMeta s).length ≤ n → utf8.validAux k s = true →
    acc.length + (utf8.decodeAll k s).length ≤ maxRunes →
    parseLoop n true (QuoteMeta s) acc =
      .ok ⟨acc.reverse ++ (utf8.decodeAll k s).map (fun r => (r, true))⟩
  | 0, s, n, acc, hk, _, _, _ => by
    have hs : s = [] := List.length_eq_zero.mp (Nat.le_zero.mp hk)
    subst hs
    simp [QuoteMeta_nil, parseLoop_nil, utf8.decodeAll]
  | k + 1, [], n, acc, _, _, _, _ => by
    simp [QuoteMeta_nil, parseLoop_nil, utf8.decodeAll]
  | k + 1, b :: t, n, acc, hk, hn, hv, hsz => by
    have hk1 : t.length ≤ k := by simpa using hk
    obtain ⟨n1, hn1, hstep⟩ := parseLoop_quoted_step b t n acc hn
    have hw := utf8.decode_width_pos b t
    have hlen : ((b :: t).drop (utf8.DecodeRuneInString (b :: t)).2).length ≤ k := by
      simp only [List.length_drop, List.length_cons]
      omega
    simp only [utf8.validAux] at hv
    by_cases herr : utf8.DecodeRuneInString (b :: t) = (utf8.RuneError, 1)
    · simp [herr] at hv
    · simp only [herr, if_false] at hv
      simp only [utf8.decodeAll, List.length_cons] at hsz
      rw [hstep, if_neg herr, if_neg (by omega)]
      rw [parseLoop_quoted_ok k _ n1 _ hlen hn1 hv (by simp only [List.length_cons]; omega)]
      simp [utf8.decodeAll]

theorem parseLoop_quoted_large : ∀ (k : Nat) (s : GoString) (n : Nat) (acc : List (Nat × Bool)),
    s.length ≤ k → (QuoteMeta s).length ≤ n → utf8.validAux k s = true →
    maxRunes < acc.length + (utf8.decodeAll k s).length → acc.length ≤ maxRunes →
    parseLoop n true (QuoteMeta s) acc = .error .Large
  | 0, s, n, acc, hk, _, _, hsz, hacc => by
    have hs : s = [] := List.length_eq_zero.mp (Nat.le_zero.mp hk)
    subst hs
    simp [utf8.decodeAll] at hsz
    omega
  | k + 1, [], n, acc, _, _, _, hsz, hacc => by
    simp [utf8.decodeAll] at hsz
    omega
  | k + 1, b :: t, n, acc, hk, hn, hv, hsz, hacc => by
    have hk1 : t.length ≤ k := by simpa using hk
    obtain ⟨n1, hn1, hstep⟩ := parseLoop_quoted_step b t n acc hn
    have hw := utf8.decode_width_pos b t
    have hlen : ((b :: t).drop (utf8.DecodeRuneInString (b :: t)).2).length ≤ k := by
      simp only [List.length_drop, List.length_cons]
      omega
    simp only [utf8.validAux] at hv
    by_cases herr : utf8.DecodeRuneInString (b :: t) = (utf8.RuneError, 1)
    · simp [herr] at hv
    · simp only [herr, if_false] at hv
      simp only [utf8.decodeAll, List.length_cons] at hsz
      rw [hstep, if_neg herr]
      by_cases hbig : maxRunes < acc.length + 1
      · rw [if_pos hbig]
      · rw [if_neg hbig]
        exact parseLoop_quoted_large k _ n1 _ hlen hn1 hv
          (by simp only [List.length_cons]; omega) (by simp only [List.length_cons]; omega)

theorem parseLoop_quoted_invalid : ∀ (k : Nat) (s : GoString) (n : Nat) (acc : List (Nat × Bool)),
    s.length ≤ k → (QuoteMeta s).length ≤ n → utf8.validAux k s = false →
    ∃ e, parseLoop n true (QuoteMeta s) acc = .error e
  | 0, s, n, acc, hk, _, hv => by
    have hs : s = [] := List.length_eq_zero.mp (Nat.le_zero.mp hk)
    subst hs
    simp [utf8.validAux] at hv
  | k + 1, [], n, acc, _, _, hv => by
    simp [utf8.validAux] at hv
  | k + 1, b :: t, n, acc, hk, hn, hv => by
    have hk1 : t.length ≤ k := by simpa using hk
    obtain ⟨n1, hn1, hstep⟩ := parseLoop_quoted_step b t n acc hn
    have hw := utf8.decode_width_pos b t
    have hlen : ((b :: t).drop (utf8.DecodeRuneInString (b :: t)).2).length ≤ k := by
      simp only [List.length_drop, List.length_cons]
      omega
    simp only [utf8.validAux] at hv
    rw [hstep]
    by_cases herr : utf8.DecodeRuneInString (b :: t) = (utf8.RuneError, 1)
    · rw [if_pos herr]
      exact ⟨_, rfl⟩
    · simp only [herr, if_false] at hv
      rw [if_neg herr]
      by_cases hbig : maxRunes < acc.length + 1
      · rw [if_pos hbig]
        exact ⟨_, rfl⟩
      · rw [if_neg hbig]
        exact parseLoop_quoted_invalid k _ n1 _ hlen hn1 hv

theorem numRunesAtEnd_fold (l : List Nat) :
    numRunesAtEnd (l.map (fun r => (r, true))) = 3 * l.length := by
  unfold numRunesAtEnd
  have h : (l.map (fun r => ((r, true) : Nat × Bool))).all (fun x => x.2) = true := by
    simp
  rw [h]
  simp

theorem Compile_flag_ok (s : GoString) (re : Regexp)
    (h : parseLoop ((QuoteMeta s).length + 3) true (QuoteMeta s) [] = .ok re) :
    Compile (str "(?i)" ++ QuoteMeta s) =
      if maxRunes < numRunesAtEnd re.literals then .error .Large else .ok re := by
  have hs : str "(?i)" = [40, 63, 105, 41] := by decide
  rw [hs]
  unfold Compile
  simp only [List.cons_append, List.nil_append, List.length_cons]
  have hp : parseLoop ((QuoteMeta s).length + 1 + 1 + 1 + 1) false
      (40 :: 63 :: 105 :: 41 :: QuoteMeta s) []
      = parseLoop ((QuoteMeta s).length + 3) true (QuoteMeta s) [] := by
    simp [parseLoop]
  rw [hp, h]

theorem Compile_flag_error (s : GoString) (e : Error)
    (h : parseLoop ((QuoteMeta s).length + 3) true (QuoteMeta s) [] = .error e) :
    Compile (str "(?i)" ++ QuoteMeta s) = .error e := by
  have hs : str "(?i)" = [40, 63, 105, 41] := by decide
  rw [hs]
  unfold Compile
  simp only [List.cons_append, List.nil_append, List.length_cons]
  have hp : parseLoop ((QuoteMeta s).length + 1 + 1 + 1 + 1) false
      (40 :: 63 :: 105 :: 41 :: QuoteMeta s) []
      = parseLoop ((QuoteMeta s).length + 3) true (QuoteMeta s) [] := by
    simp [parseLoop]
  rw [hp, h]

/-- The matcher `GetLists` compiles from a search text that is well-formed
UTF-8 and of which three times the number of runes is within `maxRunes`: the
literal text of the search string, rune by rune, each rune with case
folding. -/
theorem Compile_quoted (s : GoString) (hv : utf8.ValidString s = true)
    (hsz : 3 * (utf8.runes s).length ≤ maxRunes) :
    Compile (str "(?i)" ++ QuoteMeta s) = .ok ⟨(utf8.runes s).map (fun r => (r, true))⟩ := by
  have := parseLoop_quoted_ok s.length s ((QuoteMeta s).length + 3) [] (le_refl _) (by omega) hv
    (by unfold utf8.runes at hsz; simp only [List.length_nil]; omega)
  simp only [List.reverse_nil, List.nil_append] at this
  rw [Compile_flag_ok s _ this]
  simp only
  unfold utf8.runes at hsz ⊢
  rw [numRunesAtEnd_fold, if_neg (by omega)]

/-- A search text that is well-formed UTF-8 but of which three times the
number of runes exceeds `maxRunes` does not compile: the expression is too
large. -/
theorem Compile_quoted_large (s : GoString) (hv : utf8.ValidString s = true)
    (hsz : maxRunes < 3 * (utf8.runes s).length) :
    Compile (str "(?i)" ++ QuoteMeta s) = .error .Large := by
  by_cases hmid : (utf8.runes s).length ≤ maxRunes
  · have := parseLoop_quoted_ok s.length s ((QuoteMeta s).length + 3) [] (le_refl _) (by omega)
      hv (by unfold utf8.runes at hmid; simp only [List.length_nil]; omega)
    simp only [List.reverse_nil, List.nil_append] at this
    rw [Compile_flag_ok s _ this]
    simp only
    unfold utf8.runes at hsz
    rw [numRunesAtEnd_fold, if_pos hsz]
  · have := parseLoop_quoted_large s.length s ((QuoteMeta s).length + 3) [] (le_refl _)
      (by omega) hv (by unfold utf8.runes at hmid; simp only [List.length_nil]; omega) (by simp)
    exact Compile_flag_error s _ this

/-- A search text that is not well-formed UTF-8 does not compile. -/
theorem Compile_quoted_invalid (s : GoString) (hv : utf8.ValidString s = false) :
    ∃ e, Compile (str "(?i)" ++ QuoteMeta s) = .error e := by
  obtain ⟨e, he⟩ := parseLoop_quoted_invalid s.length s ((QuoteMeta s).length + 3) []
    (le_refl _) (by omega) hv
  exact ⟨e, Compile_flag_error s e he⟩

/-- A search text compiles only when it is well-formed UTF-8 and three times
the number of its runes is within `maxRunes`. -/
theorem Compile_quoted_error (s : GoString)
    (h : ¬ (utf8.ValidString s = true ∧ 3 * (utf8.runes s).length ≤ maxRunes)) :
    ∃ e, Compile (str "(?i)" ++ QuoteMeta s) = .error e := by
  cases hv : utf8.ValidString s with
  | false => exact Compile_quoted_invalid s hv
  | true =>
    refine ⟨_, Compile_quoted_large s hv ?_⟩
    have : ¬ 3 * (utf8.runes s).length ≤ maxRunes := fun h2 => h ⟨hv, h2⟩
    omega

end regexp

/-! ## Lemmas on the characters of a text -/

namespace spec

theorem decodeAll_eq_map_read : ∀ (n : Nat) (s : GoString),
    utf8.decodeAll n s = (charsAux n s).map Chr.read
  | 0, _ => rfl
  | _ + 1, [] => rfl
  | n + 1, b :: t => by
    simp only [utf8.decodeAll, charsAux]
    by_cases herr : utf8.DecodeRuneInString (b :: t) = (utf8.RuneError, 1)
    · rw [if_pos herr, herr]
      simp only [List.drop_succ_cons, List.drop_zero, List.map_cons, Chr.read]
      rw [decodeAll_eq_map_read n t]
    · rw [if_neg herr]
      simp only [List.map_cons, Chr.read]
      rw [decodeAll_eq_map_read n _]

/-- The runes a reader meets in a text are its characters, with `RuneError`
for every byte that is part of no well-formed encoding. -/
theorem runes_eq_map_read (s : GoString) : utf8.runes s = (chars s).map Chr.read :=
  decodeAll_eq_map_read s.length s

theorem charsAux_of_valid : ∀ (n : Nat) (s : GoString), utf8.validAux n s = true →
    charsAux n s = (utf8.decodeAll n s).map Chr.rune
  | 0, _, _ => rfl
  | _ + 1, [], _ => rfl
  | n + 1, b :: t, h => by
    simp only [utf8.validAux] at h
    simp only [utf8.decodeAll, charsAux]
    by_cases herr : utf8.DecodeRuneInString (b :: t) = (utf8.RuneError, 1)
    · simp [herr] at h
    · simp only [herr, if_false] at h
      rw [if_neg herr]
      simp only [List.map_cons]
      rw [charsAux_of_valid n _ h]

/-- The characters of a text that is well-formed UTF-8 are its runes. -/
theorem chars_of_valid (s : GoString) (h : utf8.ValidString s = true) :
    chars s = (utf8.runes s).map Chr.rune :=
  charsAux_of_valid s.length s h

theorem forall₂_read (tbl : unicode.FoldTable) (pat : List Nat) (mid : List Chr)
    (h : List.Forall₂ (chrFoldEq tbl) (pat.map Chr.rune) mid) :
    List.Forall₂ (foldEq tbl) pat (mid.map Chr.read) := by
  rw [List.forall₂_map_left_iff] at h
  rw [List.forall₂_map_right_iff]
  refine h.imp ?_
  intro p c hpc
  cases c with
  | rune r => exact hpc
  | byte b => exact absurd hpc (fun h => h)

theorem forall₂_unread (tbl : unicode.FoldTable) : ∀ (pat : List Nat) (mid : List Chr),
    List.Forall₂ (foldEq tbl) pat (mid.map Chr.read) →
    ((∀ c ∈ mid, ∃ r, c = Chr.rune r) ∨ (∀ p ∈ pat, ¬ foldEq tbl p utf8.RuneError)) →
    List.Forall₂ (chrFoldEq tbl) (pat.map Chr.rune) mid
  | [], [], _, _ => List.Forall₂.nil
  | [], _ :: _, h, _ => by cases h
  | _ :: _, [], h, _ => by cases h
  | p :: pat, c :: mid, h, hc => by
    simp only [List.map_cons] at h ⊢
    cases h with
    | cons h1 h2 =>
      refine List.Forall₂.cons ?_ (forall₂_unread tbl pat mid h2 ?_)
      · cases c with
        | rune r => exact h1
        | byte b =>
          rcases hc with hc | hc
          · obtain ⟨r, hr⟩ := hc (Chr.byte b) (List.mem_cons_self _ _)
            cases hr
          · exact absurd h1 (hc p (List.mem_cons_self _ _))
      · rcases hc with hc | hc
        · exact Or.inl (fun c1 hc1 => hc c1 (List.mem_cons_of_mem _ hc1))
        · exact Or.inr (fun p1 hp1 => hc p1 (List.mem_cons_of_mem _ hp1))

/-- For a search text that is well-formed UTF-8, the matcher accepts every
name that contains the search text. -/
theorem matchesFold_of_containsFold (tbl : unicode.FoldTable) (name s : GoString)
    (hv : utf8.ValidString s = true) (h : containsFold tbl name s) :
    regexp.matchesFold tbl name s := by
  obtain ⟨pre, mid, post, h1, h2⟩ := h
  rw [chars_of_valid s hv] at h2
  refine ⟨pre.map Chr.read, mid.map Chr.read, post.map Chr.read, ?_, forall₂_read tbl _ _ h2⟩
  rw [runes_eq_map_read, h1, List.map_append, List.map_append]

/-- For a search text that is well-formed UTF-8, a name the matcher accepts
contains the search text, if the name is well-formed UTF-8 or no rune of the
search text is U+FFFD up to case. -/
theorem containsFold_of_matchesFold (tbl : unicode.FoldTable) (name s : GoString)
    (hv : utf8.ValidString s = true)
    (hag : utf8.ValidString name = true ∨ ∀ r ∈ utf8.runes s, ¬ foldEq tbl r utf8.RuneError)
    (h : regexp.matchesFold tbl name s) : containsFold tbl name s := by
  obtain ⟨pre, mid, post, h1, h2⟩ := h
  rw [runes_eq_map_read] at h1
  obtain ⟨c12, cpost, e1, e2, e3⟩ := List.map_eq_append_iff.mp h1
  obtain ⟨cpre, cmid, e4, e5, e6⟩ := List.map_eq_append_iff.mp e2
  subst e4
  refine ⟨cpre, cmid, cpost, e1, ?_⟩
  rw [chars_of_valid s hv]
  rw [← e6] at h2
  refine forall₂_unread tbl _ _ h2 ?_
  rcases hag with hn | hs
  · left
    intro c hc
    have hmem : c ∈ chars name := by
      rw [e1]
      simp only [List.mem_append]
      exact Or.inl (Or.inr hc)
    rw [chars_of_valid name hn] at hmem
    obtain ⟨r, _, hr⟩ := List.mem_map.mp hmem
    exact ⟨r, hr.symm⟩
  · exact Or.inr hs

end spec

namespace utf8

theorem validAux_replicate (b : Byte) (hb : b.val < 0x80) : ∀ (k n : Nat), n ≤ k →
    validAux k (List.replicate n b) = true
  | 0, n, h => by
    have : n = 0 := by omega
    subst this
    rfl
  | k + 1, 0, _ => rfl
  | k + 1, n + 1, h => by
    have hne : ¬ ((b.val, 1) : Nat × Nat) = (utf8.RuneError, 1) := by
      intro h
      have := congrArg Prod.fst h
      simp [utf8.RuneError] at this
      omega
    simp only [List.replicate_succ, utf8.validAux, utf8.decode_ascii b _ hb, hne, if_false,
      List.drop_succ_cons, List.drop_zero]
    exact validAux_replicate b hb k n (by omega)

theorem decodeAll_replicate (b : Byte) (hb : b.val < 0x80) : ∀ (k n : Nat), n ≤ k →
    (decodeAll k (List.replicate n b)).length = n
  | 0, n, h => by
    have : n = 0 := by omega
    subst this
    rfl
  | k + 1, 0, _ => rfl
  | k + 1, n + 1, h => by
    simp only [List.replicate_succ, utf8.decodeAll, utf8.decode_ascii b _ hb,
      List.drop_succ_cons, List.drop_zero, List.length_cons]
    rw [decodeAll_replicate b hb k n (by omega)]

/-- A text of `n` equal ASCII bytes is well-formed UTF-8. -/
theorem ValidString_replicate (b : Byte) (hb : b.val < 0x80) (n : Nat) :
    ValidString (List.replicate n b) = true := by
  unfold ValidString
  rw [List.length_replicate]
  exact validAux_replicate b hb n n (le_refl _)

/-- A text of `n` equal ASCII bytes has `n` runes. -/
theorem runes_replicate (b : Byte) (hb : b.val < 0x80) (n : Nat) :
    (runes (List.replicate n b)).length = n := by
  unfold runes
  rw [List.length_replicate]
  exact decodeAll_replicate b hb n n (le_refl _)

end utf8

namespace sample

theorem longText_valid : utf8.ValidString longText = true :=
  utf8.ValidString_replicate 97 (by decide) 11184811

theorem longText_runes : (utf8.runes longText).length = 11184811 :=
  utf8.runes_replicate 97 (by decide) 11184811

theorem longText_large : regexp.maxRunes < 3 * (utf8.runes longText).length := by
  rw [longText_runes]
  decide

end sample

/-! ## Lemmas on the search -/

namespace model

theorem lessResult_iff (a b : searchresult) :
    lessResult a b = true ↔
      bytesLess a.name b.name = true ∨ (a.name = b.name ∧ keyLess a.id b.id = true) := by
  unfold lessResult
  by_cases h1 : bytesLess a.name b.name = true
  · simp [h1]
  · by_cases h2 : a.name = b.name ∧ keyLess a.id b.id = true
    · simp [h2]
    · simp [h1, h2]

theorem lessResult_irrefl (a : searchresult) : lessResult a a = false := by
  cases h : lessResult a a with
  | false => rfl
  | true =>
    rw [lessResult_iff] at h
    rcases h with h | ⟨_, h⟩
    · rw [bytesLess_irrefl] at h; exact absurd h (by simp)
    · rw [keyLess_irrefl] at h; exact absurd h (by simp)

theorem lessResult_trans (a b c : searchresult) (h1 : lessResult a b = true)
    (h2 : lessResult b c = true) : lessResult a c = true := by
  rw [lessResult_iff] at h1 h2 ⊢
  rcases h1 with h1 | ⟨e1, h1⟩
  · rcases h2 with h2 | ⟨e2, _⟩
    · exact Or.inl (bytesLess_trans _ _ _ h1 h2)
    · exact Or.inl (e2 ▸ h1)
  · rcases h2 with h2 | ⟨e2, h2⟩
    · exact Or.inl (e1 ▸ h2)
    · exact Or.inr ⟨e1.trans e2, bytesLess_trans _ _ _ h1 h2⟩

theorem lessResult_decides (a b : searchresult) (h : a.id ≠ b.id) :
    lessResult a b = true ∨ lessResult b a = true := by
  rw [lessResult_iff, lessResult_iff]
  rcases bytesLess_total a.name b.name with hn | hn | hn
  · exact Or.inl (Or.inl hn)
  · rcases keyLess_total a.id b.id with hi | hi | hi
    · exact Or.inl (Or.inr ⟨hn, hi⟩)
    · exact absurd hi h
    · exact Or.inr (Or.inr ⟨hn.symm, hi⟩)
  · exact Or.inr (Or.inl hn)

theorem collect_eq_filterMap (tbl : unicode.FoldTable) (re : regexp.Regexp) :
    ∀ L : List (uuid.UUID × list), collect tbl re L =
      L.filterMap (fun e => if re.MatchString tbl e.2.name then some ⟨e.2.name, e.1⟩ else none)
  | [] => rfl
  | (listid, l) :: rest => by
    simp only [collect, List.filterMap_cons]
    by_cases h : re.MatchString tbl l.name = true
    · simp [h, collect_eq_filterMap tbl re rest]
    · simp [h, collect_eq_filterMap tbl re rest]

theorem collect_literal (tbl : unicode.FoldTable) (searchText : GoString) :
    ∀ L : List (uuid.UUID × list),
      collect tbl ⟨(utf8.runes searchText).map (fun r => (r, true))⟩ L =
        (L.filter (fun e => regexp.matchesFold tbl e.2.name searchText)).map
          (fun e => ⟨e.2.name, e.1⟩)
  | [] => rfl
  | (listid, l) :: rest => by
    simp only [collect, List.filter_cons]
    by_cases h : regexp.matchesFold tbl l.name searchText
    · have h1 := (regexp.MatchString_iff tbl l.name searchText).mpr h
      simp [h, h1, collect_literal tbl searchText rest]
    · have h1 : ¬ regexp.Regexp.MatchString tbl
          ⟨(utf8.runes searchText).map (fun r => (r, true))⟩ l.name = true :=
        fun hm => h ((regexp.MatchString_iff tbl l.name searchText).mp hm)
      simp [h, h1, collect_literal tbl searchText rest]

/-- What is collected from a store is decided by `lessResult`, in whatever
order the lists are visited. -/
theorem decides_collected (tbl : unicode.FoldTable) (searchText : GoString) (lists : listmap)
    (L : List (uuid.UUID × list)) (hp : L.Perm lists.entries) :
    sort.Decides lessResult
      ((L.filter (fun e => regexp.matchesFold tbl e.2.name searchText)).map
        (fun e => (⟨e.2.name, e.1⟩ : searchresult))) := by
  have hnd : (L.map Prod.fst).Nodup := (hp.map Prod.fst).nodup_iff.mpr lists.nodup_keys
  rw [List.Nodup, List.pairwise_map] at hnd
  unfold sort.Decides
  rw [List.pairwise_map]
  refine (hnd.sublist (List.filter_sublist _)).imp ?_
  intro a b hab
  exact lessResult_decides _ _ hab

/-- The sorted results of `GetLists` are `sortedResults`, whatever the order
of the loop over `lists`. -/
theorem sorted_collect (tbl : unicode.FoldTable) (ρ : MapIter) (lists : listmap)
    (searchText : GoString) :
    sort.Slice lessResult
        (collect tbl ⟨(utf8.runes searchText).map (fun r => (r, true))⟩ (lists.range ρ))
      = sortedResults tbl lists searchText := by
  rw [collect_literal]
  unfold sortedResults
  apply sort.sorted_perm_unique lessResult lessResult_irrefl lessResult_trans
  · refine (sort.perm_Slice _ _).trans (List.Perm.trans ?_ (sort.perm_Slice _ _).symm)
    exact ((ρ.perm lists.entries).filter _).map _
  · exact sort.sorted_Slice _ lessResult_trans _
      (decides_collected tbl searchText lists _ (ρ.perm lists.entries))
  · exact sort.sorted_Slice _ lessResult_trans _
      (decides_collected tbl searchText lists _ (List.Perm.refl _))

theorem sortedResults_perm (tbl : unicode.FoldTable) (lists : listmap) (searchText : GoString) :
    (sortedResults tbl lists searchText).Perm
      ((lists.entries.filter (fun e => regexp.matchesFold tbl e.2.name searchText)).map
        (fun e => ⟨e.2.name, e.1⟩)) :=
  sort.perm_Slice _ _

theorem sortedResults_sorted (tbl : unicode.FoldTable) (lists : listmap) (searchText : GoString) :
    (sortedResults tbl lists searchText).Pairwise (fun a b => lessResult a b = true) :=
  sort.sorted_Slice _ lessResult_trans _
    (decides_collected tbl searchText lists _ (List.Perm.refl _))

theorem sortedResults_length_le (tbl : unicode.FoldTable) (lists : listmap)
    (searchText : GoString) :
    (sortedResults tbl lists searchText).length ≤ lists.entries.length := by
  rw [(sortedResults_perm tbl lists searchText).length_eq, List.length_map]
  exact List.length_filter_le _ _

/-- Every match names a list of the store, by its id and its name. -/
theorem sortedResults_mem (tbl : unicode.FoldTable) (lists : listmap) (searchText : GoString)
    (r : searchresult) (hr : r ∈ sortedResults tbl lists searchText) :
    ∃ l, lists.get? r.id = some l ∧ l.name = r.name := by
  have := (sortedResults_perm tbl lists searchText).mem_iff.mp hr
  obtain ⟨e, he, rfl⟩ := List.mem_map.mp this
  have hmem : e ∈ lists.entries := (List.mem_filter.mp he).1
  exact ⟨e.2, (GoMap.get?_eq_some_iff lists e.1 e.2).mpr hmem, rfl⟩

end model

theorem wrapInt64_of_range (x : Int) (h1 : -2 ^ 63 ≤ x) (h2 : x < 2 ^ 63) : wrapInt64 x = x := by
  unfold wrapInt64
  rw [Int.emod_eq_of_lt (by omega) (by omega)]
  omega

namespace model

/-- The page bounds when nothing overflows: the page begins at `min skip n`
and ends `limit` later (at `n` for the limit 0), but not after `n`. -/
theorem pageBounds_of_range (n skip limit : Int) (hn : 0 ≤ n) (hn2 : n < 2 ^ 62)
    (hs : 0 ≤ skip) (hl : 0 ≤ limit) (hsum : skip + limit < 2 ^ 63) :
    pageBounds n skip limit =
      (min skip n, min (min skip n + (if limit = 0 then n else limit)) n) := by
  unfold pageBounds
  simp only
  have hw : wrapInt64 ((if limit = 0 then n else limit) + if skip > n then n else skip)
      = (if limit = 0 then n else limit) + if skip > n then n else skip := by
    apply wrapInt64_of_range
    · split <;> split <;> omega
    · split <;> split <;> omega
  rw [hw]
  have h1 : (if skip > n then n else skip) = min skip n := by
    split <;> omega
  rw [h1]
  congr 1
  split <;> split <;> omega

theorem GetLists_negative (tbl : unicode.FoldTable) (ρ : MapIter) (lists : listmap)
    (s : GoString) (skip limit : Int) (h : skip < 0 ∨ limit < 0) :
    GetLists tbl ρ lists s skip limit = some ([], http.StatusBadRequest) := by
  simp [GetLists, h]

/-- A search text that does not compile gives BadRequest and no snapshot. -/
theorem GetLists_uncompiled (tbl : unicode.FoldTable) (ρ : MapIter) (lists : listmap)
    (s : GoString) (skip limit : Int)
    (h : ¬ (utf8.ValidString s = true ∧ 3 * (utf8.runes s).length ≤ regexp.maxRunes)) :
    GetLists tbl ρ lists s skip limit = some ([], http.StatusBadRequest) := by
  obtain ⟨e, he⟩ := regexp.Compile_quoted_error s h
  unfold GetLists
  rw [he]
  simp

theorem GetLists_valid (tbl : unicode.FoldTable) (ρ : MapIter) (lists : listmap)
    (s : GoString) (skip limit : Int) (hs : 0 ≤ skip) (hl : 0 ≤ limit)
    (h : utf8.ValidString s = true) (hsz : 3 * (utf8.runes s).length ≤ regexp.maxRunes) :
    GetLists tbl ρ lists s skip limit =
      if 0 ≤ (pageBounds (sortedResults tbl lists s).length skip limit).1 ∧
          (pageBounds (sortedResults tbl lists s).length skip limit).1
            ≤ (pageBounds (sortedResults tbl lists s).length skip limit).2 ∧
          (pageBounds (sortedResults tbl lists s).length skip limit).2
            ≤ (sortedResults tbl lists s).length then
        some ((((sortedResults tbl lists s).drop
            (pageBounds (sortedResults tbl lists s).length skip limit).1.toNat).take
          ((pageBounds (sortedResults tbl lists s).length skip limit).2
            - (pageBounds (sortedResults tbl lists s).length skip limit).1).toNat).map
          (snapshot ρ lists), http.StatusOK)
      else none := by
  unfold GetLists
  rw [regexp.Compile_quoted s h hsz]
  have hneg : ¬ (skip < 0 ∨ limit < 0) := by omega
  simp only [hneg, if_false]
  rw [sorted_collect]

/-- The page `GetLists` returns when nothing overflows. -/
theorem GetLists_window (tbl : unicode.FoldTable) (ρ : MapIter) (lists : listmap)
    (s : GoString) (skip limit : Int) (hs : 0 ≤ skip) (hl : 0 ≤ limit)
    (hsum : skip + limit < 2 ^ 63) (hsize : (lists.entries.length : Int) < 2 ^ 62)
    (h : utf8.ValidString s = true) (hsz : 3 * (utf8.runes s).length ≤ regexp.maxRunes) :
    GetLists tbl ρ lists s skip limit =
      some ((spec.window (sortedResults tbl lists s) skip limit).map (snapshot ρ lists),
        http.StatusOK) := by
  rw [GetLists_valid tbl ρ lists s skip limit hs hl h hsz]
  have hle := sortedResults_length_le tbl lists s
  generalize sortedResults tbl lists s = M at hle ⊢
  have hn : (0 : Int) ≤ M.length := Int.natCast_nonneg _
  have hn2 : (M.length : Int) < 2 ^ 62 := by omega
  rw [pageBounds_of_range _ skip limit hn hn2 hs hl hsum]
  simp only
  have hc : 0 ≤ min skip (M.length : Int) ∧
      min skip (M.length : Int) ≤ min (min skip M.length + if limit = 0 then (M.length : Int)
        else limit) M.length ∧
      min (min skip (M.length : Int) + if limit = 0 then (M.length : Int) else limit) M.length
        ≤ M.length := by
    refine ⟨by omega, ?_, by omega⟩
    split <;> omega
  rw [if_pos hc]
  unfold spec.window
  congr 4
  split <;> omega

theorem snapshot_of_mem (ρ : MapIter) (lists : listmap) (e : uuid.UUID × list)
    (he : e ∈ lists.entries) :
    snapshot ρ lists ⟨e.2.name, e.1⟩ =
      ⟨e.1.String, e.2.name, e.2.description, (e.2.tasks.range ρ).map render⟩ := by
  have hg : lists.get? e.1 = some e.2 := (GoMap.get?_eq_some_iff lists e.1 e.2).mpr he
  simp only [snapshot, hg]
  rfl

/-- Where the matcher and the specification agree on every list, the sorted
results are the sorted matches of the specification: for a search text that
is well-formed UTF-8, if every list name is well-formed UTF-8 or no rune of
the search text is U+FFFD up to case. -/
theorem sortedResults_eq_sortedMatches (tbl : unicode.FoldTable) (lists : listmap)
    (s : GoString) (hv : utf8.ValidString s = true)
    (hag : (∀ e ∈ lists.entries, utf8.ValidString e.2.name = true) ∨
      (∀ r ∈ utf8.runes s, ¬ spec.foldEq tbl r utf8.RuneError)) :
    sortedResults tbl lists s = spec.sortedMatches tbl lists s := by
  unfold sortedResults spec.sortedMatches
  congr 2
  apply List.filter_congr
  intro e he
  apply decide_eq_decide.mpr
  constructor
  · intro hm
    refine spec.containsFold_of_matchesFold tbl e.2.name s hv ?_ hm
    rcases hag with h | h
    · exact Or.inl (h e he)
    · exact Or.inr h
  · exact spec.matchesFold_of_containsFold tbl e.2.name s hv

/-- C6, counterexample. The only list of the store is named by the four bytes
of `latin1`, the search text is the same four bytes, so the name contains the
search text; `GetLists` returns no snapshot, and BadRequest. -/
theorem getLists_latin1_no_match :
    sample.latin1Store.entries.map (fun e => e.2.name) = [sample.latin1] ∧
    spec.containsFold unicode.asciiFold sample.latin1 sample.latin1 ∧
    GetLists unicode.asciiFold MapIter.ascending sample.latin1Store sample.latin1 0 0
      = some ([], http.StatusBadRequest) := by decide

/-- The snapshots of the lists the matcher accepts, for the page
`skip = 0`, `limit = 0`. -/
theorem GetLists_all (tbl : unicode.FoldTable) (ρ : MapIter) (lists : listmap) (s : GoString)
    (hsize : (lists.entries.length : Int) < 2 ^ 62) (hv : utf8.ValidString s = true)
    (hsz : 3 * (utf8.runes s).length ≤ regexp.maxRunes) :
    ∃ resp, GetLists tbl ρ lists s 0 0 = some (resp, http.StatusOK) ∧
      resp.Perm ((lists.entries.filter (fun e => regexp.matchesFold tbl e.2.name s)).map
        (fun e => ⟨e.1.String, e.2.name, e.2.description, (e.2.tasks.range ρ).map render⟩)) := by
  refine ⟨_, GetLists_window tbl ρ lists s 0 0 (le_refl _) (le_refl _) (by norm_num) hsize hv
    hsz, ?_⟩
  have hw : spec.window (sortedResults tbl lists s) 0 0 = sortedResults tbl lists s := by
    unfold spec.window
    have h0 : min (0 : Int) ((sortedResults tbl lists s).length : Int) = 0 := by omega
    simp [h0]
  rw [hw]
  refine ((sortedResults_perm tbl lists s).map _).trans ?_
  rw [List.map_map]
  apply List.Perm.of_eq
  apply List.map_congr_left
  intro e he
  exact snapshot_of_mem ρ lists e (List.mem_filter.mp he).1

/-- C6, amended. For a search text `s` that is well-formed UTF-8 and has at
most 11184810 runes (three times their number is within `maxRunes`),
`GetLists(s, 0, 0)` returns OK with one snapshot for each list whose name the
matcher accepts and no other snapshot; the matcher is the literal sequence of
the runes of `s`, so a metacharacter stands for itself, and it accepts a name
when the name, each byte of it that is part of no well-formed encoding read
as U+FFFD, contains `s` up to case.  If every list name is well-formed UTF-8,
or no rune of `s` is U+FFFD up to case, these are the lists whose name
contains `s` as a case-insensitive substring.  The empty search text matches
every list.  For a search text `bad` that is not well-formed UTF-8, and for a
well-formed search text `big` of more than 11184810 runes, `GetLists` returns
BadRequest and no snapshot.  (The store has fewer than 2^62 lists.) -/
theorem getLists_match_set (tbl : unicode.FoldTable) (ρ : MapIter) (lists : listmap)
    (s bad big : GoString) (hsize : (lists.entries.length : Int) < 2 ^ 62) :
    (utf8.ValidString s = true → 3 * (utf8.runes s).length ≤ regexp.maxRunes →
      regexp.Compile (str "(?i)" ++ regexp.QuoteMeta s)
        = .ok ⟨(utf8.runes s).map (fun r => (r, true))⟩ ∧
      (∃ resp, GetLists tbl ρ lists s 0 0 = some (resp, http.StatusOK) ∧
        resp.Perm ((lists.entries.filter (fun e => regexp.matchesFold tbl e.2.name s)).map
          (fun e => ⟨e.1.String, e.2.name, e.2.description, (e.2.tasks.range ρ).map render⟩))) ∧
      (((∀ e ∈ lists.entries, utf8.ValidString e.2.name = true) ∨
          (∀ r ∈ utf8.runes s, ¬ spec.foldEq tbl r utf8.RuneError)) →
        ∃ resp, GetLists tbl ρ lists s 0 0 = some (resp, http.StatusOK) ∧
          resp.Perm ((lists.entries.filter (fun e => spec.containsFold tbl e.2.name s)).map
            (fun e =>
              ⟨e.1.String, e.2.name, e.2.description, (e.2.tasks.range ρ).map render⟩)))) ∧
    (∃ resp, GetLists tbl ρ lists [] 0 0 = some (resp, http.StatusOK) ∧
      resp.Perm (lists.entries.map
        (fun e => ⟨e.1.String, e.2.name, e.2.description, (e.2.tasks.range ρ).map render⟩))) ∧
    (utf8.ValidString bad = false →
      GetLists tbl ρ lists bad 0 0 = some ([], http.StatusBadRequest)) ∧
    (utf8.ValidString big = true → regexp.maxRunes < 3 * (utf8.runes big).length →
      GetLists tbl ρ lists big 0 0 = some ([], http.StatusBadRequest)) := by
  refine ⟨fun hv hsz => ⟨regexp.Compile_quoted s hv hsz, GetLists_all tbl ρ lists s hsize hv hsz,
    fun hag => ?_⟩, ?_, fun hb => ?_, fun _ hbig => ?_⟩
  · obtain ⟨resp, h1, h2⟩ := GetLists_all tbl ρ lists s hsize hv hsz
    refine ⟨resp, h1, ?_⟩
    have hf : lists.entries.filter (fun e => regexp.matchesFold tbl e.2.name s)
        = lists.entries.filter (fun e => spec.containsFold tbl e.2.name s) := by
      apply List.filter_congr
      intro e he
      apply decide_eq_decide.mpr
      constructor
      · intro hm
        refine spec.containsFold_of_matchesFold tbl e.2.name s hv ?_ hm
        rcases hag with h | h
        · exact Or.inl (h e he)
        · exact Or.inr h
      · exact spec.matchesFold_of_containsFold tbl e.2.name s hv
    rw [← hf]
    exact h2
  · obtain ⟨resp, h1, h2⟩ := GetLists_all tbl ρ lists [] hsize (by decide) (by decide)
    refine ⟨resp, h1, ?_⟩
    have hall : lists.entries.filter (fun e => regexp.matchesFold tbl e.2.name [])
        = lists.entries := by
      apply List.filter_eq_self.mpr
      intro e _
      simp only [decide_eq_true_eq]
      exact ⟨[], [], utf8.runes e.2.name, rfl, List.Forall₂.nil⟩
    rw [hall] at h2
    exact h2
  · apply GetLists_uncompiled
    rw [hb]
    simp
  · apply GetLists_uncompiled
    intro h
    omega

theorem getLists_match_set_witness :
    (regexp.Compile (str "(?i)" ++ regexp.QuoteMeta (str "o."))
        = .ok ⟨(utf8.runes (str "o.")).map (fun r => (r, true))⟩ ∧
      (∃ resp, GetLists unicode.asciiFold MapIter.descending sample.twoStore (str "o.") 0 0
          = some (resp, http.StatusOK) ∧
        resp.Perm ((sample.twoStore.entries.filter
            (fun e => regexp.matchesFold unicode.asciiFold e.2.name (str "o."))).map
          (fun e => ⟨e.1.String, e.2.name, e.2.description,
            (e.2.tasks.range MapIter.descending).map render⟩))) ∧
      ∃ resp, GetLists unicode.asciiFold MapIter.descending sample.twoStore (str "o.") 0 0
          = some (resp, http.StatusOK) ∧
        resp.Perm ((sample.twoStore.entries.filter
            (fun e => spec.containsFold unicode.asciiFold e.2.name (str "o."))).map
          (fun e => ⟨e.1.String, e.2.name, e.2.description,
            (e.2.tasks.range MapIter.descending).map render⟩))) ∧
    (∃ resp, GetLists unicode.asciiFold MapIter.descending sample.twoStore [] 0 0
        = some (resp, http.StatusOK) ∧
      resp.Perm (sample.twoStore.entries.map
        (fun e => ⟨e.1.String, e.2.name, e.2.description,
          (e.2.tasks.range MapIter.descending).map render⟩))) ∧
    GetLists unicode.asciiFold MapIter.descending sample.twoStore sample.latin1 0 0
      = some ([], http.StatusBadRequest) ∧
    GetLists unicode.asciiFold MapIter.descending sample.twoStore sample.longText 0 0
      = some ([], http.StatusBadRequest) :=
  have w := getLists_match_set unicode.asciiFold MapIter.descending sample.twoStore (str "o.")
    sample.latin1 sample.longText (by decide)
  have w1 := w.1 (by decide) (by decide)
  ⟨⟨w1.1, w1.2.1, w1.2.2 (Or.inl (by decide))⟩, w.2.1, w.2.2.1 (by decide),
    w.2.2.2 sample.longText_valid sample.longText_large⟩

/-- A list whose name has a byte that is part of no well-formed encoding is
returned for the search text U+FFFD, which its name does not contain: the
only list of the store is named by the bytes of `latin1`, the search text is
the three bytes of U+FFFD, and `GetLists` returns the list with status OK. -/
theorem getLists_replacement_rune :
    sample.latin1Store.entries.map (fun e => e.2.name) = [sample.latin1] ∧
    utf8.ValidString sample.replacement = true ∧
    utf8.runes sample.replacement = [utf8.RuneError] ∧
    ¬ spec.containsFold unicode.asciiFold sample.latin1 sample.replacement ∧
    regexp.matchesFold unicode.asciiFold sample.latin1 sample.replacement ∧
    GetLists unicode.asciiFold MapIter.ascending sample.latin1Store sample.replacement 0 0
      = some ([⟨sample.home.ID, sample.latin1, str "", []⟩], http.StatusOK) := by decide

/-- The bound on the size of the search text is sharp: the text of 11184811
letters `a` is well-formed UTF-8, the parser counts each of its runes three
times, which is one more than `maxRunes` allows, `regexp.Compile` fails with
"expression too large" and `GetLists` returns BadRequest with `skip` and
`limit` zero. -/
theorem getLists_large_text :
    utf8.ValidString sample.longText = true ∧
    (utf8.runes sample.longText).length = 11184811 ∧
    3 * 11184811 = regexp.maxRunes + 1 ∧
    regexp.Compile (str "(?i)" ++ regexp.QuoteMeta sample.longText) = .error .Large ∧
    GetLists unicode.asciiFold MapIter.ascending sample.twoStore sample.longText 0 0
      = some ([], http.StatusBadRequest) :=
  ⟨sample.longText_valid, sample.longText_runes, by decide,
    regexp.Compile_quoted_large _ sample.longText_valid sample.longText_large,
    GetLists_uncompiled _ _ _ _ _ _
      (fun h => absurd h.2 (Nat.not_le.mpr sample.longText_large))⟩

theorem window_sublist {α : Type} (M : List α) (a b : Nat) :
    ((M.drop a).take b).Sublist M :=
  (List.take_sublist _ _).trans (List.drop_sublist _ _)

theorem sortedResults_nodup_id (tbl : unicode.FoldTable) (lists : listmap) (s : GoString) :
    (sortedResults tbl lists s).Pairwise (fun a b => a.id ≠ b.id) := by
  have hnd := lists.nodup_keys
  rw [List.Nodup, List.pairwise_map] at hnd
  have h2 : ((lists.entries.filter (fun e => regexp.matchesFold tbl e.2.name s)).map
      (fun e => (⟨e.2.name, e.1⟩ : searchresult))).Pairwise (fun a b => a.id ≠ b.id) := by
    rw [List.pairwise_map]
    exact hnd.sublist (List.filter_sublist _)
  exact (sortedResults_perm tbl lists s).symm.pairwise h2 (fun hab => fun h => hab h.symm)

/-- The snapshots of any part of the sorted results are strictly ascending and
have pairwise different ids. -/
theorem snapshots_ordered (tbl : unicode.FoldTable) (ρ : MapIter) (lists : listmap)
    (s : GoString) (W : List searchresult)
    (hW : W.Sublist (sortedResults tbl lists s)) :
    (W.map (snapshot ρ lists)).Pairwise (fun a b =>
      bytesLess a.Name b.Name = true ∨
        (a.Name = b.Name ∧ ∃ x y : uuid.UUID, a.ID = x.String ∧ b.ID = y.String ∧
          bytesLess x.bytes y.bytes = true)) ∧
    ((W.map (snapshot ρ lists)).map TodoList.ID).Nodup := by
  have hsnap : ∀ r ∈ W, (snapshot ρ lists r).ID = r.id.String ∧
      (snapshot ρ lists r).Name = r.name := by
    intro r hr
    obtain ⟨l, hl, hn⟩ := sortedResults_mem tbl lists s r (hW.subset hr)
    constructor
    · simp only [snapshot, hl]
    · simp only [snapshot, hl, hn]
  constructor
  · rw [List.pairwise_map]
    refine ((sortedResults_sorted tbl lists s).sublist hW).imp_of_mem ?_
    intro a b ha hb hab
    obtain ⟨ha1, ha2⟩ := hsnap a ha
    obtain ⟨hb1, hb2⟩ := hsnap b hb
    rw [ha2, hb2]
    rcases (lessResult_iff a b).mp hab with h | ⟨hn, hi⟩
    · exact Or.inl h
    · exact Or.inr ⟨hn, a.id, b.id, ha1, hb1, hi⟩
  · rw [List.Nodup, List.pairwise_map, List.pairwise_map]
    refine ((sortedResults_nodup_id tbl lists s).sublist hW).imp_of_mem ?_
    intro a b ha hb hab hEq
    rw [(hsnap a ha).1, (hsnap b hb).1] at hEq
    exact hab (uuid.String_injective _ _ hEq)

/-- C7. Ordering of the search: whatever `GetLists` returns for non-negative
`skip` and `limit`, the snapshots are strictly ascending by name (byte-wise)
and then by identifier (byte-wise on the 16 bytes); no id appears twice. -/
theorem getLists_ordered (tbl : unicode.FoldTable) (ρ : MapIter) (lists : listmap)
    (s : GoString) (skip limit : Int) (resp : List TodoList) (status : Int)
    (hs : 0 ≤ skip) (hl : 0 ≤ limit)
    (h : GetLists tbl ρ lists s skip limit = some (resp, status)) :
    resp.Pairwise (fun a b =>
      bytesLess a.Name b.Name = true ∨
        (a.Name = b.Name ∧ ∃ x y : uuid.UUID, a.ID = x.String ∧ b.ID = y.String ∧
          bytesLess x.bytes y.bytes = true)) ∧
    (resp.map TodoList.ID).Nodup := by
  by_cases hc : utf8.ValidString s = true ∧ 3 * (utf8.runes s).length ≤ regexp.maxRunes
  · rw [GetLists_valid tbl ρ lists s skip limit hs hl hc.1 hc.2] at h
    split at h
    · simp only [Option.some.injEq, Prod.mk.injEq] at h
      rw [← h.1]
      exact snapshots_ordered tbl ρ lists s _ (window_sublist _ _ _)
    · exact absurd h (by simp)
  · rw [GetLists_uncompiled tbl ρ lists s skip limit hc] at h
    simp only [Option.some.injEq, Prod.mk.injEq] at h
    rw [← h.1]
    simp

theorem getLists_ordered_witness :
    [sample.homeSnapshot, sample.work].Pairwise (fun a b =>
      bytesLess a.Name b.Name = true ∨
        (a.Name = b.Name ∧ ∃ x y : uuid.UUID, a.ID = x.String ∧ b.ID = y.String ∧
          bytesLess x.bytes y.bytes = true)) ∧
    ([sample.homeSnapshot, sample.work].map TodoList.ID).Nodup :=
  getLists_ordered unicode.asciiFold MapIter.descending sample.twoStore (str "O") 0 2
    [sample.homeSnapshot, sample.work] http.StatusOK (by decide) (by decide) (by decide)

/-- C8, counterexample. With the search text of the single byte 0xFF and the
page `skip = 0`, `limit = 1`, `GetLists` does not return OK: it returns
BadRequest. -/
theorem getLists_page_bad_request :
    (0 : Int) ≤ 0 ∧ (0 : Int) ≤ 1 ∧
    GetLists unicode.asciiFold MapIter.ascending sample.twoStore [255] 0 1
      = some ([], http.StatusBadRequest) ∧
    http.StatusBadRequest ≠ http.StatusOK := by decide

/-- C8, amended. Let `s` be a search text that is well-formed UTF-8 and has
at most 11184810 runes (three times their number is within `maxRunes`), `M`
the sequence of the lists whose name the matcher accepts, in strictly
ascending order of name and then id, and `n` its length.  For `skip >= 0`
and `limit >= 0` with `skip + limit` within the integer range, `GetLists`
returns OK with the snapshots of the run of `M` that starts at index
`min(skip, n)` and has `min(limit, n - min(skip, n))` elements for
`limit > 0`, and all the remaining ones for `limit = 0`; for a skip `skip2`
of at least `n` it returns OK and no snapshot.  If every list name is
well-formed UTF-8, or no rune of `s` is U+FFFD up to case, `M` is the sorted
sequence of the lists whose name contains `s` as a case-insensitive
substring.  For a search text `bad` that is not well-formed UTF-8, and for a
well-formed search text `big` of more than 11184810 runes, `GetLists` returns
BadRequest and no snapshot.  (The store has fewer than 2^62 lists.) -/
theorem getLists_page (tbl : unicode.FoldTable) (ρ : MapIter) (lists : listmap)
    (s bad big : GoString) (skip limit skip2 : Int) (hs : 0 ≤ skip) (hl : 0 ≤ limit)
    (hsum : skip + limit < 2 ^ 63) (hsize : (lists.entries.length : Int) < 2 ^ 62) :
    (utf8.ValidString s = true → 3 * (utf8.runes s).length ≤ regexp.maxRunes →
      GetLists tbl ρ lists s skip limit =
        some ((spec.window (sortedResults tbl lists s) skip limit).map (snapshot ρ lists),
          http.StatusOK) ∧
      (sortedResults tbl lists s).Perm
        ((lists.entries.filter (fun e => regexp.matchesFold tbl e.2.name s)).map
          (fun e => ⟨e.2.name, e.1⟩)) ∧
      (sortedResults tbl lists s).Pairwise (fun a b =>
        bytesLess a.name b.name = true ∨
          (a.name = b.name ∧ bytesLess a.id.bytes b.id.bytes = true)) ∧
      (((∀ e ∈ lists.entries, utf8.ValidString e.2.name = true) ∨
          (∀ r ∈ utf8.runes s, ¬ spec.foldEq tbl r utf8.RuneError)) →
        sortedResults tbl lists s = spec.sortedMatches tbl lists s ∧
        GetLists tbl ρ lists s skip limit =
          some ((spec.window (spec.sortedMatches tbl lists s) skip limit).map
            (snapshot ρ lists), http.StatusOK)) ∧
      (((sortedResults tbl lists s).length : Int) ≤ skip2 → skip2 + limit < 2 ^ 63 →
        GetLists tbl ρ lists s skip2 limit = some ([], http.StatusOK))) ∧
    (utf8.ValidString bad = false →
      GetLists tbl ρ lists bad skip limit = some ([], http.StatusBadRequest)) ∧
    (utf8.ValidString big = true → regexp.maxRunes < 3 * (utf8.runes big).length →
      GetLists tbl ρ lists big skip limit = some ([], http.StatusBadRequest)) := by
  refine ⟨fun hv hsz => ?_, fun hb => ?_, fun _ hbig => ?_⟩
  · refine ⟨GetLists_window tbl ρ lists s skip limit hs hl hsum hsize hv hsz,
      sortedResults_perm tbl lists s,
      (sortedResults_sorted tbl lists s).imp (fun h => (lessResult_iff _ _).mp h),
      fun hag => ?_, fun hn hsum2 => ?_⟩
    · have he := sortedResults_eq_sortedMatches tbl lists s hv hag
      refine ⟨he, ?_⟩
      rw [← he]
      exact GetLists_window tbl ρ lists s skip limit hs hl hsum hsize hv hsz
    · have hs2 : 0 ≤ skip2 := le_trans (Int.natCast_nonneg _) hn
      rw [GetLists_window tbl ρ lists s skip2 limit hs2 hl hsum2 hsize hv hsz]
      have : spec.window (sortedResults tbl lists s) skip2 limit = [] := by
        unfold spec.window
        have h1 : min skip2 ((sortedResults tbl lists s).length : Int)
            = (sortedResults tbl lists s).length := by omega
        rw [h1]
        simp
      rw [this]
      rfl
  · apply GetLists_uncompiled
    rw [hb]
    simp
  · apply GetLists_uncompiled
    intro h
    omega

theorem getLists_page_witness :
    (GetLists unicode.asciiFold MapIter.descending sample.twoStore (str "O") 1 1 =
        some ((spec.window (sortedResults unicode.asciiFold sample.twoStore (str "O")) 1
          1).map (snapshot MapIter.descending sample.twoStore), http.StatusOK) ∧
      (sortedResults unicode.asciiFold sample.twoStore (str "O")).Perm
        ((sample.twoStore.entries.filter
            (fun e => regexp.matchesFold unicode.asciiFold e.2.name (str "O"))).map
          (fun e => ⟨e.2.name, e.1⟩)) ∧
      (sortedResults unicode.asciiFold sample.twoStore (str "O")).Pairwise (fun a b =>
        bytesLess a.name b.name = true ∨
          (a.name = b.name ∧ bytesLess a.id.bytes b.id.bytes = true)) ∧
      (sortedResults unicode.asciiFold sample.twoStore (str "O")
          = spec.sortedMatches unicode.asciiFold sample.twoStore (str "O") ∧
        GetLists unicode.asciiFold MapIter.descending sample.twoStore (str "O") 1 1 =
          some ((spec.window (spec.sortedMatches unicode.asciiFold sample.twoStore (str "O")) 1
            1).map (snapshot MapIter.descending sample.twoStore), http.StatusOK)) ∧
      GetLists unicode.asciiFold MapIter.descending sample.twoStore (str "O") 2 1
        = some ([], http.StatusOK)) ∧
    GetLists unicode.asciiFold MapIter.descending sample.twoStore [255] 1 1
      = some ([], http.StatusBadRequest) ∧
    GetLists unicode.asciiFold MapIter.descending sample.twoStore sample.longText 1 1
      = some ([], http.StatusBadRequest) :=
  have w := getLists_page unicode.asciiFold MapIter.descending sample.twoStore (str "O") [255]
    sample.longText 1 1 2 (by decide) (by decide) (by decide) (by decide)
  have w1 := w.1 (by decide) (by decide)
  ⟨⟨w1.1, w1.2.1, w1.2.2.1, w1.2.2.2.1 (Or.inl (by decide)),
      w1.2.2.2.2 (by decide) (by decide)⟩,
    w.2.1 (by decide),
    w.2.2 sample.longText_valid sample.longText_large⟩

theorem snapshot_same (ρ ρ1 : MapIter) (lists : listmap) (r : searchresult) :
    spec.sameSnapshot (snapshot ρ lists r) (snapshot ρ1 lists r) := by
  unfold spec.sameSnapshot snapshot
  cases hg : lists.get? r.id with
  | none => exact ⟨rfl, rfl, rfl, List.Perm.refl _⟩
  | some l =>
    refine ⟨rfl, rfl, rfl, ?_⟩
    exact ((ρ.perm l.tasks.entries).trans (ρ1.perm l.tasks.entries).symm).map _

theorem forall₂_snapshot_same (ρ ρ1 : MapIter) (lists : listmap) :
    ∀ W : List searchresult,
      List.Forall₂ spec.sameSnapshot (W.map (snapshot ρ lists)) (W.map (snapshot ρ1 lists))
  | [] => List.Forall₂.nil
  | r :: W => List.Forall₂.cons (snapshot_same ρ ρ1 lists r) (forall₂_snapshot_same ρ ρ1 lists W)

theorem window_tile {α : Type} (M : List α) (skip limit : Int) (hs : 0 ≤ skip)
    (hl : 1 ≤ limit) : spec.window M skip limit ++ spec.window M (skip + limit) 0
      = spec.window M skip 0 := by
  unfold spec.window
  have hl0 : ¬ limit = 0 := by omega
  simp only [hl0, if_false, if_true]
  have e1 : ((M.length : Int) - min skip (M.length : Int)).toNat
      = M.length - (min skip (M.length : Int)).toNat := by omega
  have e2 : ((M.length : Int) - min (skip + limit) (M.length : Int)).toNat
      = M.length - (min (skip + limit) (M.length : Int)).toNat := by omega
  have e3 : (min (skip + limit) (M.length : Int)).toNat
      = (min skip (M.length : Int)).toNat
        + (min limit ((M.length : Int) - min skip (M.length : Int))).toNat := by omega
  rw [e1, e2, e3]
  generalize (min skip (M.length : Int)).toNat = a
  generalize (min limit ((M.length : Int) - min skip (M.length : Int))).toNat = b
  have h1 : (M.drop (a + b)).take (M.length - (a + b)) = M.drop (a + b) :=
    List.take_of_length_le (by simp)
  have h2 : (M.drop a).take (M.length - a) = M.drop a := List.take_of_length_le (by simp)
  have h3 : M.drop (a + b) = (M.drop a).drop b := by
    rw [List.drop_drop]
  rw [h1, h2, h3]
  exact List.take_append_drop b (M.drop a)

/-- C9, counterexample. The list `home` has two tasks.  When the first page
is built visiting the tasks in ascending order of their ids and the full
result visiting them in descending order, the concatenation of the pages
`(0, 1)` and `(1, 0)` is not the result of `(0, 0)`: the snapshots of `home`
differ in the order of their tasks. -/
theorem getLists_pages_task_order :
    GetLists unicode.asciiFold MapIter.ascending sample.homeStore [] 0 1
      = some ([⟨sample.home.ID, sample.home.Name, sample.home.Description,
          [sample.mow, sample.wash]⟩], http.StatusOK) ∧
    GetLists unicode.asciiFold MapIter.ascending sample.homeStore [] (0 + 1) 0
      = some ([], http.StatusOK) ∧
    GetLists unicode.asciiFold MapIter.descending sample.homeStore [] 0 0
      = some ([⟨sample.home.ID, sample.home.Name, sample.home.Description,
          [sample.wash, sample.mow]⟩], http.StatusOK) ∧
    ([⟨sample.home.ID, sample.home.Name, sample.home.Description,
        [sample.mow, sample.wash]⟩] ++ [] : List TodoList)
      ≠ [⟨sample.home.ID, sample.home.Name, sample.home.Description,
        [sample.wash, sample.mow]⟩] := by decide

/-- C9, amended. For `skip >= 0` and `limit >= 1` with `skip + limit` within
the integer range, on an unchanged store, the calls `GetLists(s, skip, limit)`,
`GetLists(s, skip + limit, 0)` and `GetLists(s, skip, 0)` return the same
status, and the concatenation of the first two results is the third up to the
order of the tasks inside each snapshot: the same snapshots in the same
order, each with the same id, name and description and the same tasks.  When
the three calls visit the tasks in the same order the concatenation equals
the third result.  (The store has fewer than 2^62 lists.) -/
theorem getLists_pages_tile (tbl : unicode.FoldTable) (ρ1 ρ2 ρ3 : MapIter) (lists : listmap)
    (s : GoString) (skip limit : Int) (hs : 0 ≤ skip) (hl : 1 ≤ limit)
    (hsum : skip + limit < 2 ^ 63) (hsize : (lists.entries.length : Int) < 2 ^ 62) :
    (∃ r1 r2 r3 status,
      GetLists tbl ρ1 lists s skip limit = some (r1, status) ∧
      GetLists tbl ρ2 lists s (skip + limit) 0 = some (r2, status) ∧
      GetLists tbl ρ3 lists s skip 0 = some (r3, status) ∧
      List.Forall₂ spec.sameSnapshot (r1 ++ r2) r3) ∧
    (∃ r1 r2 r3 status,
      GetLists tbl ρ1 lists s skip limit = some (r1, status) ∧
      GetLists tbl ρ1 lists s (skip + limit) 0 = some (r2, status) ∧
      GetLists tbl ρ1 lists s skip 0 = some (r3, status) ∧
      r1 ++ r2 = r3) := by
  by_cases hc : utf8.ValidString s = true ∧ 3 * (utf8.runes s).length ≤ regexp.maxRunes
  · obtain ⟨hv, hsz⟩ := hc
    have hl0 : (0 : Int) ≤ limit := by omega
    have g1 := fun ρ => GetLists_window tbl ρ lists s skip limit hs hl0 hsum hsize hv hsz
    have g2 := fun ρ => GetLists_window tbl ρ lists s (skip + limit) 0 (by omega) (le_refl _)
      (by omega) hsize hv hsz
    have g3 := fun ρ => GetLists_window tbl ρ lists s skip 0 hs (le_refl _) (by omega) hsize hv
      hsz
    have ht := window_tile (sortedResults tbl lists s) skip limit hs hl
    refine ⟨⟨_, _, _, _, g1 ρ1, g2 ρ2, g3 ρ3, ?_⟩, ⟨_, _, _, _, g1 ρ1, g2 ρ1, g3 ρ1, ?_⟩⟩
    · rw [← ht, List.map_append]
      exact List.rel_append (forall₂_snapshot_same ρ1 ρ3 lists _)
        (forall₂_snapshot_same ρ2 ρ3 lists _)
    · rw [← List.map_append, ht]
  · exact ⟨⟨[], [], [], _, GetLists_uncompiled tbl ρ1 lists s _ _ hc,
        GetLists_uncompiled tbl ρ2 lists s _ _ hc, GetLists_uncompiled tbl ρ3 lists s _ _ hc,
        List.Forall₂.nil⟩,
      ⟨[], [], [], _, GetLists_uncompiled tbl ρ1 lists s _ _ hc,
        GetLists_uncompiled tbl ρ1 lists s _ _ hc, GetLists_uncompiled tbl ρ1 lists s _ _ hc,
        rfl⟩⟩

theorem getLists_pages_tile_witness :
    (∃ r1 r2 r3 status,
      GetLists unicode.asciiFold MapIter.ascending sample.twoStore (str "O") 0 1
        = some (r1, status) ∧
      GetLists unicode.asciiFold MapIter.ascending sample.twoStore (str "O") (0 + 1) 0
        = some (r2, status) ∧
      GetLists unicode.asciiFold MapIter.descending sample.twoStore (str "O") 0 0
        = some (r3, status) ∧
      List.Forall₂ spec.sameSnapshot (r1 ++ r2) r3) ∧
    (∃ r1 r2 r3 status,
      GetLists unicode.asciiFold MapIter.ascending sample.twoStore (str "O") 0 1
        = some (r1, status) ∧
      GetLists unicode.asciiFold MapIter.ascending sample.twoStore (str "O") (0 + 1) 0
        = some (r2, status) ∧
      GetLists unicode.asciiFold MapIter.ascending sample.twoStore (str "O") 0 0
        = some (r3, status) ∧
      r1 ++ r2 = r3) :=
  getLists_pages_tile unicode.asciiFold MapIter.ascending MapIter.ascending MapIter.descending
    sample.twoStore (str "O") 0 1 (by decide) (by decide) (by decide) (by decide)

/-- C10, counterexample. With `skip = 0` and `limit = 0`, neither negative,
and the search text of the single byte 0xC3 (the beginning of a two-byte
sequence, alone), the matcher is not constructed and `GetLists` returns
BadRequest. -/
theorem getLists_bad_request_not_negative :
    ¬ ((0 : Int) < 0 ∨ (0 : Int) < 0) ∧
    regexp.Compile (str "(?i)" ++ regexp.QuoteMeta [195]) = .error .InvalidUTF8 ∧
    GetLists unicode.asciiFold MapIter.ascending sample.homeStore [195] 0 0
      = some ([], http.StatusBadRequest) :=
  ⟨by decide, rfl, by decide⟩

/-- C10, amended. `GetLists` returns BadRequest if and only if `skip < 0` or
`limit < 0` or the search text is not well-formed UTF-8 or it has more than
11184810 runes (three times their number exceeds `maxRunes`), these two being
the cases in which the matcher is not constructed; and then with an empty
sequence.  For every search text `s2` that is well-formed UTF-8 and has at
most 11184810 runes, and every `skip2 >= 0` and `limit2 >= 0` with
`skip2 + limit2` within the integer range, the matcher is constructed and the
status is OK.  (The store has fewer than 2^62 lists.) -/
theorem getLists_status (tbl : unicode.FoldTable) (ρ : MapIter) (lists : listmap)
    (s s2 : GoString) (skip limit skip2 limit2 : Int) (resp : List TodoList)
    (hsize : (lists.entries.length : Int) < 2 ^ 62) :
    ((∃ r, GetLists tbl ρ lists s skip limit = some (r, http.StatusBadRequest)) ↔
      (skip < 0 ∨ limit < 0 ∨ utf8.ValidString s = false ∨
        regexp.maxRunes < 3 * (utf8.runes s).length)) ∧
    ((∃ re, regexp.Compile (str "(?i)" ++ regexp.QuoteMeta s) = .ok re) ↔
      (utf8.ValidString s = true ∧ 3 * (utf8.runes s).length ≤ regexp.maxRunes)) ∧
    (GetLists tbl ρ lists s skip limit = some (resp, http.StatusBadRequest) → resp = []) ∧
    (0 ≤ skip2 → 0 ≤ limit2 → skip2 + limit2 < 2 ^ 63 → utf8.ValidString s2 = true →
      3 * (utf8.runes s2).length ≤ regexp.maxRunes →
      (∃ re, regexp.Compile (str "(?i)" ++ regexp.QuoteMeta s2) = .ok re) ∧
      ∃ r, GetLists tbl ρ lists s2 skip2 limit2 = some (r, http.StatusOK)) := by
  have hbad : ∀ r, GetLists tbl ρ lists s skip limit = some (r, http.StatusBadRequest) →
      (skip < 0 ∨ limit < 0 ∨ utf8.ValidString s = false ∨
        regexp.maxRunes < 3 * (utf8.runes s).length) ∧ r = [] := by
    intro r h
    by_cases hneg : skip < 0 ∨ limit < 0
    · rw [GetLists_negative tbl ρ lists s skip limit hneg] at h
      simp only [Option.some.injEq, Prod.mk.injEq, and_true] at h
      exact ⟨hneg.elim Or.inl (fun h1 => Or.inr (Or.inl h1)), h.symm⟩
    · by_cases hc : utf8.ValidString s = true ∧ 3 * (utf8.runes s).length ≤ regexp.maxRunes
      · rw [GetLists_valid tbl ρ lists s skip limit (by omega) (by omega) hc.1 hc.2] at h
        split at h
        · simp only [Option.some.injEq, Prod.mk.injEq] at h
          exact absurd h.2 (by decide)
        · exact absurd h (by simp)
      · rw [GetLists_uncompiled tbl ρ lists s skip limit hc] at h
        simp only [Option.some.injEq, Prod.mk.injEq, and_true] at h
        refine ⟨Or.inr (Or.inr ?_), h.symm⟩
        cases hv : utf8.ValidString s with
        | false => exact Or.inl rfl
        | true =>
          refine Or.inr ?_
          have : ¬ 3 * (utf8.runes s).length ≤ regexp.maxRunes := fun h2 => hc ⟨hv, h2⟩
          omega
  refine ⟨⟨fun ⟨r, h⟩ => (hbad r h).1, ?_⟩, ⟨?_, ?_⟩, fun h => (hbad resp h).2, ?_⟩
  · rintro (h | h | h | h)
    · exact ⟨[], GetLists_negative tbl ρ lists s skip limit (Or.inl h)⟩
    · exact ⟨[], GetLists_negative tbl ρ lists s skip limit (Or.inr h)⟩
    · refine ⟨[], GetLists_uncompiled tbl ρ lists s skip limit ?_⟩
      rw [h]
      simp
    · refine ⟨[], GetLists_uncompiled tbl ρ lists s skip limit ?_⟩
      intro h2
      omega
  · rintro ⟨re, hre⟩
    by_contra hc
    obtain ⟨e, he⟩ := regexp.Compile_quoted_error s hc
    rw [he] at hre
    cases hre
  · rintro ⟨hv, hsz⟩
    exact ⟨_, regexp.Compile_quoted s hv hsz⟩
  · intro hs hl hsum hv hsz
    exact ⟨⟨_, regexp.Compile_quoted s2 hv hsz⟩, _,
      GetLists_window tbl ρ lists s2 skip2 limit2 hs hl hsum hsize hv hsz⟩

theorem getLists_status_witness :
    ((∃ r, GetLists unicode.asciiFold MapIter.ascending sample.twoStore sample.latin1 0 2
        = some (r, http.StatusBadRequest)) ↔
      ((0 : Int) < 0 ∨ (2 : Int) < 0 ∨ utf8.ValidString sample.latin1 = false ∨
        regexp.maxRunes < 3 * (utf8.runes sample.latin1).length)) ∧
    ((∃ re, regexp.Compile (str "(?i)" ++ regexp.QuoteMeta sample.latin1) = .ok re) ↔
      (utf8.ValidString sample.latin1 = true ∧
        3 * (utf8.runes sample.latin1).length ≤ regexp.maxRunes)) ∧
    ([] : List TodoList) = [] ∧
    ((∃ re, regexp.Compile (str "(?i)" ++ regexp.QuoteMeta (str "a.b*")) = .ok re) ∧
      ∃ r, GetLists unicode.asciiFold MapIter.ascending sample.twoStore (str "a.b*") 1
        (2 ^ 63 - 2) = some (r, http.StatusOK)) :=
  have w := getLists_status unicode.asciiFold MapIter.ascending sample.twoStore sample.latin1
    (str "a.b*") 0 2 1 (2 ^ 63 - 2) [] (by decide)
  ⟨w.1, w.2.1, w.2.2.1 (by decide),
    w.2.2.2 (by decide) (by decide) (by decide) (by decide) (by decide)⟩

end model

/-! ## The operations on tasks, the statuses and the content of the snapshots -/

theorem insertEntry_keys_of_lookup {V : Type} (k : uuid.UUID) (v v0 : V) :
    ∀ l : List (uuid.UUID × V), Ascending l → lookupEntry k l = some v0 →
      (insertEntry k v l).map Prod.fst = l.map Prod.fst
  | [], _, h => by simp [lookupEntry] at h
  | (k1, v1) :: t, ha, h => by
    unfold Ascending at ha
    rw [List.pairwise_cons] at ha
    simp only [lookupEntry] at h
    simp only [insertEntry]
    by_cases hk : k1 = k
    · subst hk
      simp
    · rw [if_neg hk] at h
      rw [if_neg (fun hh => hk hh.symm)]
      have hmem : (k, v0) ∈ t := (lookupEntry_eq_some_iff k v0 t ha.2).mp h
      have hlt : keyLess k1 k = true := ha.1 (k, v0) hmem
      have hnlt : ¬ keyLess k k1 = true := by
        have := bytesLess_asymm _ _ hlt
        unfold keyLess
        rw [this]; simp
      rw [if_neg hnlt]
      simp only [List.map_cons, List.cons.injEq, true_and]
      exact insertEntry_keys_of_lookup k v v0 t ha.2 h

namespace model

/-- C11. Missing-reference asymmetry: for a well-formed identifier `L` that is
the id of no list of the store, `AddTask(L, t)` returns BadRequest for every
task `t`, well-formed or not, and leaves the store as it is, and `GetList(L)`
on the same store returns NotFound. -/
theorem missing_list_asymmetry (ρ : MapIter) (lists : listmap) (L : GoString) (u : uuid.UUID)
    (t : Task) (hu : uuid.Parse L = some u) (hl : lists.get? u = none) :
    AddTask lists L t = (lists, http.StatusBadRequest) ∧
    (GetList ρ lists L).2 = http.StatusNotFound := by
  constructor
  · simp only [AddTask, hu, hl]
  · simp only [GetList, hu, hl]

theorem missing_list_asymmetry_witness :
    AddTask sample.homeStore sample.otherId sample.mow
      = (sample.homeStore, http.StatusBadRequest) ∧
    (GetList MapIter.ascending sample.homeStore sample.otherId).2 = http.StatusNotFound :=
  missing_list_asymmetry MapIter.ascending sample.homeStore sample.otherId sample.otherUUID
    sample.mow (by decide) (by decide)

end model

namespace model

theorem AddTask_created (lists : listmap) (id : GoString) (t : Task) (u tid : uuid.UUID)
    (l : list) (hu : uuid.Parse id = some u) (hl : lists.get? u = some l)
    (ht : uuid.Parse t.ID = some tid) (hnew : l.tasks.get? tid = none) :
    AddTask lists id t =
      (lists.set u ⟨l.name, l.description, l.tasks.set tid ⟨t.Name, t.Completed⟩⟩,
        http.StatusCreated) := by
  rw [AddTask_found lists id t u l hu hl, addTaskHelper_absent l.tasks t tid ht hnew]

/-- C12. `AddTask` on an existing list `l` with id `u`: BadRequest for a task
whose id is malformed, Conflict for a task whose id is that of a task of `l`,
both without a change of the store, and Created otherwise.  In the Created
case the list keeps its name and description, its task mapping is the old one
extended by exactly the new task with the id, name and completed flag
submitted, every task stored before is unchanged, and every other list is
unchanged. -/
theorem addTask_existing_list (lists : listmap) (id : GoString) (u : uuid.UUID) (l : list)
    (tbad tdup tnew : Task) (dupId newId k u2 : uuid.UUID) (v : task)
    (hu : uuid.Parse id = some u) (hl : lists.get? u = some l) :
    (uuid.Parse tbad.ID = none → AddTask lists id tbad = (lists, http.StatusBadRequest)) ∧
    (uuid.Parse tdup.ID = some dupId → l.tasks.get? dupId = some v →
      AddTask lists id tdup = (lists, http.StatusConflict)) ∧
    (uuid.Parse tnew.ID = some newId → l.tasks.get? newId = none →
      (AddTask lists id tnew).2 = http.StatusCreated ∧
      (AddTask lists id tnew).1.get? u =
        some ⟨l.name, l.description, l.tasks.set newId ⟨tnew.Name, tnew.Completed⟩⟩ ∧
      (l.tasks.set newId ⟨tnew.Name, tnew.Completed⟩).entries.Perm
        ((newId, ⟨tnew.Name, tnew.Completed⟩) :: l.tasks.entries) ∧
      (l.tasks.set newId ⟨tnew.Name, tnew.Completed⟩).get? newId
        = some ⟨tnew.Name, tnew.Completed⟩ ∧
      (k ≠ newId →
        (l.tasks.set newId ⟨tnew.Name, tnew.Completed⟩).get? k = l.tasks.get? k) ∧
      (u2 ≠ u → (AddTask lists id tnew).1.get? u2 = lists.get? u2)) := by
  refine ⟨fun hb => ?_, fun hd hv => ?_, fun hn hnone => ?_⟩
  · rw [AddTask_found lists id tbad u l hu hl, addTaskHelper_malformed l.tasks tbad hb]
    simp only
    rw [GoMap.set_of_get? lists u _ hl]
  · rw [AddTask_found lists id tdup u l hu hl, addTaskHelper_present l.tasks tdup dupId v hd hv]
    simp only
    rw [GoMap.set_of_get? lists u _ hl]
  · rw [AddTask_created lists id tnew u newId l hu hl hn hnone]
    refine ⟨rfl, GoMap.get?_set_same _ _ _, GoMap.set_entries_perm _ _ _ hnone,
      GoMap.get?_set_same _ _ _, fun hk => GoMap.get?_set_ne _ _ _ _ hk,
      fun hu2 => GoMap.get?_set_ne _ _ _ _ hu2⟩

theorem addTask_existing_list_witness :
    AddTask sample.twoStore sample.home.ID sample.badTask
      = (sample.twoStore, http.StatusBadRequest) ∧
    AddTask sample.twoStore sample.home.ID sample.mowAgain
      = (sample.twoStore, http.StatusConflict) ∧
    ((AddTask sample.twoStore sample.home.ID sample.sweep).2 = http.StatusCreated ∧
      (AddTask sample.twoStore sample.home.ID sample.sweep).1.get? sample.homeId =
        some ⟨sample.homeStored.name, sample.homeStored.description,
          sample.homeStored.tasks.set sample.sweepId
            ⟨sample.sweep.Name, sample.sweep.Completed⟩⟩ ∧
      (sample.homeStored.tasks.set sample.sweepId
          ⟨sample.sweep.Name, sample.sweep.Completed⟩).entries.Perm
        ((sample.sweepId, ⟨sample.sweep.Name, sample.sweep.Completed⟩)
          :: sample.homeStored.tasks.entries) ∧
      (sample.homeStored.tasks.set sample.sweepId
          ⟨sample.sweep.Name, sample.sweep.Completed⟩).get? sample.sweepId
        = some ⟨sample.sweep.Name, sample.sweep.Completed⟩ ∧
      (sample.homeStored.tasks.set sample.sweepId
          ⟨sample.sweep.Name, sample.sweep.Completed⟩).get? sample.washId
        = sample.homeStored.tasks.get? sample.washId ∧
      (AddTask sample.twoStore sample.home.ID sample.sweep).1.get? sample.otherUUID
        = sample.twoStore.get? sample.otherUUID) :=
  have w := addTask_existing_list sample.twoStore sample.home.ID sample.homeId sample.homeStored
    sample.badTask sample.mowAgain sample.sweep sample.mowId sample.sweepId sample.washId
    sample.otherUUID ⟨str "mow the yard", true⟩ (by decide) (by decide)
  have w3 := w.2.2 (by decide) (by decide)
  ⟨w.1 (by decide), w.2.1 (by decide) (by decide),
    w3.1, w3.2.1, w3.2.2.1, w3.2.2.2.1, w3.2.2.2.2.1 (by decide), w3.2.2.2.2.2 (by decide)⟩

theorem SetCompleted_found (lists : listmap) (id taskID : GoString) (c : CompletedTask)
    (u tid : uuid.UUID) (l : list) (t : task) (hu : uuid.Parse id = some u)
    (ht : uuid.Parse taskID = some tid) (hl : lists.get? u = some l)
    (hk : l.tasks.get? tid = some t) :
    SetCompleted lists id taskID c =
      (lists.set u ⟨l.name, l.description, l.tasks.set tid ⟨t.name, c.Completed⟩⟩,
        http.StatusCreated) := by
  simp only [SetCompleted, hu, ht, hl, hk]

/-- C13. `SetCompleted` on a list `l` with id `u` that holds a task `t` with id
`tid`: it returns Created, and afterwards the completed flag of the task is
the value submitted, whatever it was before (an overwrite, not a toggle), its
name is unchanged, every other task of the list is unchanged and none is
added, the name and the description of the list are unchanged, and every
other list is unchanged. -/
theorem setCompleted_frame (lists : listmap) (id taskID : GoString) (c : CompletedTask)
    (u tid k u2 : uuid.UUID) (l : list) (t : task) (hu : uuid.Parse id = some u)
    (ht : uuid.Parse taskID = some tid) (hl : lists.get? u = some l)
    (hk : l.tasks.get? tid = some t) :
    (SetCompleted lists id taskID c).2 = http.StatusCreated ∧
    (SetCompleted lists id taskID c).1.get? u =
      some ⟨l.name, l.description, l.tasks.set tid ⟨t.name, c.Completed⟩⟩ ∧
    (l.tasks.set tid ⟨t.name, c.Completed⟩).get? tid = some ⟨t.name, c.Completed⟩ ∧
    (k ≠ tid → (l.tasks.set tid ⟨t.name, c.Completed⟩).get? k = l.tasks.get? k) ∧
    (l.tasks.set tid ⟨t.name, c.Completed⟩).entries.map Prod.fst
      = l.tasks.entries.map Prod.fst ∧
    (u2 ≠ u → (SetCompleted lists id taskID c).1.get? u2 = lists.get? u2) := by
  rw [SetCompleted_found lists id taskID c u tid l t hu ht hl hk]
  refine ⟨rfl, GoMap.get?_set_same _ _ _, GoMap.get?_set_same _ _ _,
    fun hne => GoMap.get?_set_ne _ _ _ _ hne, ?_, fun hne => GoMap.get?_set_ne _ _ _ _ hne⟩
  exact insertEntry_keys_of_lookup tid _ t l.tasks.entries l.tasks.ascending hk

theorem setCompleted_frame_witness :
    (SetCompleted sample.twoStore sample.home.ID sample.mow.ID ⟨true⟩).2
      = http.StatusCreated ∧
    (SetCompleted sample.twoStore sample.home.ID sample.mow.ID ⟨true⟩).1.get? sample.homeId =
      some ⟨sample.homeStored.name, sample.homeStored.description,
        sample.homeStored.tasks.set sample.mowId ⟨str "mow the yard", true⟩⟩ ∧
    (sample.homeStored.tasks.set sample.mowId ⟨str "mow the yard", true⟩).get? sample.mowId
      = some ⟨str "mow the yard", true⟩ ∧
    (sample.homeStored.tasks.set sample.mowId ⟨str "mow the yard", true⟩).get? sample.washId
      = sample.homeStored.tasks.get? sample.washId ∧
    (sample.homeStored.tasks.set sample.mowId ⟨str "mow the yard", true⟩).entries.map Prod.fst
      = sample.homeStored.tasks.entries.map Prod.fst ∧
    (SetCompleted sample.twoStore sample.home.ID sample.mow.ID ⟨true⟩).1.get? sample.otherUUID
      = sample.twoStore.get? sample.otherUUID :=
  have w := setCompleted_frame sample.twoStore sample.home.ID sample.mow.ID ⟨true⟩ sample.homeId
    sample.mowId sample.washId sample.otherUUID sample.homeStored ⟨str "mow the yard", true⟩
    (by decide) (by decide) (by decide) (by decide)
  ⟨w.1, w.2.1, w.2.2.1, w.2.2.2.1 (by decide), w.2.2.2.2.1, w.2.2.2.2.2 (by decide)⟩

end model

namespace model

/-- C14. `SetCompleted` returns BadRequest if and only if the list id is
malformed, or the task id is malformed, or no list has that id, or the list
has no task with that id; in every other case it returns Created; it never
returns Conflict or NotFound. -/
theorem setCompleted_status (lists : listmap) (id taskID : GoString) (c : CompletedTask) :
    ((SetCompleted lists id taskID c).2 = http.StatusBadRequest ↔
      (uuid.Parse id = none ∨ uuid.Parse taskID = none ∨
        (∃ u, uuid.Parse id = some u ∧ lists.get? u = none) ∨
        (∃ u tid l, uuid.Parse id = some u ∧ uuid.Parse taskID = some tid ∧
          lists.get? u = some l ∧ l.tasks.get? tid = none))) ∧
    ((SetCompleted lists id taskID c).2 = http.StatusBadRequest ∨
      (SetCompleted lists id taskID c).2 = http.StatusCreated) ∧
    (SetCompleted lists id taskID c).2 ≠ http.StatusConflict ∧
    (SetCompleted lists id taskID c).2 ≠ http.StatusNotFound := by
  have e1 : http.StatusBadRequest ≠ http.StatusConflict := by decide
  have e2 : http.StatusBadRequest ≠ http.StatusNotFound := by decide
  have e3 : http.StatusCreated ≠ http.StatusBadRequest := by decide
  have e4 : http.StatusCreated ≠ http.StatusConflict := by decide
  have e5 : http.StatusCreated ≠ http.StatusNotFound := by decide
  cases hu : uuid.Parse id with
  | none =>
    have h : SetCompleted lists id taskID c = (lists, http.StatusBadRequest) := by
      simp only [SetCompleted, hu]
    rw [h]
    exact ⟨⟨fun _ => Or.inl rfl, fun _ => rfl⟩, Or.inl rfl, e1, e2⟩
  | some u =>
    cases ht : uuid.Parse taskID with
    | none =>
      have h : SetCompleted lists id taskID c = (lists, http.StatusBadRequest) := by
        simp only [SetCompleted, hu, ht]
      rw [h]
      exact ⟨⟨fun _ => Or.inr (Or.inl rfl), fun _ => rfl⟩, Or.inl rfl,
        e1, e2⟩
    | some tid =>
      cases hl : lists.get? u with
      | none =>
        have h : SetCompleted lists id taskID c = (lists, http.StatusBadRequest) := by
          simp only [SetCompleted, hu, ht, hl]
        rw [h]
        exact ⟨⟨fun _ => Or.inr (Or.inr (Or.inl ⟨u, rfl, hl⟩)), fun _ => rfl⟩,
          Or.inl rfl, e1, e2⟩
      | some l =>
        cases hk : l.tasks.get? tid with
        | none =>
          have h : SetCompleted lists id taskID c = (lists, http.StatusBadRequest) := by
            simp only [SetCompleted, hu, ht, hl, hk]
          rw [h]
          exact ⟨⟨fun _ => Or.inr (Or.inr (Or.inr ⟨u, tid, l, rfl, rfl, hl, hk⟩)), fun _ => rfl⟩,
            Or.inl rfl, e1, e2⟩
        | some t =>
          rw [SetCompleted_found lists id taskID c u tid l t hu ht hl hk]
          refine ⟨⟨fun h => absurd h e3, ?_⟩, Or.inr rfl, e4, e5⟩
          rintro (h | h | ⟨u1, h1, h2⟩ | ⟨u1, tid1, l1, h1, h2, h3, h4⟩)
          · exact absurd h (by simp)
          · exact absurd h (by simp)
          · rw [Option.some.injEq] at h1
            subst h1
            rw [hl] at h2
            exact absurd h2 (by simp)
          · rw [Option.some.injEq] at h1 h2
            subst h1
            subst h2
            rw [hl, Option.some.injEq] at h3
            subst h3
            rw [hk] at h4
            exact absurd h4 (by simp)

theorem setCompleted_status_witness :
    ((SetCompleted sample.twoStore sample.home.ID sample.sweep.ID ⟨true⟩).2
        = http.StatusBadRequest ↔
      (uuid.Parse sample.home.ID = none ∨ uuid.Parse sample.sweep.ID = none ∨
        (∃ u, uuid.Parse sample.home.ID = some u ∧ sample.twoStore.get? u = none) ∨
        (∃ u tid l, uuid.Parse sample.home.ID = some u ∧
          uuid.Parse sample.sweep.ID = some tid ∧
          sample.twoStore.get? u = some l ∧ l.tasks.get? tid = none))) ∧
    ((SetCompleted sample.twoStore sample.home.ID sample.sweep.ID ⟨true⟩).2
        = http.StatusBadRequest ∨
      (SetCompleted sample.twoStore sample.home.ID sample.sweep.ID ⟨true⟩).2
        = http.StatusCreated) ∧
    (SetCompleted sample.twoStore sample.home.ID sample.sweep.ID ⟨true⟩).2
      ≠ http.StatusConflict ∧
    (SetCompleted sample.twoStore sample.home.ID sample.sweep.ID ⟨true⟩).2
      ≠ http.StatusNotFound :=
  setCompleted_status sample.twoStore sample.home.ID sample.sweep.ID ⟨true⟩

end model

namespace model

/-- The loop of `AddList` over embedded tasks whose ids are well-formed and
pairwise different, followed by one more task: its status is the status of
that task, BadRequest when its id is malformed and Conflict when its id is
that of one of the tasks before it. -/
theorem addTasks_first_offender (pre post : List Task) (t : Task)
    (hpre : ∀ p ∈ pre, uuid.Parse p.ID ≠ none)
    (hpw : pre.Pairwise (fun a b => uuid.Parse a.ID ≠ uuid.Parse b.ID)) :
    (uuid.Parse t.ID = none →
      (addTasks GoMap.empty (pre ++ t :: post)).2 = http.StatusBadRequest) ∧
    (∀ p ∈ pre, uuid.Parse t.ID = uuid.Parse p.ID →
      (addTasks GoMap.empty (pre ++ t :: post)).2 = http.StatusConflict) := by
  have hall : ∀ p ∈ pre, ∃ u1, uuid.Parse p.ID = some u1 ∧
      (GoMap.empty : taskmap).get? u1 = none := by
    intro p hp
    obtain ⟨u1, hu1⟩ := Option.ne_none_iff_exists'.mp (hpre p hp)
    exact ⟨u1, hu1, rfl⟩
  obtain ⟨m1, hm1, hperm⟩ := addTasks_created pre GoMap.empty hall hpw
  have happ : addTasks GoMap.empty (pre ++ t :: post) = addTasks m1 (t :: post) := by
    rw [addTasks_append, hm1]
    simp
  rw [happ]
  constructor
  · intro hbad
    rw [addTasks_cons_failed m1 t post m1 _ (addTaskHelper_malformed m1 t hbad) (by decide)]
  · intro p hp hEq
    obtain ⟨u1, hu1⟩ := Option.ne_none_iff_exists'.mp (hpre p hp)
    have hmem : (u1, (⟨p.Name, p.Completed⟩ : task)) ∈ m1.entries := by
      apply hperm.mem_iff.mpr
      rw [show (GoMap.empty : taskmap).entries = [] from rfl, List.append_nil]
      apply List.mem_filterMap.mpr
      exact ⟨p, hp, by simp [entryOf, hu1]⟩
    have hget : m1.get? u1 = some ⟨p.Name, p.Completed⟩ :=
      (GoMap.get?_eq_some_iff m1 u1 _).mpr hmem
    rw [addTasks_cons_failed m1 t post m1 _
      (addTaskHelper_present m1 t u1 _ (hEq.trans hu1) hget) (by decide)]

/-- C15. Validation of the embedded tasks by `AddList`, for a candidate with a
well-formed list id: when the embedded tasks before some task have well-formed
and pairwise different ids and that task has a malformed id, `AddList` returns
BadRequest; when that task has the id of one of the tasks before it, `AddList`
returns Conflict; in both cases the store is unchanged.  Duplicates are judged
within the candidate only: a candidate whose list id is new and whose embedded
ids are well-formed and pairwise different is created, whatever tasks the
lists of the store hold. -/
theorem addList_embedded_tasks (lists : listmap) (id name desc : GoString) (u : uuid.UUID)
    (pre post ts : List Task) (tbad tdup p : Task) (hu : uuid.Parse id = some u)
    (hpre : ∀ q ∈ pre, uuid.Parse q.ID ≠ none)
    (hpw : pre.Pairwise (fun a b => uuid.Parse a.ID ≠ uuid.Parse b.ID)) :
    (uuid.Parse tbad.ID = none →
      AddList lists ⟨id, name, desc, pre ++ tbad :: post⟩ = (lists, http.StatusBadRequest)) ∧
    (p ∈ pre → uuid.Parse tdup.ID = uuid.Parse p.ID →
      AddList lists ⟨id, name, desc, pre ++ tdup :: post⟩ = (lists, http.StatusConflict)) ∧
    ((∀ q ∈ ts, uuid.Parse q.ID ≠ none) →
      ts.Pairwise (fun a b => uuid.Parse a.ID ≠ uuid.Parse b.ID) →
      lists.get? u = none →
      (AddList lists ⟨id, name, desc, ts⟩).2 = http.StatusCreated) := by
  refine ⟨fun hbad => ?_, fun hp hEq => ?_, fun hall hdist hnew => ?_⟩
  · have h := (addTasks_first_offender pre post tbad hpre hpw).1 hbad
    rw [AddList_parsed lists _ u hu]
    simp only [h]
    rfl
  · have h := (addTasks_first_offender pre post tdup hpre hpw).2 p hp hEq
    rw [AddList_parsed lists _ u hu]
    simp only [h]
    rfl
  · have hall2 : ∀ q ∈ ts, ∃ u1, uuid.Parse q.ID = some u1 ∧
        (GoMap.empty : taskmap).get? u1 = none := by
      intro q hq
      obtain ⟨u1, hu1⟩ := Option.ne_none_iff_exists'.mp (hall q hq)
      exact ⟨u1, hu1, rfl⟩
    obtain ⟨m1, hm1, _⟩ := addTasks_created ts GoMap.empty hall2 hdist
    rw [AddList_parsed lists _ u hu]
    simp only [hm1, hnew]
    rfl

theorem addList_embedded_tasks_witness :
    AddList sample.homeStore ⟨sample.otherId, str "Work", str "",
        [sample.mow, sample.wash] ++ sample.badTask :: [sample.mow]⟩
      = (sample.homeStore, http.StatusBadRequest) ∧
    AddList sample.homeStore ⟨sample.otherId, str "Work", str "",
        [sample.mow, sample.wash] ++ sample.mowAgain :: [sample.mow]⟩
      = (sample.homeStore, http.StatusConflict) ∧
    (AddList sample.homeStore ⟨sample.otherId, str "Work", str "",
        [sample.mow, sample.wash]⟩).2 = http.StatusCreated :=
  have w := addList_embedded_tasks sample.homeStore sample.otherId (str "Work") (str "")
    sample.otherUUID [sample.mow, sample.wash] [sample.mow] [sample.mow, sample.wash]
    sample.badTask sample.mowAgain sample.mow (by decide) (by decide) (by decide)
  ⟨w.1 (by decide), w.2.1 (by decide) (by decide), w.2.2 (by decide) (by decide) (by decide)⟩

end model

namespace model

/-- C17. `GetList`: for a malformed id, BadRequest with an empty snapshot, the
id included; for a well-formed id of no list, NotFound with a snapshot that
carries the canonical text of the id and nothing else; and OK exactly when a
list with that id exists. -/
theorem getList_status (ρ : MapIter) (lists : listmap) (idBad idMissing id : GoString)
    (u : uuid.UUID) :
    (uuid.Parse idBad = none →
      GetList ρ lists idBad = (⟨[], [], [], []⟩, http.StatusBadRequest)) ∧
    (uuid.Parse idMissing = some u → lists.get? u = none →
      GetList ρ lists idMissing = (⟨u.String, [], [], []⟩, http.StatusNotFound)) ∧
    ((GetList ρ lists id).2 = http.StatusOK ↔
      ∃ v l, uuid.Parse id = some v ∧ lists.get? v = some l) := by
  refine ⟨fun h => by simp only [GetList, h], fun h1 h2 => by simp only [GetList, h1, h2], ?_⟩
  have e1 : http.StatusBadRequest ≠ http.StatusOK := by decide
  have e2 : http.StatusNotFound ≠ http.StatusOK := by decide
  cases hv : uuid.Parse id with
  | none =>
    have h : GetList ρ lists id = (⟨[], [], [], []⟩, http.StatusBadRequest) := by
      simp only [GetList, hv]
    rw [h]
    exact ⟨fun h => absurd h e1, fun ⟨v, l, h1, _⟩ => absurd h1 (by simp)⟩
  | some v =>
    cases hl : lists.get? v with
    | none =>
      have h : GetList ρ lists id = (⟨v.String, [], [], []⟩, http.StatusNotFound) := by
        simp only [GetList, hv, hl]
      rw [h]
      refine ⟨fun h => absurd h e2, ?_⟩
      rintro ⟨v1, l, h1, h2⟩
      rw [Option.some.injEq] at h1
      subst h1
      rw [hl] at h2
      exact absurd h2 (by simp)
    | some l =>
      rw [GetList_found ρ lists id v l hv hl]
      exact ⟨fun _ => ⟨v, l, rfl, hl⟩, fun _ => rfl⟩

theorem getList_status_witness :
    GetList MapIter.ascending sample.homeStore sample.notAnId
      = (⟨[], [], [], []⟩, http.StatusBadRequest) ∧
    GetList MapIter.ascending sample.homeStore sample.otherId
      = (⟨sample.otherUUID.String, [], [], []⟩, http.StatusNotFound) ∧
    ((GetList MapIter.ascending sample.homeStore sample.upperId).2 = http.StatusOK ↔
      ∃ v l, uuid.Parse sample.upperId = some v ∧ sample.homeStore.get? v = some l) :=
  have w := getList_status MapIter.ascending sample.homeStore sample.notAnId sample.otherId
    sample.upperId sample.otherUUID
  ⟨w.1 (by decide), w.2.1 (by decide) (by decide), w.2.2⟩

/-- C20. Content of the search snapshots: every snapshot `GetLists` returns is
that of a list of the store; it carries the canonical text of the id of the
list, its name and its description, and its tasks are those of the list, each
once, with the canonical text of its id, its name and its completed flag, in
some order; there are as many tasks in the snapshot as in the list, so a list
without tasks gives an empty task sequence. -/
theorem getLists_snapshot_content (tbl : unicode.FoldTable) (ρ : MapIter) (lists : listmap)
    (s : GoString) (skip limit : Int) (resp : List TodoList) (status : Int) (snap : TodoList)
    (h : GetLists tbl ρ lists s skip limit = some (resp, status)) (hsnap : snap ∈ resp) :
    ∃ u l, lists.get? u = some l ∧ snap.ID = u.String ∧ snap.Name = l.name ∧
      snap.Description = l.description ∧
      snap.Tasks.Perm (l.tasks.entries.map
        (fun kv => ⟨kv.1.String, kv.2.name, kv.2.completed⟩)) ∧
      (snap.Tasks.map Task.ID).Nodup ∧
      snap.Tasks.length = l.tasks.entries.length := by
  have hnil : resp ≠ [] := List.ne_nil_of_mem hsnap
  by_cases hneg : skip < 0 ∨ limit < 0
  · rw [GetLists_negative tbl ρ lists s skip limit hneg] at h
    simp only [Option.some.injEq, Prod.mk.injEq] at h
    exact absurd h.1.symm hnil
  · by_cases hc : utf8.ValidString s = true ∧ 3 * (utf8.runes s).length ≤ regexp.maxRunes
    · rw [GetLists_valid tbl ρ lists s skip limit (by omega) (by omega) hc.1 hc.2] at h
      split at h
      · simp only [Option.some.injEq, Prod.mk.injEq] at h
        rw [← h.1] at hsnap
        obtain ⟨r, hr, hrs⟩ := List.mem_map.mp hsnap
        have hrM : r ∈ sortedResults tbl lists s :=
          (window_sublist _ _ _).subset hr
        obtain ⟨l, hl, _⟩ := sortedResults_mem tbl lists s r hrM
        have hsn : snap = ⟨r.id.String, l.name, l.description,
            (l.tasks.range ρ).map render⟩ := by
          rw [← hrs]
          simp only [snapshot, hl]
          rfl
        have hperm : ((l.tasks.range ρ).map render).Perm (l.tasks.entries.map render) :=
          (ρ.perm l.tasks.entries).map render
        refine ⟨r.id, l, hl, by rw [hsn], by rw [hsn], by rw [hsn], by rw [hsn]; exact hperm,
          ?_, ?_⟩
        · rw [hsn]
          simp only
          refine (hperm.map Task.ID).nodup_iff.mpr ?_
          rw [List.map_map]
          have hk := l.tasks.nodup_keys
          have : (l.tasks.entries.map (Task.ID ∘ render))
              = (l.tasks.entries.map Prod.fst).map uuid.UUID.String := by
            rw [List.map_map]
            rfl
          rw [this]
          exact hk.map (fun a b hab => uuid.String_injective a b hab)
        · rw [hsn]
          simp only
          rw [hperm.length_eq, List.length_map]
      · exact absurd h (by simp)
    · rw [GetLists_uncompiled tbl ρ lists s skip limit hc] at h
      simp only [Option.some.injEq, Prod.mk.injEq] at h
      exact absurd h.1.symm hnil

theorem getLists_snapshot_content_witness :
    ∃ u l, sample.twoStore.get? u = some l ∧ sample.homeSnapshot.ID = u.String ∧
      sample.homeSnapshot.Name = l.name ∧ sample.homeSnapshot.Description = l.description ∧
      sample.homeSnapshot.Tasks.Perm (l.tasks.entries.map
        (fun kv => ⟨kv.1.String, kv.2.name, kv.2.completed⟩)) ∧
      (sample.homeSnapshot.Tasks.map Task.ID).Nodup ∧
      sample.homeSnapshot.Tasks.length = l.tasks.entries.length :=
  getLists_snapshot_content unicode.asciiFold MapIter.descending sample.twoStore (str "O") 0 2
    [sample.homeSnapshot, sample.work] http.StatusOK sample.homeSnapshot (by decide) (by decide)

end model

namespace model

theorem addTaskHelper_keeps (tasks : taskmap) (m : Task) (tid : uuid.UUID) (t : task)
    (ht : tasks.get? tid = some t) : (addTaskHelper tasks m).1.get? tid = some t := by
  cases hp : uuid.Parse m.ID with
  | none => rw [addTaskHelper_malformed tasks m hp]; exact ht
  | some k =>
    cases hg : tasks.get? k with
    | some v => rw [addTaskHelper_present tasks m k v hp hg]; exact ht
    | none =>
      rw [addTaskHelper_absent tasks m k hp hg]
      have hne : tid ≠ k := by
        intro hEq
        rw [hEq, hg] at ht
        exact absurd ht (by simp)
      simp only
      rw [GoMap.get?_set_ne _ _ _ _ hne]
      exact ht

theorem AddList_keeps (lists : listmap) (m : TodoList) (u : uuid.UUID) (l : list)
    (hl : lists.get? u = some l) : (AddList lists m).1.get? u = some l := by
  cases hu : uuid.Parse m.ID with
  | none => simp only [AddList, hu]; exact hl
  | some k =>
    rw [AddList_parsed lists m k hu]
    by_cases hst : (addTasks GoMap.empty m.Tasks).2 = http.StatusCreated
    · simp only [hst, ne_eq, not_true_eq_false, if_false]
      cases hg : lists.get? k with
      | some v => exact hl
      | none =>
        have hne : u ≠ k := by
          intro hEq
          rw [hEq, hg] at hl
          exact absurd hl (by simp)
        simp only
        rw [GoMap.get?_set_ne _ _ _ _ hne]
        exact hl
    · simp only [ne_eq, hst, not_false_eq_true, if_true]
      exact hl

/-- What a call leaves of a list `l` with id `u` and of its task `t` with id
`tid`: the list with its name and description, and the task either as it was
or, after a `SetCompleted` for these two ids that returned Created, with the
flag submitted. -/
theorem after_keeps (lists : listmap) (call : Call) (u tid : uuid.UUID) (l : list) (t : task)
    (hl : lists.get? u = some l) :
    ∃ l1, (call.after lists).get? u = some l1 ∧ l1.name = l.name ∧
      l1.description = l.description ∧
      (l.tasks.get? tid = some t →
        l1.tasks.get? tid = some t ∨
        ∃ id taskID c, call = .setCompleted id taskID c ∧ uuid.Parse id = some u ∧
          uuid.Parse taskID = some tid ∧
          (SetCompleted lists id taskID c).2 = http.StatusCreated ∧
          l1.tasks.get? tid = some ⟨t.name, c.Completed⟩) := by
  cases call with
  | addList m =>
    exact ⟨l, AddList_keeps lists m u l hl, rfl, rfl, fun ht => Or.inl ht⟩
  | getList id => exact ⟨l, hl, rfl, rfl, fun ht => Or.inl ht⟩
  | getLists s skip limit => exact ⟨l, hl, rfl, rfl, fun ht => Or.inl ht⟩
  | addTask id m =>
    simp only [Call.after]
    cases hu : uuid.Parse id with
    | none =>
      have h : AddTask lists id m = (lists, http.StatusBadRequest) := by
        simp only [AddTask, hu]
      rw [h]
      exact ⟨l, hl, rfl, rfl, fun ht => Or.inl ht⟩
    | some k =>
      cases hg : lists.get? k with
      | none =>
        have h : AddTask lists id m = (lists, http.StatusBadRequest) := by
          simp only [AddTask, hu, hg]
        rw [h]
        exact ⟨l, hl, rfl, rfl, fun ht => Or.inl ht⟩
      | some l0 =>
        rw [AddTask_found lists id m k l0 hu hg]
        simp only
        by_cases hk : u = k
        · subst hk
          rw [hl, Option.some.injEq] at hg
          subst hg
          exact ⟨_, GoMap.get?_set_same _ _ _, rfl, rfl,
            fun ht => Or.inl (addTaskHelper_keeps l.tasks m tid t ht)⟩
        · rw [GoMap.get?_set_ne _ _ _ _ hk]
          exact ⟨l, hl, rfl, rfl, fun ht => Or.inl ht⟩
  | setCompleted id taskID c =>
    simp only [Call.after]
    have hsame : SetCompleted lists id taskID c = (lists, http.StatusBadRequest) →
        ∃ l1, (SetCompleted lists id taskID c).1.get? u = some l1 ∧ l1.name = l.name ∧
          l1.description = l.description ∧
          (l.tasks.get? tid = some t →
            l1.tasks.get? tid = some t ∨
            ∃ id1 taskID1 c1, Call.setCompleted id taskID c = .setCompleted id1 taskID1 c1 ∧
              uuid.Parse id1 = some u ∧ uuid.Parse taskID1 = some tid ∧
              (SetCompleted lists id1 taskID1 c1).2 = http.StatusCreated ∧
              l1.tasks.get? tid = some ⟨t.name, c1.Completed⟩) := by
      intro h
      rw [h]
      exact ⟨l, hl, rfl, rfl, fun ht => Or.inl ht⟩
    cases hu : uuid.Parse id with
    | none => exact hsame (by simp only [SetCompleted, hu])
    | some k =>
      cases hp : uuid.Parse taskID with
      | none => exact hsame (by simp only [SetCompleted, hu, hp])
      | some tk =>
        cases hg : lists.get? k with
        | none => exact hsame (by simp only [SetCompleted, hu, hp, hg])
        | some l0 =>
          cases hk : l0.tasks.get? tk with
          | none => exact hsame (by simp only [SetCompleted, hu, hp, hg, hk])
          | some t0 =>
            have hfound := SetCompleted_found lists id taskID c k tk l0 t0 hu hp hg hk
            rw [hfound]
            simp only
            by_cases huk : u = k
            · subst huk
              rw [hl, Option.some.injEq] at hg
              subst hg
              refine ⟨_, GoMap.get?_set_same _ _ _, rfl, rfl, fun ht => ?_⟩
              simp only
              by_cases htk : tid = tk
              · subst htk
                rw [ht, Option.some.injEq] at hk
                subst hk
                refine Or.inr ⟨id, taskID, c, rfl, hu, hp, ?_, GoMap.get?_set_same _ _ _⟩
                rw [hfound]
              · rw [GoMap.get?_set_ne _ _ _ _ htk]
                exact Or.inl ht
            · rw [GoMap.get?_set_ne _ _ _ _ huk]
              exact ⟨l, hl, rfl, rfl, fun ht => Or.inl ht⟩

/-- C16. Nothing is ever deleted or renamed: after any call of `AddList`,
`AddTask`, `SetCompleted`, `GetList` or `GetLists`, a list that was in the
store is in it with the same name and description, and a task that was in the
list is in it with the same name; its completed flag differs from what it was
only if the call was a `SetCompleted` for the id of the list and the id of the
task that returned Created. -/
theorem nothing_deleted_or_renamed (lists : listmap) (call : Call) (u tid : uuid.UUID)
    (l : list) (t : task) (hl : lists.get? u = some l) :
    ((call.after lists).get? u).map list.name = some l.name ∧
    ((call.after lists).get? u).map list.description = some l.description ∧
    (l.tasks.get? tid = some t →
      (storedTask (call.after lists) u tid).map task.name = some t.name ∧
      ((storedTask (call.after lists) u tid).map task.completed ≠ some t.completed →
        ∃ id taskID c, call = .setCompleted id taskID c ∧ uuid.Parse id = some u ∧
          uuid.Parse taskID = some tid ∧
          (SetCompleted lists id taskID c).2 = http.StatusCreated)) := by
  obtain ⟨l1, h1, hn, hd, hrest⟩ := after_keeps lists call u tid l t hl
  refine ⟨by rw [h1]; simp [hn], by rw [h1]; simp [hd], fun ht => ?_⟩
  unfold storedTask
  rw [h1]
  simp only [Option.some_bind]
  rcases hrest ht with h | ⟨id, taskID, c, hc, hu, hp, hst, h⟩
  · rw [h]
    exact ⟨rfl, fun hne => absurd rfl hne⟩
  · rw [h]
    exact ⟨rfl, fun _ => ⟨id, taskID, c, hc, hu, hp, hst⟩⟩

theorem nothing_deleted_or_renamed_witness :
    (((Call.setCompleted sample.home.ID sample.wash.ID ⟨true⟩).after sample.twoStore).get?
      sample.homeId).map list.name = some sample.homeStored.name ∧
    (((Call.setCompleted sample.home.ID sample.wash.ID ⟨true⟩).after sample.twoStore).get?
      sample.homeId).map list.description = some sample.homeStored.description ∧
    ((storedTask ((Call.setCompleted sample.home.ID sample.wash.ID ⟨true⟩).after
        sample.twoStore) sample.homeId sample.washId).map task.name
        = some (str "wash dishes") ∧
      ∃ id taskID c, Call.setCompleted sample.home.ID sample.wash.ID ⟨true⟩
          = .setCompleted id taskID c ∧
        uuid.Parse id = some sample.homeId ∧ uuid.Parse taskID = some sample.washId ∧
        (SetCompleted sample.twoStore id taskID c).2 = http.StatusCreated) :=
  have w := nothing_deleted_or_renamed sample.twoStore
    (Call.setCompleted sample.home.ID sample.wash.ID ⟨true⟩) sample.homeId sample.washId
    sample.homeStored ⟨str "wash dishes", false⟩ (by decide)
  have w3 := w.2.2 (by decide)
  ⟨w.1, w.2.1, w3.1, w3.2 (by decide)⟩

/-- C19. The page bounds at a failing input: on the store with the two lists
`home` and `work`, for the empty search text, `skip = 1` and
`limit = 2^63 - 1`, both non-negative 64-bit integers, the addition
`limit += skip` wraps to `-2^63`; the bounds of `results[skip:limit]` are then
`1` and `-2^63`, which are not in the order `0 <= skip <= limit`, and the call
panics instead of returning a page. -/
theorem getLists_limit_overflow :
    (0 : Int) ≤ 1 ∧ (0 : Int) ≤ 2 ^ 63 - 1 ∧ (2 ^ 63 - 1 : Int) < 2 ^ 63 ∧
    (spec.sortedMatches unicode.asciiFold sample.twoStore []).length = 2 ∧
    wrapInt64 ((2 ^ 63 - 1) + 1) = -2 ^ 63 ∧
    pageBounds 2 1 (2 ^ 63 - 1) = (1, -2 ^ 63) ∧
    GetLists unicode.asciiFold MapIter.ascending sample.twoStore [] 1 (2 ^ 63 - 1) = none := by
  decide

end model

/-! ## The two orders, and the order of the writes -/

theorem keyLess_asymm (a b : uuid.UUID) (h : keyLess a b = true) : keyLess b a = false :=
  bytesLess_asymm a.bytes b.bytes h

theorem keyLess_trans (a b c : uuid.UUID) (h1 : keyLess a b = true) (h2 : keyLess b c = true) :
    keyLess a c = true := bytesLess_trans a.bytes b.bytes c.bytes h1 h2

theorem keyLess_ne (a b : uuid.UUID) (h : keyLess a b = true) : a ≠ b := by
  intro hEq
  subst hEq
  rw [keyLess_irrefl] at h
  exact absurd h (by simp)

/-- Of two different keys, one is below the other and not the other way
round. -/
theorem keyLess_of_ne (a b : uuid.UUID) (h : a ≠ b) :
    (keyLess a b = true ∧ keyLess b a = false) ∨ (keyLess b a = true ∧ keyLess a b = false) := by
  rcases keyLess_total a b with h1 | h1 | h1
  · exact Or.inl ⟨h1, keyLess_asymm a b h1⟩
  · exact absurd h1 h
  · exact Or.inr ⟨h1, keyLess_asymm b a h1⟩

/-- A second binding of the same key replaces the first. -/
theorem insertEntry_insertEntry_same {V : Type} (k : uuid.UUID) (v1 v2 : V) :
    ∀ l : List (uuid.UUID × V), insertEntry k v2 (insertEntry k v1 l) = insertEntry k v2 l
  | [] => by simp [insertEntry]
  | (k0, v0) :: t => by
    by_cases h0 : k = k0
    · simp [insertEntry, h0]
    · by_cases hlt : keyLess k k0 = true
      · simp [insertEntry, h0, hlt]
      · simp only [insertEntry, if_neg h0, if_neg hlt]
        rw [insertEntry_insertEntry_same k v1 v2 t]

/-- Bindings of two different keys may be made in either order. -/
theorem insertEntry_comm {V : Type} (k1 k2 : uuid.UUID) (v1 v2 : V) (hne : k1 ≠ k2) :
    ∀ l : List (uuid.UUID × V),
      insertEntry k1 v1 (insertEntry k2 v2 l) = insertEntry k2 v2 (insertEntry k1 v1 l)
  | [] => by
    rcases keyLess_of_ne k1 k2 hne with ⟨ha, hb⟩ | ⟨ha, hb⟩
    · simp [insertEntry, hne, Ne.symm hne, ha, hb]
    · simp [insertEntry, hne, Ne.symm hne, ha, hb]
  | (k0, v0) :: t => by
    have ih := insertEntry_comm k1 k2 v1 v2 hne t
    have hne2 : k2 ≠ k1 := Ne.symm hne
    by_cases h10 : k1 = k0
    · subst h10
      rcases keyLess_of_ne k1 k2 hne with ⟨ha, hb⟩ | ⟨ha, hb⟩
      · simp [insertEntry, hne, hne2, ha, hb]
      · simp [insertEntry, hne, hne2, ha, hb]
    · by_cases h20 : k2 = k0
      · subst h20
        rcases keyLess_of_ne k1 k2 hne with ⟨ha, hb⟩ | ⟨ha, hb⟩
        · simp [insertEntry, hne, hne2, ha, hb]
        · simp [insertEntry, hne, hne2, ha, hb]
      · rcases keyLess_of_ne k1 k0 h10 with ⟨a1, b1⟩ | ⟨a1, b1⟩
        · rcases keyLess_of_ne k2 k0 h20 with ⟨a2, b2⟩ | ⟨a2, b2⟩
          · rcases keyLess_of_ne k1 k2 hne with ⟨ha, hb⟩ | ⟨ha, hb⟩
            · simp [insertEntry, hne, hne2, h10, h20, a1, a2, ha, hb]
            · simp [insertEntry, hne, hne2, h10, h20, a1, a2, ha, hb]
          · have ha : keyLess k1 k2 = true := keyLess_trans k1 k0 k2 a1 a2
            have hb : keyLess k2 k1 = false := keyLess_asymm k1 k2 ha
            simp [insertEntry, hne, hne2, h10, h20, a1, b2, ha, hb]
        · rcases keyLess_of_ne k2 k0 h20 with ⟨a2, b2⟩ | ⟨a2, b2⟩
          · have ha : keyLess k2 k1 = true := keyLess_trans k2 k0 k1 a2 a1
            have hb : keyLess k1 k2 = false := keyLess_asymm k2 k1 ha
            simp [insertEntry, hne, hne2, h10, h20, b1, a2, ha, hb]
          · simp [insertEntry, hne, hne2, h10, h20, b1, b2, ih]

theorem GoMap.set_set_same {V : Type} (m : GoMap V) (k : uuid.UUID) (v1 v2 : V) :
    (m.set k v1).set k v2 = m.set k v2 :=
  GoMap.ext (insertEntry_insertEntry_same k v1 v2 m.entries)

theorem GoMap.set_comm {V : Type} (m : GoMap V) (k1 k2 : uuid.UUID) (v1 v2 : V) (hne : k1 ≠ k2) :
    (m.set k2 v2).set k1 v1 = (m.set k1 v1).set k2 v2 :=
  GoMap.ext (insertEntry_comm k1 k2 v1 v2 hne m.entries)

/-- The comparison of `sort.Slice` may be replaced by one that agrees with it
through a rewriting of the elements. -/
theorem sort.insert_map {α β : Type} (f : α → β) (less1 : β → β → Bool) (less2 : α → α → Bool)
    (h : ∀ a b, less1 (f a) (f b) = less2 a b) (a : α) :
    ∀ l : List α, sort.insert less1 (f a) (l.map f) = (sort.insert less2 a l).map f
  | [] => rfl
  | b :: l => by
    simp only [List.map_cons, sort.insert, h a b]
    by_cases hab : less2 a b = true
    · simp [hab]
    · simp only [hab, Bool.false_eq_true, if_false, List.map_cons]
      rw [sort.insert_map f less1 less2 h a l]

theorem sort.Slice_map {α β : Type} (f : α → β) (less1 : β → β → Bool) (less2 : α → α → Bool)
    (h : ∀ a b, less1 (f a) (f b) = less2 a b) :
    ∀ l : List α, sort.Slice less1 (l.map f) = (sort.Slice less2 l).map f
  | [] => rfl
  | a :: l => by
    simp only [List.map_cons, sort.Slice]
    rw [sort.Slice_map f less1 less2 h l, sort.insert_map f less1 less2 h a]

namespace model

/-- The comparison of `GetList`, on tasks that carry the canonical texts of
two ids, is the comparison of `GetLists` on the ids. -/
theorem lessTask_eq_lessResult (a b : uuid.UUID) (n m : GoString) (x y : Bool) :
    lessTask ⟨a.String, n, x⟩ ⟨b.String, m, y⟩ = lessResult ⟨n, a⟩ ⟨m, b⟩ := by
  unfold lessTask lessResult
  simp only [uuid.bytesLess_String]

/-- C21. The two comparisons that break ties order the ids alike: the
canonical text of `a` is below that of `b` as a string exactly when the bytes
of `a` are below those of `b` under `bytes.Compare`.  So the comparison
`GetList` passes to `sort.Slice`, on tasks with canonical ids, is the
comparison `GetLists` passes, on the pairs of the same names and ids;
sorting with the one gives the order of sorting with the other; and the
common order is strict, transitive, and decides every two different pairs. -/
theorem tie_break_orders_agree (a b c : uuid.UUID) (n m k : GoString) (x y : Bool)
    (rs : List searchresult) :
    (bytesLess a.String b.String = true ↔ keyLess a b = true) ∧
    lessTask ⟨a.String, n, x⟩ ⟨b.String, m, y⟩ = lessResult ⟨n, a⟩ ⟨m, b⟩ ∧
    sort.Slice lessTask (rs.map (asTask x)) = (sort.Slice lessResult rs).map (asTask x) ∧
    lessResult ⟨n, a⟩ ⟨n, a⟩ = false ∧
    (lessResult ⟨n, a⟩ ⟨m, b⟩ = true → lessResult ⟨m, b⟩ ⟨k, c⟩ = true →
      lessResult ⟨n, a⟩ ⟨k, c⟩ = true) ∧
    (lessResult ⟨n, a⟩ ⟨m, b⟩ = true ∨ (n = m ∧ a = b) ∨ lessResult ⟨m, b⟩ ⟨n, a⟩ = true) := by
  refine ⟨by rw [uuid.bytesLess_String], lessTask_eq_lessResult a b n m x y, ?_,
    lessResult_irrefl _, lessResult_trans _ _ _, ?_⟩
  · exact sort.Slice_map (asTask x) lessTask lessResult
      (fun r s => lessTask_eq_lessResult r.id s.id r.name s.name x x) rs
  · by_cases hab : a = b
    · subst hab
      rcases bytesLess_total n m with h | h | h
      · exact Or.inl ((lessResult_iff _ _).mpr (Or.inl h))
      · exact Or.inr (Or.inl ⟨h, rfl⟩)
      · exact Or.inr (Or.inr ((lessResult_iff _ _).mpr (Or.inl h)))
    · rcases lessResult_decides ⟨n, a⟩ ⟨m, b⟩ hab with h | h
      · exact Or.inl h
      · exact Or.inr (Or.inr h)

theorem tie_break_orders_agree_witness :
    (bytesLess sample.mowId.String sample.washId.String = true ↔
      keyLess sample.mowId sample.washId = true) ∧
    lessTask ⟨sample.mowId.String, str "chores", false⟩ ⟨sample.washId.String, str "chores", true⟩
      = lessResult ⟨str "chores", sample.mowId⟩ ⟨str "chores", sample.washId⟩ ∧
    sort.Slice lessTask (sample.chores.map (asTask false))
      = (sort.Slice lessResult sample.chores).map (asTask false) ∧
    lessResult ⟨str "chores", sample.mowId⟩ ⟨str "chores", sample.mowId⟩ = false ∧
    lessResult ⟨str "chores", sample.mowId⟩ ⟨str "chores", sample.sweepId⟩ = true ∧
    (lessResult ⟨str "chores", sample.mowId⟩ ⟨str "chores", sample.washId⟩ = true ∨
      (str "chores" = str "chores" ∧ sample.mowId = sample.washId) ∨
      lessResult ⟨str "chores", sample.washId⟩ ⟨str "chores", sample.mowId⟩ = true) :=
  have w := tie_break_orders_agree sample.mowId sample.washId sample.sweepId (str "chores")
    (str "chores") (str "chores") false true sample.chores
  ⟨w.1, w.2.1, w.2.2.1, w.2.2.2.1, w.2.2.2.2.1 (by decide) (by decide), w.2.2.2.2.2⟩

end model

namespace model

/-- Two tasks with different well-formed ids go into a task map with the same
statuses and the same result in either order. -/
theorem addTaskHelper_comm (tasks : taskmap) (t1 t2 : Task) (u1 u2 : uuid.UUID)
    (h1 : uuid.Parse t1.ID = some u1) (h2 : uuid.Parse t2.ID = some u2) (hne : u1 ≠ u2) :
    (addTaskHelper (addTaskHelper tasks t2).1 t1).2 = (addTaskHelper tasks t1).2 ∧
    (addTaskHelper (addTaskHelper tasks t1).1 t2).1 = (addTaskHelper (addTaskHelper tasks t2).1 t1).1
    := by
  cases g1 : tasks.get? u1 with
  | some w1 =>
    rw [addTaskHelper_present tasks t1 u1 w1 h1 g1]
    cases g2 : tasks.get? u2 with
    | some w2 =>
      rw [addTaskHelper_present tasks t2 u2 w2 h2 g2, addTaskHelper_present tasks t1 u1 w1 h1 g1]
      exact ⟨rfl, rfl⟩
    | none =>
      rw [addTaskHelper_absent tasks t2 u2 h2 g2]
      have g1b : (tasks.set u2 ⟨t2.Name, t2.Completed⟩).get? u1 = some w1 := by
        rw [GoMap.get?_set_ne _ _ _ _ hne, g1]
      rw [addTaskHelper_present _ t1 u1 w1 h1 g1b]
      exact ⟨rfl, rfl⟩
  | none =>
    rw [addTaskHelper_absent tasks t1 u1 h1 g1]
    cases g2 : tasks.get? u2 with
    | some w2 =>
      rw [addTaskHelper_present tasks t2 u2 w2 h2 g2, addTaskHelper_absent tasks t1 u1 h1 g1]
      have g2b : (tasks.set u1 ⟨t1.Name, t1.Completed⟩).get? u2 = some w2 := by
        rw [GoMap.get?_set_ne _ _ _ _ (Ne.symm hne), g2]
      rw [addTaskHelper_present _ t2 u2 w2 h2 g2b]
      exact ⟨rfl, rfl⟩
    | none =>
      rw [addTaskHelper_absent tasks t2 u2 h2 g2]
      have g1b : (tasks.set u2 ⟨t2.Name, t2.Completed⟩).get? u1 = none := by
        rw [GoMap.get?_set_ne _ _ _ _ hne, g1]
      have g2b : (tasks.set u1 ⟨t1.Name, t1.Completed⟩).get? u2 = none := by
        rw [GoMap.get?_set_ne _ _ _ _ (Ne.symm hne), g2]
      rw [addTaskHelper_absent _ t1 u1 h1 g1b, addTaskHelper_absent _ t2 u2 h2 g2b]
      exact ⟨rfl, GoMap.set_comm tasks u2 u1 _ _ (Ne.symm hne)⟩

/-- The status and the store of `AddTask` after another `AddTask` on the same
list, from the task maps the helper leaves. -/
theorem AddTask_AddTask (lists : listmap) (L : GoString) (t1 t2 : Task) (u : uuid.UUID) (l : list)
    (hu : uuid.Parse L = some u) (hl : lists.get? u = some l) :
    AddTask (AddTask lists L t1).1 L t2 =
      (lists.set u ⟨l.name, l.description, (addTaskHelper (addTaskHelper l.tasks t1).1 t2).1⟩,
        (addTaskHelper (addTaskHelper l.tasks t1).1 t2).2) := by
  rw [AddTask_found lists L t1 u l hu hl]
  rw [AddTask_found (lists.set u ⟨l.name, l.description, (addTaskHelper l.tasks t1).1⟩) L t2 u
    ⟨l.name, l.description, (addTaskHelper l.tasks t1).1⟩ hu (GoMap.get?_set_same _ _ _)]
  simp only [GoMap.set_set_same]

theorem AddTask_comm (lists : listmap) (L : GoString) (t1 t2 : Task) (u1 u2 : uuid.UUID)
    (h1 : uuid.Parse t1.ID = some u1) (h2 : uuid.Parse t2.ID = some u2) (hne : u1 ≠ u2) :
    (AddTask (AddTask lists L t2).1 L t1).2 = (AddTask lists L t1).2 ∧
    (AddTask (AddTask lists L t1).1 L t2).1 = (AddTask (AddTask lists L t2).1 L t1).1 := by
  cases hu : uuid.Parse L with
  | none => simp [AddTask, hu]
  | some u =>
    cases hl : lists.get? u with
    | none => simp [AddTask, hu, hl]
    | some l =>
      rw [AddTask_AddTask lists L t1 t2 u l hu hl, AddTask_AddTask lists L t2 t1 u l hu hl,
        AddTask_found lists L t1 u l hu hl]
      have hc := addTaskHelper_comm l.tasks t1 t2 u1 u2 h1 h2 hne
      exact ⟨hc.1, by simp only [hc.2]⟩

/-- A candidate whose embedded tasks fail: `AddList` returns their status and
leaves the store, whatever the store holds. -/
theorem AddList_tasks_failed (lists : listmap) (m : TodoList) (v : uuid.UUID)
    (g : uuid.Parse m.ID = some v) (s : (addTasks GoMap.empty m.Tasks).2 ≠ http.StatusCreated) :
    AddList lists m = (lists, (addTasks GoMap.empty m.Tasks).2) := by
  rw [AddList_parsed lists m v g, if_pos s]

theorem AddList_present (lists : listmap) (m : TodoList) (v : uuid.UUID) (w : list)
    (g : uuid.Parse m.ID = some v) (s : (addTasks GoMap.empty m.Tasks).2 = http.StatusCreated)
    (k : lists.get? v = some w) : AddList lists m = (lists, http.StatusConflict) := by
  rw [AddList_parsed lists m v g, if_neg (fun h => h s), k]

theorem AddList_absent (lists : listmap) (m : TodoList) (v : uuid.UUID)
    (g : uuid.Parse m.ID = some v) (s : (addTasks GoMap.empty m.Tasks).2 = http.StatusCreated)
    (k : lists.get? v = none) :
    AddList lists m =
      (lists.set v ⟨m.Name, m.Description, (addTasks GoMap.empty m.Tasks).1⟩,
        http.StatusCreated) := by
  rw [AddList_parsed lists m v g, if_neg (fun h => h s), k]

/-- Two candidates with different well-formed ids are handled with the same
statuses and the same resulting store in either order. -/
theorem AddList_comm (lists : listmap) (m1 m2 : TodoList) (v1 v2 : uuid.UUID)
    (g1 : uuid.Parse m1.ID = some v1) (g2 : uuid.Parse m2.ID = some v2) (gne : v1 ≠ v2) :
    (AddList (AddList lists m2).1 m1).2 = (AddList lists m1).2 ∧
    (AddList (AddList lists m1).1 m2).1 = (AddList (AddList lists m2).1 m1).1 := by
  by_cases s1 : (addTasks GoMap.empty m1.Tasks).2 = http.StatusCreated
  · by_cases s2 : (addTasks GoMap.empty m2.Tasks).2 = http.StatusCreated
    · cases k1 : lists.get? v1 with
      | some w1 =>
        rw [AddList_present lists m1 v1 w1 g1 s1 k1]
        cases k2 : lists.get? v2 with
        | some w2 =>
          rw [AddList_present lists m2 v2 w2 g2 s2 k2, AddList_present lists m1 v1 w1 g1 s1 k1]
          exact ⟨rfl, rfl⟩
        | none =>
          rw [AddList_absent lists m2 v2 g2 s2 k2]
          have k1b : (lists.set v2 ⟨m2.Name, m2.Description,
              (addTasks GoMap.empty m2.Tasks).1⟩).get? v1 = some w1 := by
            rw [GoMap.get?_set_ne _ _ _ _ gne, k1]
          rw [AddList_present _ m1 v1 w1 g1 s1 k1b]
          exact ⟨rfl, rfl⟩
      | none =>
        rw [AddList_absent lists m1 v1 g1 s1 k1]
        cases k2 : lists.get? v2 with
        | some w2 =>
          rw [AddList_present lists m2 v2 w2 g2 s2 k2, AddList_absent lists m1 v1 g1 s1 k1]
          have k2b : (lists.set v1 ⟨m1.Name, m1.Description,
              (addTasks GoMap.empty m1.Tasks).1⟩).get? v2 = some w2 := by
            rw [GoMap.get?_set_ne _ _ _ _ (Ne.symm gne), k2]
          rw [AddList_present _ m2 v2 w2 g2 s2 k2b]
          exact ⟨rfl, rfl⟩
        | none =>
          rw [AddList_absent lists m2 v2 g2 s2 k2]
          have k1b : (lists.set v2 ⟨m2.Name, m2.Description,
              (addTasks GoMap.empty m2.Tasks).1⟩).get? v1 = none := by
            rw [GoMap.get?_set_ne _ _ _ _ gne, k1]
          have k2b : (lists.set v1 ⟨m1.Name, m1.Description,
              (addTasks GoMap.empty m1.Tasks).1⟩).get? v2 = none := by
            rw [GoMap.get?_set_ne _ _ _ _ (Ne.symm gne), k2]
          rw [AddList_absent _ m1 v1 g1 s1 k1b, AddList_absent _ m2 v2 g2 s2 k2b]
          exact ⟨rfl, GoMap.set_comm lists v2 v1 _ _ (Ne.symm gne)⟩
    · simp only [AddList_tasks_failed _ m2 v2 g2 s2]
      exact ⟨trivial, trivial⟩
  · simp only [AddList_tasks_failed _ m1 v1 g1 s1]
    exact ⟨trivial, trivial⟩

/-- C22. Insertions with different ids commute.  For two tasks whose ids are
well-formed and differ as 128-bit values, and any list id `L`, `AddTask` of
the one and then of the other returns for each task the status it returns in
the opposite order, and leaves the same store.  For two candidate lists whose
ids are well-formed and differ as 128-bit values, the same holds of
`AddList`. -/
theorem insertions_commute (lists : listmap) (L : GoString) (t1 t2 : Task) (u1 u2 : uuid.UUID)
    (m1 m2 : TodoList) (v1 v2 : uuid.UUID) :
    (uuid.Parse t1.ID = some u1 → uuid.Parse t2.ID = some u2 → u1 ≠ u2 →
      (AddTask (AddTask lists L t2).1 L t1).2 = (AddTask lists L t1).2 ∧
      (AddTask (AddTask lists L t1).1 L t2).2 = (AddTask lists L t2).2 ∧
      (AddTask (AddTask lists L t1).1 L t2).1 = (AddTask (AddTask lists L t2).1 L t1).1) ∧
    (uuid.Parse m1.ID = some v1 → uuid.Parse m2.ID = some v2 → v1 ≠ v2 →
      (AddList (AddList lists m2).1 m1).2 = (AddList lists m1).2 ∧
      (AddList (AddList lists m1).1 m2).2 = (AddList lists m2).2 ∧
      (AddList (AddList lists m1).1 m2).1 = (AddList (AddList lists m2).1 m1).1) := by
  constructor
  · intro h1 h2 hne
    exact ⟨(AddTask_comm lists L t1 t2 u1 u2 h1 h2 hne).1,
      (AddTask_comm lists L t2 t1 u2 u1 h2 h1 (Ne.symm hne)).1,
      (AddTask_comm lists L t1 t2 u1 u2 h1 h2 hne).2⟩
  · intro g1 g2 gne
    exact ⟨(AddList_comm lists m1 m2 v1 v2 g1 g2 gne).1,
      (AddList_comm lists m2 m1 v2 v1 g2 g1 (Ne.symm gne)).1,
      (AddList_comm lists m1 m2 v1 v2 g1 g2 gne).2⟩

theorem insertions_commute_witness :
    ((AddTask (AddTask sample.homeStore sample.home.ID sample.dust).1 sample.home.ID
          sample.sweep).2
        = (AddTask sample.homeStore sample.home.ID sample.sweep).2 ∧
      (AddTask (AddTask sample.homeStore sample.home.ID sample.sweep).1 sample.home.ID
          sample.dust).2
        = (AddTask sample.homeStore sample.home.ID sample.dust).2 ∧
      (AddTask (AddTask sample.homeStore sample.home.ID sample.sweep).1 sample.home.ID
          sample.dust).1
        = (AddTask (AddTask sample.homeStore sample.home.ID sample.dust).1 sample.home.ID
          sample.sweep).1) ∧
    ((AddList (AddList sample.homeStore sample.garden).1 sample.work).2
        = (AddList sample.homeStore sample.work).2 ∧
      (AddList (AddList sample.homeStore sample.work).1 sample.garden).2
        = (AddList sample.homeStore sample.garden).2 ∧
      (AddList (AddList sample.homeStore sample.work).1 sample.garden).1
        = (AddList (AddList sample.homeStore sample.garden).1 sample.work).1) :=
  have w := insertions_commute sample.homeStore sample.home.ID sample.sweep sample.dust
    sample.sweepId sample.dustId sample.work sample.garden sample.otherUUID sample.gardenId
  ⟨w.1 (by decide) (by decide) (by decide), w.2 (by decide) (by decide) (by decide)⟩

/-- C23. `SetCompleted` is last-write-wins: a call with `c2` after a call with
`c1` for the same list id and task id returns the status, and leaves the
store, of the call with `c2` alone on the store before both.  In particular a
call repeated with the same flag returns the same status and leaves the store
of the first. -/
theorem setCompleted_last_write_wins (lists : listmap) (L T : GoString) (c1 c2 : CompletedTask) :
    SetCompleted (SetCompleted lists L T c1).1 L T c2 = SetCompleted lists L T c2 ∧
    SetCompleted (SetCompleted lists L T c2).1 L T c2 = SetCompleted lists L T c2 := by
  have key : ∀ a b : CompletedTask,
      SetCompleted (SetCompleted lists L T a).1 L T b = SetCompleted lists L T b := by
    intro a b
    cases hu : uuid.Parse L with
    | none => simp [SetCompleted, hu]
    | some u =>
      cases ht : uuid.Parse T with
      | none => simp [SetCompleted, hu, ht]
      | some tid =>
        cases hl : lists.get? u with
        | none => simp [SetCompleted, hu, ht, hl]
        | some l =>
          cases hk : l.tasks.get? tid with
          | none => simp [SetCompleted, hu, ht, hl, hk]
          | some t =>
            rw [SetCompleted_found lists L T a u tid l t hu ht hl hk,
              SetCompleted_found lists L T b u tid l t hu ht hl hk]
            rw [SetCompleted_found (lists.set u ⟨l.name, l.description,
                l.tasks.set tid ⟨t.name, a.Completed⟩⟩) L T b u tid
              ⟨l.name, l.description, l.tasks.set tid ⟨t.name, a.Completed⟩⟩
              ⟨t.name, a.Completed⟩ hu ht (GoMap.get?_set_same _ _ _) (GoMap.get?_set_same _ _ _)]
            simp only [GoMap.set_set_same]
  exact ⟨key c1 c2, key c2 c2⟩

end model
